import Mathlib

/-!
Verification development for the venn-helper layout engine (TypeScript).

The numeric type of the source (JS `number`) is modelled by an arbitrary
`LinearOrderedField F` (idealized real arithmetic; floating-point rounding is
out of scope of the claims).  JS records (`Record<string, T>`) are modelled as
insertion-ordered association lists, JS `Array.prototype.sort` as a stable
sort, `x ?? y` as `Option.getD`, `x || y` on numbers as "if x = 0 then y else
x" (numeric truthiness; the model has no NaN), and thrown JS exceptions as
`Except String`.

The repository's `circle-intersection` module is not present under `src/`
(only `layout.ts` and the solution/vega module are).  Its functions are
therefore modelled from the spec (section 4.1): `distance`, `circleOverlap`
and `circleCircleIntersection` are given by the closed forms the spec
describes, over a bundle `JsMath` of the JS `Math` primitives they use, while
`intersectionArea` (the N-circle arc-walking primitive, whose internals no
claim depends on) and the external `fmin` optimizers `nelderMead` /
`conjugateGradient` are abstracted as fields of an `ExtLib` bundle.  The
external `fmin` helpers that are simple enough to pin down (`zeros`,
`zerosM`, `norm2`, `bisect`) are modelled concretely.
-/

namespace VennHelper

variable {F : Type} [LinearOrderedField F]

/-! ## JS semantics helpers -/

/-- Numeric `x || y` of JS: `y` when `x` is falsy (`0`), else `x`.  Used for
option fields holding numbers (`params.restarts || 10`). -/
def jsOrNat (o : Option Nat) (d : Nat) : Nat :=
  match o with
  | some n => if n = 0 then d else n
  | none => d

/-- Truthy-or-default for an optional numeric field (`area.weight ? area.weight
: 1.0`): an explicit `0` is falsy in JS and falls back to the default. -/
def jsTruthyD (o : Option F) (d : F) : F :=
  match o with
  | some w => if w = 0 then d else w
  | none => d

/-- Stable insertion of an element into a list: `x` goes before the first
element `y` with `lt x y`; ties keep the original order.  Together with
`stableSortBy` this models `Array.prototype.sort` with a comparator
(ECMAScript sorts are stable). -/
def insertBy (lt : α → α → Bool) (x : α) : List α → List α
  | [] => [x]
  | y :: ys => if lt x y then x :: y :: ys else y :: insertBy lt x ys

/-- Stable sort modelling `Array.prototype.sort(c)`: `lt a b` means the
comparator returned a negative number on `(a, b)`.  Elements are inserted
left to right, each after every element it does not strictly precede, so
ties keep the input order. -/
def stableSortBy (lt : α → α → Bool) (l : List α) : List α :=
  l.foldl (fun acc x => insertBy lt x acc) []

/-- Lookup in a JS-object model (insertion-ordered association list). -/
def jsGet (r : List (String × α)) (k : String) : Option α :=
  match r with
  | [] => none
  | (k', v) :: rest => if k' = k then some v else jsGet rest k

/-- Assignment `r[k] = v` in a JS-object model: replaces the value of an
existing key in place (keeping its position) or appends a new key. -/
def jsSet (r : List (String × α)) (k : String) (v : α) : List (String × α) :=
  match r with
  | [] => [(k, v)]
  | (k', v') :: rest => if k' = k then (k, v) :: rest else (k', v') :: jsSet rest k v

/-- Key list of a JS-object model, in insertion order (`Object.keys`). -/
def jsKeys (r : List (String × α)) : List String := r.map Prod.fst

/-- ToUint32 of JS (`x >>> 0` on a number): truncate toward zero, then reduce
modulo 2^32 into the nonnegative range. -/
def jsToUint32 [FloorRing F] (x : F) : Nat :=
  (((if x < 0 then -(⌊-x⌋) else ⌊x⌋) : Int) % (2 ^ 32 : Int)).toNat

/-! ## Data model (src layout.ts) -/

/-- Area record of the source: an ordered list of set identifiers, a target
size, an optional loss weight and an optional display label. -/
structure Area (F : Type) where
  sets : List String
  size : F
  weight : Option F := none
  label : Option String := none
deriving DecidableEq

/-- Circle record of the source (the transient union-find `parent` pointer is
modelled separately, in the heap embedding used for the frame claim). -/
structure Circle (F : Type) where
  x : F
  y : F
  rowid : Option Nat := none
  size : Option F := none
  radius : F
  setid : String
deriving DecidableEq

/-- CircleRecord: mapping from set identifier to Circle, insertion ordered. -/
abbrev CircleRecord (F : Type) := List (String × Circle F)

/-- Point with x/y fields (candidate positions, intersection points). -/
structure Pt (F : Type) where
  x : F
  y : F
deriving DecidableEq

/-- Anonymous circle argument shape of `circleCircleIntersection`. -/
structure XYR (F : Type) where
  x : F
  y : F
  radius : F
deriving DecidableEq

/-- Overlap adjacency entry of `greedyLayout`. -/
structure OverLap (F : Type) where
  set : String
  size : F
  weight : F
deriving DecidableEq

/-- Layout strategy tag. -/
inductive LayoutKind where
  | greedy
  | MDS
  | best
deriving DecidableEq

/-- Params record (the caller-facing options of `venn`); `minErrorDelta` is
carried because the text-centre solver passes it to `nelderMead`. -/
structure Params (F : Type) where
  layout : Option LayoutKind := none
  restarts : Option Nat := none
  maxIterations : Option Nat := none
  seed : Option F := none
  history : Option (List (List F)) := none
  minErrorDelta : Option F := none
deriving DecidableEq

/-- Arc of the N-circle intersection boundary (shape of the missing
`circle-intersection` module's output consumed by the path builder). -/
structure Arc (F : Type) where
  circle : XYR F
  p1 : Pt F
  p2 : Pt F
  width : F
deriving DecidableEq

/-- Result shape of `intersectionArea`: the overlap area and the boundary
arcs. -/
structure IntersectionResult (F : Type) where
  overlap : F
  arcs : List (Arc F)
deriving DecidableEq

/-- Result shape of fmin's `nelderMead`. -/
structure NMResult (F : Type) where
  x : List F
deriving DecidableEq

/-- Result shape of fmin's `conjugateGradient`. -/
structure CGResult (F : Type) where
  x : List F
  fx : F
deriving DecidableEq

/-- Bundle of the JS `Math` primitives used by the (missing, spec-modelled)
geometry module and by the layout code: square root, arc cosine, cosine,
sine, two-argument arc tangent and pi.  Instantiated with the genuine real
functions for the analytic claims, and with arbitrary total functions for the
structural claims (which hold for every instantiation). -/
structure JsMath (F : Type) where
  sqrt : F → F
  acos : F → F
  cos : F → F
  sin : F → F
  atan2 : F → F → F
  pi : F

/-- Bundle of the remaining external collaborators: the locale-dependent
string comparison used for id sorting, JS number formatting (for SVG path
strings), the N-circle `intersectionArea` primitive of the missing
`circle-intersection` module (no claim depends on its internals; it receives
exactly what the source passes, including possibly-missing circles behind the
source's non-null cast), and fmin's two optimizers. -/
structure ExtLib (F : Type) where
  localeCompare : String → String → Int
  numToString : F → String
  intersectionArea : List (Option (Circle F)) → IntersectionResult F
  nelderMead : (List F → F) → List F → Params F → NMResult F
  conjugateGradient : (List F → List F → F × List F) → List F → Params F → CGResult F

/-! ## Geometry primitives (spec-modelled: missing circle-intersection module)

The `circle-intersection` module is code of this repository that is not under
`src/`; the definitions below are modelled from the spec, section 4.1. -/

/-- Modelled from the spec: `distance(a, b)` of the missing
`circle-intersection` module — "Euclidean distance between two points with
x,y fields". -/
def distanceXY (M : JsMath F) (x1 y1 x2 y2 : F) : F :=
  M.sqrt ((x1 - x2) * (x1 - x2) + (y1 - y2) * (y1 - y2))

/-- Distance between two circles' centers. -/
def distC (M : JsMath F) (a b : Circle F) : F := distanceXY M a.x a.y b.x b.y

/-- Distance between two points. -/
def distPt (M : JsMath F) (a b : Pt F) : F := distanceXY M a.x a.y b.x b.y

/-- Modelled from the spec: `circleOverlap(r1, r2, d)` of the missing
`circle-intersection` module — "returns 0 when d ≥ r1+r2, returns π·min(r1,r2)²
when one circle is fully inside the other (d ≤ |r1−r2|), otherwise the
standard two-circular-segment formula". -/
def circleOverlap (M : JsMath F) (r1 r2 d : F) : F :=
  if r1 + r2 ≤ d then 0
  else if d ≤ |r1 - r2| then M.pi * min r1 r2 ^ 2
  else
    r1 ^ 2 * M.acos ((d ^ 2 + r1 ^ 2 - r2 ^ 2) / (2 * d * r1)) +
      r2 ^ 2 * M.acos ((d ^ 2 + r2 ^ 2 - r1 ^ 2) / (2 * d * r2)) -
      M.sqrt ((-d + r1 + r2) * (d + r1 - r2) * (d - r1 + r2) * (d + r1 + r2)) / 2

/-- Modelled from the spec: `circleCircleIntersection(c1, c2)` of the missing
`circle-intersection` module — "returns the 0, 1 (tangent/coincident), or 2
intersection points of two circles given as x,y,radius; must handle the
coincident-center and identical-circle degeneracies".  Standard construction:
no points when the circles are separated, contained, or concentric; otherwise
the one or two points on the radical line. -/
def circleCircleIntersection (M : JsMath F) (c1 c2 : XYR F) : List (Pt F) :=
  let d := distanceXY M c1.x c1.y c2.x c2.y
  if d = 0 then []
  else if c1.radius + c2.radius < d ∨ d < |c1.radius - c2.radius| then []
  else
    let a := (c1.radius ^ 2 - c2.radius ^ 2 + d ^ 2) / (2 * d)
    let h := M.sqrt (c1.radius ^ 2 - a ^ 2)
    let x0 := c1.x + a * (c2.x - c1.x) / d
    let y0 := c1.y + a * (c2.y - c1.y) / d
    if h = 0 then [⟨x0, y0⟩]
    else
      [⟨x0 + h * (c2.y - c1.y) / d, y0 - h * (c2.x - c1.x) / d⟩,
       ⟨x0 - h * (c2.y - c1.y) / d, y0 + h * (c2.x - c1.x) / d⟩]

/-- Modelled from the spec: `getCenter(points)` of the missing
`circle-intersection` module — "arithmetic centroid of a point sequence". -/
def getCenter (points : List (Pt F)) : Pt F :=
  ⟨(points.map Pt.x).sum / (points.length : F), (points.map Pt.y).sum / (points.length : F)⟩

/-! ## fmin helpers modelled concretely (external dependency) -/

/-- fmin `zerosM`: a zero matrix. -/
def zerosM (n m : Nat) : List (List F) := List.replicate n (List.replicate m 0)

/-- fmin `norm2`: Euclidean norm, via the JS square root. -/
def norm2 (M : JsMath F) (v : List F) : F := M.sqrt ((v.map fun x => x * x).sum)

/-- Loop of fmin's `bisect`: state is the left endpoint `a` and the current
half-width `delta`; each step halves `delta`, probes `mid = a + delta`, moves
`a` to `mid` when `f mid` has the sign of `f a₀`, and returns `mid` once
`|delta|` is below the tolerance or the probe is an exact root. -/
def bisectLoop (f : F → F) (fA tolerance : F) : Nat → F → F → F
  | 0, a, delta => a + delta
  | fuel + 1, a, delta =>
    let delta' := delta / 2
    let mid := a + delta'
    let fMid := f mid
    let a' := if fMid * fA ≥ 0 then mid else a
    if |delta'| < tolerance ∨ fMid = 0 then mid
    else bisectLoop f fA tolerance fuel a' delta'

/-- fmin `bisect(f, a, b)` with its default parameters (100 iterations,
tolerance 1e-10), including its thrown error when the endpoints do not
bracket a sign change. -/
def bisect (f : F → F) (a b : F) : Except String F :=
  let fA := f a
  let fB := f b
  if fA * fB > 0 then .error "Initial bisect points must have opposite signs"
  else if fA = 0 then .ok a
  else if fB = 0 then .ok b
  else .ok (bisectLoop f fA (1 / 10 ^ 10) 100 a (b - a))

/-! ## layout.ts embedding -/

/-- Constant `SMALL = 1e-10` of the source. -/
def SMALL : F := 1 / 10 ^ 10

/-- Default Area used to model total indexing where the source's indexing
cannot miss. -/
def defaultArea : Area F := ⟨[], 0, none, none⟩

/-- Default Circle used to model total indexing where the source's indexing
cannot miss. -/
def defaultCircle : Circle F := ⟨0, 0, none, none, 0, ""⟩

/-- Source `distanceFromIntersectArea(r1, r2, overlap)`: shortcut to
`|r1 - r2|` for (near-)complete overlap, otherwise bisection of
`circleOverlap` on `[0, r1 + r2]`. -/
def distanceFromIntersectArea (M : JsMath F) (r1 r2 overlap : F) : Except String F :=
  if min r1 r2 * min r1 r2 * M.pi ≤ overlap + SMALL then .ok |r1 - r2|
  else bisect (fun d => circleOverlap M r1 r2 d - overlap) 0 (r1 + r2)

/-- Key of the source's `pairs` record: the two ids joined by a comma. -/
def pairKey (a b : String) : String := a ++ "," ++ b

/-- The single-set identifiers collected by `addMissingAreas`, in input
order. -/
def singleIds (areas : List (Area F)) : List String :=
  areas.filterMap fun a => if a.sets.length = 1 then some (a.sets.headD "") else none

/-- The `pairs` record built by `addMissingAreas`: both orientations of every
explicit 2-way Area's id pair. -/
def explicitPairKeys (areas : List (Area F)) : List String :=
  areas.foldr
    (fun a acc =>
      (if a.sets.length = 2 then
        [pairKey (a.sets.headD "") (a.sets.getD 1 ""), pairKey (a.sets.getD 1 "") (a.sets.headD "")]
      else []) ++ acc) []

/-- The zero-size Area `addMissingAreas` appends for a missing pair. -/
def pairArea (a b : String) : Area F := ⟨[a, b], 0, none, none⟩

/-- Nested loop of `addMissingAreas` over the sorted id list: for every `i`
and every `j > i`, a zero-size Area is appended when the ordered key is not
among the explicit pair keys. -/
def missingPairs (pk : List String) : List String → List (Area F)
  | [] => []
  | a :: rest =>
    (rest.filterMap fun b =>
      if pairKey a b ∈ pk then none else some (pairArea a b)) ++
    missingPairs pk rest

/-- Source `addMissingAreas(areas)`: append a zero-size Area for every pair
of single-set ids (taken in locale-sorted order) with no explicit 2-way
Area. -/
def addMissingAreas (E : ExtLib F) (areas : List (Area F)) : List (Area F) :=
  let ids := singleIds areas
  let pk := explicitPairKeys areas
  let sortedIds := stableSortBy (fun a b => decide (E.localeCompare a b < 0)) ids
  areas ++ missingPairs pk sortedIds

/-- Matrix read `m[i][j]` with JS-style total indexing. -/
def mget (mtx : List (List F)) (i j : Nat) : F := (mtx.getD i []).getD j 0

/-- Matrix write `m[i][j] = v`. -/
def mset (mtx : List (List F)) (i j : Nat) (v : F) : List (List F) :=
  mtx.set i ((mtx.getD i []).set j v)

/-- Pair of matrices returned by `getDistanceMatrices`. -/
structure Matrices (F : Type) where
  distances : List (List F)
  constraints : List (List F)
deriving DecidableEq

/-- Source `getDistanceMatrices(areas, sets, setids)`: required center
distances from `distanceFromIntersectArea` plus the subset (+1) / disjoint
(−1) constraint classification for every explicit 2-way Area. -/
def getDistanceMatrices (M : JsMath F) (areas sets : List (Area F))
    (setids : List (String × Nat)) : Except String (Matrices F) :=
  (areas.filter fun x => x.sets.length = 2).foldlM
    (fun (mc : Matrices F) current =>
      match jsGet setids (current.sets.headD ""), jsGet setids (current.sets.getD 1 "") with
      | some left, some right => do
        let r1 := M.sqrt ((sets.getD left defaultArea).size / M.pi)
        let r2 := M.sqrt ((sets.getD right defaultArea).size / M.pi)
        let dist ← distanceFromIntersectArea M r1 r2 current.size
        let ds := mset (mset mc.distances left right dist) right left dist
        let c : F :=
          if current.size + SMALL ≥ min (sets.getD left defaultArea).size (sets.getD right defaultArea).size
          then 1
          else if current.size ≤ SMALL then -1
          else 0
        let cs := mset (mset mc.constraints left right c) right left c
        .ok ⟨ds, cs⟩
      | _, _ => .ok mc)
    ⟨zerosM sets.length sets.length, zerosM sets.length sets.length⟩

/-- Gradient/loss accumulation of `constrainedMDSGradient` for one pair
`(i, j)` of single sets: a pair whose subset/disjoint constraint is already
satisfied in the right direction contributes nothing. -/
def cmdsPair (M : JsMath F) (x : List F) (distances constraints : List (List F))
    (i : Nat) (st : F × List F) (j : Nat) : F × List F :=
  let (loss, fx) := st
  let xi := x.getD (2 * i) 0
  let yi := x.getD (2 * i + 1) 0
  let xj := x.getD (2 * j) 0
  let yj := x.getD (2 * j + 1) 0
  let dij := mget distances i j
  let constraint := mget constraints i j
  let squaredDistance := (xj - xi) * (xj - xi) + (yj - yi) * (yj - yi)
  let dist := M.sqrt squaredDistance
  let delta := squaredDistance - dij * dij
  if (constraint > 0 ∧ dist ≤ dij) ∨ (constraint < 0 ∧ dist ≥ dij) then (loss, fx)
  else
    let fx1 := fx.set (2 * i) (fx.getD (2 * i) 0 + 4 * delta * (xi - xj))
    let fx2 := fx1.set (2 * i + 1) (fx1.getD (2 * i + 1) 0 + 4 * delta * (yi - yj))
    let fx3 := fx2.set (2 * j) (fx2.getD (2 * j) 0 + 4 * delta * (xj - xi))
    let fx4 := fx3.set (2 * j + 1) (fx3.getD (2 * j + 1) 0 + 4 * delta * (yj - yi))
    (loss + 2 * delta * delta, fx4)

/-- Source `constrainedMDSGradient(x, fxprime, distances, constraints)`:
zeroes the gradient vector, then accumulates the masked stress loss and
gradient over all pairs `i < j`.  Returns the loss together with the new
gradient vector (the source writes the latter into `fxprime` in place). -/
def constrainedMDSGradient (M : JsMath F) (x fxprime : List F)
    (distances constraints : List (List F)) : F × List F :=
  let n := distances.length
  (List.range n).foldl
    (fun st i => (((List.range n).drop (i + 1)).foldl (cmdsPair M x distances constraints i) st))
    (0, List.replicate fxprime.length 0)

/-- Modulus of the uint32 view of JS 32-bit integer arithmetic. -/
def U32 : Nat := 2 ^ 32

/-- One step of the source's Mulberry32 generator (`createRandomGenerator`),
on the uint32 view of its int32 state: returns the output word and the new
state. -/
def mulberry32Step (seed : Nat) : Nat × Nat :=
  let s := (seed + 0x6d2b79f5) % U32
  let t1 := ((s ^^^ (s >>> 15)) * ((1 ||| s) % U32)) % U32
  let t2 := (((t1 ^^^ (t1 >>> 7)) * ((61 ||| t1) % U32)) % U32) ^^^ t1
  ((t2 ^^^ (t2 >>> 14)) % U32, s)

/-- One draw of the seeded generator as a number in `[0, 1)`. -/
def randValue (st : Nat) : F × Nat :=
  let (out, s) := mulberry32Step st
  ((out : F) / 4294967296, s)

/-- A list of `n` successive draws of the seeded generator, threading its
state. -/
def randList : Nat → Nat → List F × Nat
  | 0, st => ([], st)
  | n + 1, st =>
    let (v, st') := randValue st
    let (vs, st'') := randList n st'
    (v :: vs, st'')

/-- Per-restart step of `constrainedMDSLayout`: draw a fresh random initial
vector from the shared seeded generator, run the external conjugate-gradient
optimizer, and keep the restart with the lowest final loss. -/
def cmdsRestart (M : JsMath F) (E : ExtLib F) (distances constraints : List (List F))
    (params : Params F) (st : Nat × Option (CGResult F)) (_ : Nat) :
    Nat × Option (CGResult F) :=
  let draw := randList (distances.length * 2) st.1
  let current := E.conjugateGradient
    (fun x fxprime => constrainedMDSGradient M x fxprime distances constraints) draw.1 params
  let best' := match st.2 with
    | none => some current
    | some b => if current.fx < b.fx then some current else some b
  (draw.2, best')

/-- Source `constrainedMDSLayout(areas, params)`: builds the single-set list
and the id-to-row map, the distance/constraint matrices, normalizes the
distance matrix by its mean row norm, runs the seeded multi-restart
conjugate-gradient stress minimization, and converts the best positions back
to circles (rescaled by the norm).  `rnd` models the value `Math.random()`
would produce (used only when `params.seed` is absent).  The in-place
rescaling of `params.history` has no effect on the returned record and is
not modelled. -/
def constrainedMDSLayout [FloorRing F] (M : JsMath F) (E : ExtLib F) (rnd : F)
    (areas : List (Area F)) (params : Params F) : Except String (CircleRecord F) := do
  let restarts := jsOrNat params.restarts 10
  let setsIds := areas.foldl
    (fun (p : List (Area F) × List (String × Nat)) area =>
      if area.sets.length = 1 then
        let setids' : List (String × Nat) :=
          if area.sets.headD "" = "" then p.2 else jsSet p.2 (area.sets.headD "") p.1.length
        (p.1 ++ [area], setids')
      else p) ([], [])
  let sets := setsIds.1
  let mats ← getDistanceMatrices M areas sets setsIds.2
  let norm := norm2 M (mats.distances.map (norm2 M)) / (mats.distances.length : F)
  let distances := mats.distances.map fun row => row.map fun v => v / norm
  let seed := jsToUint32 ((params.seed.getD rnd) * (2 ^ 32 : F))
  let best := ((List.range restarts).foldl
      (cmdsRestart M E distances mats.constraints params) (seed, none)).2
  let positions := (best.map CGResult.x).getD []
  let circles := (List.range sets.length).foldl
    (fun (cr : CircleRecord F) i =>
      let set := sets.getD i defaultArea
      let setName := set.sets.headD ""
      jsSet cr setName
        ⟨positions.getD (2 * i) 0 * norm, positions.getD (2 * i + 1) 0 * norm,
         some cr.length, some set.size, M.sqrt (set.size / M.pi), setName⟩) []
  .ok circles

/-- Source `lossFunction(sets, overlaps)`: sum of
`weight * (achieved − target)²` over the Areas with 2 or more members, the
achieved overlap coming from `circleOverlap` for pairs (skipped when either
circle is missing) and from `intersectionArea` otherwise; single-member Areas
are skipped; a falsy (absent or zero) weight defaults to 1. -/
def lossFunction (M : JsMath F) (E : ExtLib F) (sets : CircleRecord F)
    (overlaps : List (Area F)) : F :=
  overlaps.foldl
    (fun output area =>
      if area.sets.length = 1 then output
      else if area.sets.length = 2 then
        match jsGet sets (area.sets.headD ""), jsGet sets (area.sets.getD 1 "") with
        | some left, some right =>
          let ov := circleOverlap M left.radius right.radius (distC M left right)
          output + jsTruthyD area.weight 1 * (ov - area.size) * (ov - area.size)
        | _, _ => output
      else
        let ov := (E.intersectionArea (area.sets.map (jsGet sets))).overlap
        output + jsTruthyD area.weight 1 * (ov - area.size) * (ov - area.size))
    0

/-- Intermediate state of `greedyLayout` before placement: the fresh circle
record, the weighted overlap adjacency, and the sets ordered by descending
total weighted overlap. -/
structure GreedyPrep (F : Type) where
  circles : CircleRecord F
  setOverlaps : List (String × List (OverLap F))
  mostOverlapped : List (String × F)
deriving DecidableEq

/-- Preparation phase of `greedyLayout`: one circle (at the 1e10 sentinel
position) per single-set Area, omnidirectional overlap lists from the 2-way
Areas (a pair whose size reaches the smaller circle's full size gets weight
0; a pair touching a circle with falsy size is skipped; a pair naming an
undeclared id hits the source's unguarded member access, a TypeError), and
the placement order. -/
def greedyInitStep (M : JsMath F)
    (p : CircleRecord F × List (String × List (OverLap F))) (area : Area F) :
    CircleRecord F × List (String × List (OverLap F)) :=
  if area.sets.length = 1 then
    let set := area.sets.headD ""
    (jsSet p.1 set
      ⟨10 ^ 10, 10 ^ 10, some p.1.length, some area.size, M.sqrt (area.size / M.pi), set⟩,
     jsSet p.2 set [])
  else p

def greedyInit (M : JsMath F) (areas : List (Area F)) :
    CircleRecord F × List (String × List (OverLap F)) :=
  areas.foldl (greedyInitStep M) ([], [])

/-- One 2-way Area of the overlap-adjacency pass of `greedyPrep`: skipped
when either circle's size is falsy, weight zeroed on (near-)complete overlap,
otherwise appended to both endpoints' overlap lists; an endpoint missing from
the circle record hits the source's unguarded member access (a TypeError). -/
def greedySoStep (circles : CircleRecord F) (so : List (String × List (OverLap F)))
    (current : Area F) : Except String (List (String × List (OverLap F))) := do
  let weight := jsTruthyD current.weight 1
  let left := current.sets.headD ""
  let right := current.sets.getD 1 ""
  match jsGet circles left, jsGet circles right with
  | some leftCircle, some rightCircle =>
    if leftCircle.size.getD 0 = 0 ∨ rightCircle.size.getD 0 = 0 then .ok so
    else
      let weight :=
        if current.size + SMALL ≥ min (leftCircle.size.getD 0) (rightCircle.size.getD 0)
        then 0 else weight
      let so := jsSet so left (((jsGet so left).getD []) ++ [⟨right, current.size, weight⟩])
      let so := jsSet so right (((jsGet so right).getD []) ++ [⟨left, current.size, weight⟩])
      .ok so
  | _, _ => .error "TypeError"

def greedyPrep (M : JsMath F) (areas : List (Area F)) : Except String (GreedyPrep F) := do
  let init := greedyInit M areas
  let areas2 := areas.filter fun a => a.sets.length = 2
  let so ← areas2.foldlM (greedySoStep init.1) init.2
  let mostOverlapped := so.map fun kv => (kv.1, (kv.2.map fun o => o.size * o.weight).sum)
  let mostOverlapped := stableSortBy (fun a b => decide ((b.2 : F) < a.2)) mostOverlapped
  .ok ⟨init.1, so, mostOverlapped⟩

/-- Candidate positions of one placement step of `greedyLayout`: for every
positioned overlapping neighbor, the four axis-aligned points at the required
distance, plus, for every later neighbor, the intersection points of the two
distance circles. -/
def greedyPairStep (M : JsMath F) (circles : CircleRecord F) (setRadius : F)
    (p1 : Circle F) (d1 : F) (acc : List (Pt F)) (itemK : OverLap F) :
    Except String (List (Pt F)) := do
  match jsGet circles itemK.set with
  | none => .error "TypeError"
  | some p2 => do
    let d2 ← distanceFromIntersectArea M setRadius p2.radius itemK.size
    .ok (acc ++ circleCircleIntersection M ⟨p1.x, p1.y, d1⟩ ⟨p2.x, p2.y, d2⟩)

def greedyCandidates (M : JsMath F) (circles : CircleRecord F) (setRadius : F) :
    List (OverLap F) → Except String (List (Pt F))
  | [] => .ok []
  | item :: rest =>
    match jsGet circles item.set with
    | none => greedyCandidates M circles setRadius rest
    | some p1 => do
      let d1 ← distanceFromIntersectArea M setRadius p1.radius item.size
      let axis : List (Pt F) :=
        [⟨p1.x + d1, p1.y⟩, ⟨p1.x - d1, p1.y⟩, ⟨p1.x, p1.y + d1⟩, ⟨p1.x, p1.y - d1⟩]
      let extra ← rest.foldlM (greedyPairStep M circles setRadius p1 d1) []
      let tailPts ← greedyCandidates M circles setRadius rest
      .ok (axis ++ extra ++ tailPts)

/-- One placement step of `greedyLayout` (loop body for `i ≥ 1`): filter the
set's overlap list down to positioned neighbors (throwing the source's
missing-overlap error when none remain), generate candidate points, keep the
candidate of minimum loss over the 2-way Areas, and mark the set
positioned. -/
def greedyStep (M : JsMath F) (E : ExtLib F) (areas2 : List (Area F))
    (so : List (String × List (OverLap F))) (st : CircleRecord F × List String)
    (setIndex : String) : Except String (CircleRecord F × List String) := do
  let (circles, positioned) := st
  match (if setIndex = "" then none else jsGet so setIndex) with
  | none => .error "ERROR: missing pairwise overlap information"
  | some ovs =>
    let overlap := stableSortBy (fun a b => decide ((b.size : F) < a.size))
      (ovs.filter fun o => decide (o.set ∈ positioned))
    if overlap.length = 0 then .error "ERROR: missing pairwise overlap information"
    else
      match jsGet circles setIndex with
      | none => .error "TypeError"
      | some set => do
        let points ← greedyCandidates M circles set.radius overlap
        let best := points.foldl
          (fun (bl : F × Option (Pt F)) p =>
            let c' := jsSet circles setIndex {set with x := p.x, y := p.y}
            let l := lossFunction M E c' areas2
            if l < bl.1 then (l, some p) else bl)
          ((10 : F) ^ 50, points.head?)
        match best.2 with
        | none => .error "TypeError"
        | some bp =>
          let circles' := match jsGet circles setIndex with
            | some c => jsSet circles setIndex {c with x := bp.x, y := bp.y}
            | none => circles
          .ok (circles', positioned ++ [setIndex])

/-- Source `greedyLayout(areas, params)`: create circles and overlap lists,
pin the most overlapped set at the origin, then place the remaining sets in
order of descending total weighted overlap. -/
def greedyLayout (M : JsMath F) (E : ExtLib F) (areas : List (Area F))
    (_params : Option (Params F)) : Except String (CircleRecord F) := do
  let prep ← greedyPrep M areas
  let areas2 := areas.filter fun a => a.sets.length = 2
  let first := (prep.mostOverlapped.head?.map Prod.fst).getD ""
  let circles0 := match jsGet prep.circles first with
    | some c => jsSet prep.circles first {c with x := 0, y := 0}
    | none => prep.circles
  let st ← (prep.mostOverlapped.drop 1).foldlM
    (fun st (entry : String × F) => greedyStep M E areas2 prep.setOverlaps st entry.1)
    (circles0, [first])
  .ok st.1

/-- Source `bestInitialLayout(areas, params)`: always run the greedy layout;
when the input list has 8 or more Areas also run constrained MDS, preferring
it only when its loss is better by more than 1e-8. -/
def bestInitialLayout [FloorRing F] (M : JsMath F) (E : ExtLib F) (rnd : F)
    (areas : List (Area F)) (params : Params F) : Except String (CircleRecord F) := do
  let initial ← greedyLayout M E areas (some params)
  if 8 ≤ areas.length then do
    let constrained ← constrainedMDSLayout M E rnd areas params
    let constrainedLoss := lossFunction M E constrained areas
    let greedyLoss := lossFunction M E initial areas
    if constrainedLoss + 1 / 10 ^ 8 < greedyLoss then .ok constrained else .ok initial
  else .ok initial

/-- Rebuilding of the circle record from a flat coordinate vector, as done by
the objective closure inside `venn`. -/
def vennRebuild (circles : CircleRecord F) (setids : List String) (values : List F) :
    CircleRecord F :=
  (List.range setids.length).foldl
    (fun cur i =>
      let setid := setids.getD i ""
      let circ := (jsGet circles setid).getD defaultCircle
      jsSet cur setid
        ⟨values.getD (2 * i) 0, values.getD (2 * i + 1) 0, circ.rowid, circ.size,
         circ.radius, setid⟩) []

/-- Source `venn(areas, parameters)`: fill in the default iteration cap and
seed (`Math.random()`, modelled by `rnd`, only when no seed is supplied),
complete the missing pairwise areas, run the selected initial layout, then
refine all coordinates with the external Nelder-Mead optimizer and write the
refined positions back. -/
def venn [FloorRing F] (M : JsMath F) (E : ExtLib F) (rnd : F) (areas0 : List (Area F))
    (parameters0 : Option (Params F)) : Except String (CircleRecord F) := do
  let p0 := parameters0.getD {}
  let p1 := { p0 with
    maxIterations := some (jsOrNat p0.maxIterations 500)
    seed := some (p0.seed.getD rnd) }
  let areas := addMissingAreas E areas0
  let circles ← match p1.layout.getD .best with
    | .greedy => greedyLayout M E areas (some p1)
    | .MDS => constrainedMDSLayout M E rnd areas p1
    | .best => bestInitialLayout M E rnd areas p1
  let flat := circles.foldl
    (fun (acc : List F × List String) kv => (acc.1 ++ [kv.2.x, kv.2.y], acc.2 ++ [kv.1]))
    ([], [])
  let initial := flat.1
  let setids := flat.2
  let solution := E.nelderMead (fun values => lossFunction M E (vennRebuild circles setids values) areas)
    initial p1
  let positions := solution.x
  let circles' := (List.range setids.length).foldl
    (fun cur i =>
      let setid := setids.getD i ""
      match jsGet cur setid with
      | some circ =>
        jsSet cur setid
          {circ with x := positions.getD (2 * i) 0, y := positions.getD (2 * i + 1) 0}
      | none => cur)
    circles
  .ok circles'

/-! ## layout.ts: normalization and scaling -/

/-- Bounded while-loop normalization of an angle into `[0, 2π]` (the two
`while` loops of the mirror branch of `orientateCircles`; fuel-bounded to
stay total for arbitrary instantiations of `pi`). -/
def angleIntoRange (twoPi : F) : Nat → F → F
  | 0, a => a
  | fuel + 1, a =>
    if a < 0 then angleIntoRange twoPi fuel (a + twoPi)
    else if a > twoPi then angleIntoRange twoPi fuel (a - twoPi)
    else a

/-- Source `orientateCircles(circles, orientation, orientationOrder)`.  The
source's first branch tests `orientationOrder === null`; the TS optional
parameter is `undefined` when absent, never `null`, so the radius-descending
sort branch is dead code, and `Array.sort(undefined)` compares the string
forms of the circles — all equal "[object Object]" — so the stable sort
leaves the order unchanged.  Then: translate so the first circle is at the
origin, offset a 2-circle near-subset pair, rotate so the second circle sits
at the `orientation` angle (absent orientation is `undefined`, and
`undefined ?? 0` gives 0), and mirror a 3-or-more cluster whose third circle
fell on the wrong side. -/
def orientateCircles (M : JsMath F) (circles0 : List (Circle F)) (orientation : Option F)
    (orientationOrder : Option (Circle F → Circle F → F)) : List (Circle F) :=
  let circles := match orientationOrder with
    | none => circles0
    | some cmp => stableSortBy (fun a b => decide (cmp a b < 0)) circles0
  let circles := match circles.head? with
    | none => circles
    | some largest => circles.map fun c => {c with x := c.x - largest.x, y := c.y - largest.y}
  let circles := match circles with
    | [c1, c2] =>
      if distC M c1 c2 < |c2.radius - c1.radius| then
        [c1, {c2 with x := c1.x + c1.radius - c2.radius - SMALL}]
      else [c1, c2]
    | other => other
  let circles : List (Circle F) :=
    if 1 < circles.length then
      let second := circles.getD 1 defaultCircle
      let rotation := M.atan2 second.x second.y - orientation.getD 0
      let c := M.cos rotation
      let s := M.sin rotation
      circles.map fun circ => {circ with x := c * circ.x - s * circ.y, y := s * circ.x + c * circ.y}
    else circles
  if 2 < circles.length then
    let third := circles.getD 2 defaultCircle
    let angle := angleIntoRange (2 * M.pi) 1000
      (M.atan2 third.x third.y - orientation.getD 0)
    if angle > M.pi then
      let second := circles.getD 1 defaultCircle
      let slope := second.y / (SMALL + second.x)
      circles.map fun circ =>
        let d := (circ.x + slope * circ.y) / (1 + slope * slope)
        {circ with x := 2 * d - circ.x, y := 2 * d * slope - circ.y}
    else circles
  else circles

/-- Find of the union-find of `disjointCluster`, over indices into the circle
list (the source mutates transient `parent` pointers on the circles and
path-compresses; path compression does not change any root, so the plain
parent-chasing walk below returns the same roots). -/
def ufFind (parent : List Nat) : Nat → Nat → Nat
  | 0, i => i
  | fuel + 1, i =>
    let p := parent.getD i i
    if p = i then i else ufFind parent fuel p

/-- Pairwise union pass of `disjointCluster`: two circles whose center
distance is below the sum of radii (within the 1e-10 tolerance) get their
roots united (`union(c2, c1)`: the root of the second becomes a child of the
root of the first). -/
def dcParents (M : JsMath F) (circles : List (Circle F)) : List Nat :=
  let n := circles.length
  (List.range n).foldl
    (fun parent i =>
      ((List.range n).drop (i + 1)).foldl
        (fun parent j =>
          let c1 := circles.getD i defaultCircle
          let c2 := circles.getD j defaultCircle
          let maxDistance := c1.radius + c2.radius
          if distC M c1 c2 + SMALL < maxDistance then
            let xRoot := ufFind parent n j
            let yRoot := ufFind parent n i
            parent.set xRoot yRoot
          else parent)
        parent)
    (List.range n)

/-- Source `disjointCluster(circles)`: union-find clustering, grouping the
circles by the set id of their root (a falsy root id drops the circle, as in
the source), clusters returned in root-id insertion order. -/
def disjointCluster (M : JsMath F) (circles : List (Circle F)) : List (List (Circle F)) :=
  let n := circles.length
  let parent := dcParents M circles
  let groups := (List.range n).foldl
    (fun (g : List (String × List (Circle F))) i =>
      let root := ufFind parent n i
      let setid := (circles.getD root defaultCircle).setid
      if setid = "" then g
      else jsSet g setid ((jsGet g setid).getD [] ++ [circles.getD i defaultCircle]))
    []
  groups.map Prod.snd

/-- Range with max/min fields, as built by `getBoundingBox`. -/
structure Range (F : Type) where
  max : F
  min : F
deriving DecidableEq

/-- Bounding box of a circle list. -/
structure Bounds (F : Type) where
  xRange : Range F
  yRange : Range F
deriving DecidableEq

/-- Maximum of a value list (`Math.max.apply`); the JS result on an empty
list is −Infinity, which the model (having no infinities) represents as 0 —
together with `bboxLo` this makes the empty bounding box degenerate, giving
the same observable behavior in every caller. -/
def bboxHi (vals : List F) : F :=
  match vals with
  | [] => 0
  | v :: vs => vs.foldl max v

/-- Minimum of a value list (`Math.min.apply`); 0 on the empty list. -/
def bboxLo (vals : List F) : F :=
  match vals with
  | [] => 0
  | v :: vs => vs.foldl min v

/-- Source `getBoundingBox(circles)`. -/
def getBoundingBox (circles : List (Circle F)) : Bounds F :=
  ⟨⟨bboxHi (circles.map fun c => c.x + c.radius), bboxLo (circles.map fun c => c.x - c.radius)⟩,
   ⟨bboxHi (circles.map fun c => c.y + c.radius), bboxLo (circles.map fun c => c.y - c.radius)⟩⟩

/-- Cluster together with the size and bounds fields the source attaches to
the cluster array. -/
structure ClusterInfo (F : Type) where
  circles : List (Circle F)
  size : F
  bounds : Bounds F
deriving DecidableEq

/-- Offsetting of one packed cluster by `addCluster` of the source: a cluster
with falsy (zero) size is returned unmoved (the source returns before
applying offsets; its circles still sit in the output array), otherwise the
grid offset for the right/bottom flags is applied to every circle. -/
def addClusterOffset (spacing : F) (returnBounds : Bounds F) (info : ClusterInfo F)
    (right bottom : Bool) : List (Circle F) :=
  if info.size = 0 then info.circles
  else
    let bounds := info.bounds
    let xOffset :=
      if right then returnBounds.xRange.max - bounds.xRange.min + spacing
      else
        let base := returnBounds.xRange.max - bounds.xRange.max
        let centreing := (bounds.xRange.max - bounds.xRange.min) / 2 -
          (returnBounds.xRange.max - returnBounds.xRange.min) / 2
        if centreing < 0 then base + centreing else base
    let yOffset :=
      if bottom then returnBounds.yRange.max - bounds.yRange.min + spacing
      else
        let base := returnBounds.yRange.max - bounds.yRange.max
        let centreing := (bounds.yRange.max - bounds.yRange.min) / 2 -
          (returnBounds.yRange.max - returnBounds.yRange.min) / 2
        if centreing < 0 then base + centreing else base
    info.circles.map fun c => {c with x := c.x + xOffset, y := c.y + yOffset}

/-- Grid-packing loop of `normalizeSolution`: lay out the remaining clusters
three at a time (right, below, diagonal of the current bounds), recomputing
the bounds over all circles (done and not yet done) after each triple. -/
def normChunks (spacing : F) : Nat → List (ClusterInfo F) → Bounds F → List (Circle F) →
    List (Circle F)
  | 0, _, _, done => done
  | fuel + 1, rest, returnBounds, done =>
    match rest with
    | [] => done
    | _ =>
      let flags : List (Bool × Bool) := [(true, false), (false, true), (true, true)]
      let moved := ((rest.take 3).zip flags).map fun p =>
        addClusterOffset spacing returnBounds p.1 p.2.1 p.2.2
      let done' := done ++ moved.flatten
      let remaining := rest.drop 3
      let rb' := getBoundingBox (done' ++ (remaining.map ClusterInfo.circles).flatten)
      normChunks spacing fuel remaining rb' done'

/-- Source `normalizeSolution(solution, orientation, orientationOrder)`.  The
`orientation === null` default branch is dead code (the TS optional is
`undefined`, never `null`), so the supplied option flows through unchanged.
The source copies every circle, clusters the copies, orientates each cluster
in place, sorts clusters by bounding-box area (a falsy size compares equal),
then packs all clusters after the largest into a grid; the returned record
maps every set id (in the input record's order) to the final value of its
circle, circles whose union-find root had a falsy set id staying at their
copied positions (they belong to no cluster). -/
def normalizeSolution (M : JsMath F) (solution : CircleRecord F) (orientation : Option F)
    (orientationOrder : Option (Circle F → Circle F → F)) : CircleRecord F :=
  let circles := solution.map fun kv => {kv.2 with setid := kv.1}
  let clusters := disjointCluster M circles
  let infos := clusters.map fun cl =>
    let oc := orientateCircles M cl orientation orientationOrder
    let bounds := getBoundingBox oc
    ClusterInfo.mk oc
      ((bounds.xRange.max - bounds.xRange.min) * (bounds.yRange.max - bounds.yRange.min)) bounds
  let sorted := stableSortBy
    (fun a b => decide (¬(a.size = 0 ∨ b.size = 0) ∧ (b.size : F) - a.size < 0)) infos
  match sorted with
  | [] => []
  | largest :: restClusters =>
    let returnBounds := largest.bounds
    let spacing := (returnBounds.xRange.max - returnBounds.xRange.min) / 50
    let finalAll := normChunks spacing restClusters.length restClusters returnBounds
      largest.circles
    circles.foldl
      (fun r c => jsSet r c.setid ((finalAll.find? fun fc => fc.setid = c.setid).getD c)) []

/-- Source `scaleSolution(solution, width, height, padding)`: returns the
input unchanged when the bounding box is degenerate, otherwise rescales
coordinates and radii uniformly by the smaller per-axis ratio of the padded
viewport to the bounding box, centering the diagram (an entry with a falsy
key is dropped, as in the source's `!id` guard). -/
def scaleSolution (solution : CircleRecord F) (width height padding : F) :
    CircleRecord F :=
  let circles := solution.map Prod.snd
  let width := width - 2 * padding
  let height := height - 2 * padding
  let bounds := getBoundingBox circles
  let xRange := bounds.xRange
  let yRange := bounds.yRange
  if xRange.max = xRange.min ∨ yRange.max = yRange.min then solution
  else
    let xScaling := width / (xRange.max - xRange.min)
    let yScaling := height / (yRange.max - yRange.min)
    let scaling := min yScaling xScaling
    let xOffset := (width - (xRange.max - xRange.min) * scaling) / 2
    let yOffset := (height - (yRange.max - yRange.min) * scaling) / 2
    solution.foldl
      (fun scaled kv =>
        if kv.1 = "" then scaled
        else
          jsSet scaled kv.1
            {kv.2 with
              radius := scaling * kv.2.radius
              x := padding + xOffset + (kv.2.x - xRange.min) * scaling
              y := padding + yOffset + (kv.2.y - yRange.min) * scaling})
      []

/-! ## Solution module embedding (the vega/diagram source file) -/

/-- Options record of `vennSolution`. -/
structure VennOptions (F : Type) where
  orientation : F
  width : F
  height : F
  padding : F
  set_id_delimiter : String
  orientationOrder : Option (Circle F → Circle F → F) := none
  layout : Option LayoutKind := none
  seed : Option F := none

/-- Text-centre result: a point plus the disjoint flag (absent in the source
objects without it, i.e. false). -/
structure TextCentre (F : Type) where
  x : F
  y : F
  disjoint : Bool
deriving DecidableEq

/-- Default arc for total indexing where the source's access cannot miss. -/
def defaultArc : Arc F := ⟨⟨0, 0, 0⟩, ⟨0, 0⟩, ⟨0, 0⟩, 0⟩

/-- Source `getOverlappingCircles(circles)`: for every pair, records full
containment (within the 1e-10 tolerance) of one circle in the other, keyed by
the contained circle. -/
def getOverlappingCircles (M : JsMath F) (circles : CircleRecord F) :
    List (String × List String) :=
  let ids := jsKeys circles
  let init := ids.foldl (fun r id => jsSet r id ([] : List String)) []
  (List.range ids.length).foldl
    (fun ret i =>
      ((List.range ids.length).drop (i + 1)).foldl
        (fun ret j =>
          let a := (jsGet circles (ids.getD i "")).getD defaultCircle
          let b := (jsGet circles (ids.getD j "")).getD defaultCircle
          let d := distC M a b
          if d + b.radius ≤ a.radius + SMALL then
            jsSet ret (ids.getD j "") ((jsGet ret (ids.getD j "")).getD [] ++ [ids.getD i ""])
          else if d + a.radius ≤ b.radius + SMALL then
            jsSet ret (ids.getD i "") ((jsGet ret (ids.getD i "")).getD [] ++ [ids.getD j ""])
          else ret)
        ret)
    init

/-- Source `circleMargin(current, interior, exterior)`: minimum over the
interior circles of the signed clearance to the boundary from inside, capped
by the clearance to every exterior circle from outside.  The source reads
`interior[0]!`; an empty interior (unreachable from the in-repo callers) is
modelled by the default circle. -/
def circleMargin (M : JsMath F) (current : Pt F) (interior exterior : List (Circle F)) : F :=
  let first := interior.headD defaultCircle
  let margin0 := first.radius - distanceXY M first.x first.y current.x current.y
  let margin1 := (interior.drop 1).foldl
    (fun margin c =>
      let m := c.radius - distanceXY M c.x c.y current.x current.y
      if m ≤ margin then m else margin)
    margin0
  exterior.foldl
    (fun margin c =>
      let m := distanceXY M c.x c.y current.x current.y - c.radius
      if m ≤ margin then m else margin)
    margin1

/-- Source `computeTextCentre(interior, exterior)`: sample candidate points,
refine the best by margin with the external Nelder-Mead optimizer, validate
the result, and fall back (single interior's center; off-canvas disjoint
sentinel; single arc's circle center; retry without exterior — the single
self-call, modelled by the fuel; centroid of the arc points). -/
def computeTextCentreCore (M : JsMath F) (E : ExtLib F) :
    Nat → List (Circle F) → List (Circle F) → TextCentre F
  | 0, _, _ => ⟨0, 0, false⟩
  | fuel + 1, interior, exterior =>
    let points := interior.foldr
      (fun c acc =>
        [(⟨c.x, c.y⟩ : Pt F), ⟨c.x + c.radius / 2, c.y⟩, ⟨c.x - c.radius / 2, c.y⟩,
         ⟨c.x, c.y + c.radius / 2⟩, ⟨c.x, c.y - c.radius / 2⟩] ++ acc)
      []
    let p0 := points.headD ⟨0, 0⟩
    let best := (points.drop 1).foldl
      (fun (im : Pt F × F) p =>
        let m := circleMargin M p interior exterior
        if m ≥ im.2 then (p, m) else im)
      (p0, circleMargin M p0 interior exterior)
    let nm := E.nelderMead
      (fun p => -1 * circleMargin M ⟨p.getD 0 0, p.getD 1 0⟩ interior exterior)
      [best.1.x, best.1.y]
      {maxIterations := some 500, minErrorDelta := some (1 / 10 ^ 10)}
    let ret : Pt F := ⟨nm.x.getD 0 0, nm.x.getD 1 0⟩
    let valid :=
      (interior.all fun c =>
        decide (¬(distanceXY M ret.x ret.y c.x c.y > c.radius))) &&
      (exterior.all fun c =>
        decide (¬(distanceXY M ret.x ret.y c.x c.y < c.radius)))
    if valid then ⟨ret.x, ret.y, false⟩
    else if interior.length = 1 then
      ⟨(interior.headD defaultCircle).x, (interior.headD defaultCircle).y, false⟩
    else
      let areaStats := E.intersectionArea (interior.map some)
      if areaStats.arcs.length = 0 then ⟨0, -1000, true⟩
      else if areaStats.arcs.length = 1 then
        ⟨(areaStats.arcs.headD defaultArc).circle.x, (areaStats.arcs.headD defaultArc).circle.y,
         false⟩
      else if exterior.length ≠ 0 then computeTextCentreCore M E fuel interior []
      else
        let c := getCenter (areaStats.arcs.map Arc.p1)
        ⟨c.x, c.y, false⟩

/-- Entry point of `computeTextCentre`: one level of the retry-without-
exterior self-call can occur. -/
def computeTextCentre (M : JsMath F) (E : ExtLib F) (interior exterior : List (Circle F)) :
    TextCentre F :=
  computeTextCentreCore M E 2 interior exterior

/-- Source `computeTextCentres(circles, areas, delimiter)`: a text centre per
requested Area, the exterior excluding every circle that fully contains or is
contained in a member circle. -/
def computeTextCentres (M : JsMath F) (E : ExtLib F) (circles : CircleRecord F)
    (areas : List (Area F)) (delimiter : String) : List (String × TextCentre F) :=
  let overlapped := getOverlappingCircles M circles
  areas.foldl
    (fun ret area =>
      let areaids := area.sets
      let exclude := area.sets.foldl (fun ex id => ex ++ (jsGet overlapped id).getD []) []
      let interior := circles.filterMap fun kv => if kv.1 ∈ areaids then some kv.2 else none
      let exterior := circles.filterMap fun kv =>
        if kv.1 ∈ areaids then none else if kv.1 ∈ exclude then none else some kv.2
      jsSet ret (String.intercalate delimiter area.sets) (computeTextCentre M E interior exterior))
    []

/-- Source `circlePath(x, y, r)`: SVG path of a full circle; numbers are
stringified by the JS number-to-string conversion, modelled by the
`numToString` field. -/
def circlePath (E : ExtLib F) (x y r : F) : String :=
  String.intercalate " "
    ["\nM", E.numToString x, E.numToString y,
     "\nm", E.numToString (-r), E.numToString 0,
     "\na", E.numToString r, E.numToString r, E.numToString 0, E.numToString 1, E.numToString 0,
       E.numToString (r * 2), E.numToString 0,
     "\na", E.numToString r, E.numToString r, E.numToString 0, E.numToString 1, E.numToString 0,
       E.numToString (-(r * 2)), E.numToString 0]

/-- Source `intersectionAreaPath(circles)`: the degenerate "M 0 0" path for
no arcs, a direct circle path for one arc, otherwise the arc-walking path. -/
def intersectionAreaPath (E : ExtLib F) (circles : List (Option (Circle F))) : String :=
  let stats := E.intersectionArea circles
  let arcs := stats.arcs
  if arcs.length = 0 then "M 0 0"
  else if arcs.length = 1 then
    let c := (arcs.headD defaultArc).circle
    circlePath E c.x c.y c.radius
  else
    let head := arcs.headD defaultArc
    String.intercalate " "
      (["\nM", E.numToString head.p2.x, E.numToString head.p2.y] ++
        arcs.foldr
          (fun arc acc =>
            ["\nA", E.numToString arc.circle.radius, E.numToString arc.circle.radius,
             E.numToString 0, E.numToString (if arc.width > arc.circle.radius then 1 else 0),
             E.numToString 1, E.numToString arc.p1.x, E.numToString arc.p1.y] ++ acc)
          [])

/-- Circle entry of the `vennSolution` output. -/
structure VennResultCircle (F : Type) where
  set_id : String
  x : F
  y : F
  size : F
  textX : F
  textY : F
deriving DecidableEq

/-- Intersection entry of the `vennSolution` output (text coordinates are
`undefined` for a disjoint region). -/
structure VennIntersection (F : Type) where
  set_id : String
  sets : List String
  path : String
  textX : Option F
  textY : Option F
  size : F
deriving DecidableEq

/-- Output record of `vennSolution`. -/
structure VennResult (F : Type) where
  circles : List (VennResultCircle F)
  intersections : List (VennIntersection F)
deriving DecidableEq

/-- Input filter of `vennSolution`: drop every Area whose size is exactly 0
or whose set list is empty. -/
def vennSafeData (data : List (Area F)) : List (Area F) :=
  data.filter fun datum => datum.size ≠ 0 ∧ datum.sets.length > 0

/-- Source `vennSolution(data, options)`: drop zero-size and empty-set Areas,
return the empty solution when nothing remains, otherwise lay out with
`venn`, normalize (only for a non-default orientation), scale into the
viewport, and assemble the circle and intersection outputs with text
centres. -/
def vennSolution [FloorRing F] (M : JsMath F) (E : ExtLib F) (rnd : F) (data : List (Area F))
    (opts : VennOptions F) : Except String (VennResult F) := do
  let safeData := vennSafeData data
  if safeData.length = 0 then .ok ⟨[], []⟩
  else do
    let sol0 ← venn M E rnd safeData (some {layout := opts.layout, seed := opts.seed})
    let sol1 :=
      if opts.orientation ≠ M.pi / 2 then
        normalizeSolution M sol0 (some opts.orientation) opts.orientationOrder
      else sol0
    let solution := scaleSolution sol1 opts.width opts.height opts.padding
    let textCenters := computeTextCentres M E solution safeData ","
    let intersections := (safeData.map fun datum =>
        let setName := String.intercalate "," datum.sets
        let tc := (jsGet textCenters setName).getD ⟨0, 0, false⟩
        VennIntersection.mk (String.intercalate opts.set_id_delimiter datum.sets) datum.sets
          (intersectionAreaPath E (datum.sets.map (jsGet solution)))
          (if tc.disjoint then none else some tc.x)
          (if tc.disjoint then none else some tc.y)
          datum.size).filter fun datum => datum.sets.length > 1
    let circles := solution.map fun kv =>
        let tc := (jsGet textCenters kv.1).getD ⟨0, 0, false⟩
        VennResultCircle.mk kv.1 kv.2.x kv.2.y ((kv.2.radius * 2) * (kv.2.radius * 2)) tc.x tc.y
    .ok ⟨circles, intersections⟩

/-! ## Concrete instantiations used by counterexamples and witnesses

The structural claims are stated for every field `F` and every Math/library
instantiation; the counterexamples and witnesses pick the rationals and
simple total functions (chosen to make the arithmetic easy to evaluate). -/

/-- Rational instantiation of the JS Math bundle for concrete evaluation. -/
def qMath : JsMath ℚ :=
  { sqrt := id
    acos := fun _ => 17 / 12
    cos := fun _ => 0
    sin := fun _ => 0
    atan2 := fun _ _ => 0
    pi := 1 }

/-- Rational instantiation of the external-library bundle for concrete
evaluation. -/
def qExt : ExtLib ℚ :=
  { localeCompare := fun _ _ => 0
    numToString := fun _ => ""
    intersectionArea := fun _ => ⟨0, []⟩
    nelderMead := fun _ x _ => ⟨x⟩
    conjugateGradient := fun _ _ _ => ⟨[0, 0, 1 / 16, 0], 0⟩ }

/-! ## C10: the vennSolution input filter -/

theorem filter_idem (p : α → Bool) (l : List α) : (l.filter p).filter p = l.filter p := by
  induction l with
  | nil => rfl
  | cons x xs ih =>
    by_cases h : p x <;> simp [List.filter_cons, h, ih]

theorem vennSafeData_idem (data : List (Area F)) :
    vennSafeData (vennSafeData data) = vennSafeData data :=
  filter_idem _ _

/-- C10: `vennSolution` drops every Area whose size is exactly 0 or whose set
list is empty before anything else runs (its result on any input equals its
result on the filtered input), a dropped Area is characterized exactly by
those two conditions, and when nothing survives the filter it returns the
empty circles/intersections record for every instantiation of the layout,
normalization and scaling machinery (so none of those stages can influence
the result). -/
theorem vennSolution_filter_spec [FloorRing F] (M : JsMath F) (E : ExtLib F) (rnd : F)
    (data : List (Area F)) (opts : VennOptions F) :
    vennSolution M E rnd data opts = vennSolution M E rnd (vennSafeData data) opts ∧
    (∀ d ∈ data, d ∉ vennSafeData data ↔ (d.size = 0 ∨ d.sets = [])) ∧
    (vennSafeData data = [] → vennSolution M E rnd data opts = .ok ⟨[], []⟩) := by
  refine ⟨?_, ?_, ?_⟩
  · unfold vennSolution
    rw [vennSafeData_idem]
  · intro d hd
    simp only [vennSafeData, List.mem_filter, hd, true_and, decide_eq_true_eq]
    constructor
    · intro h
      by_contra hc
      push_neg at hc
      exact h ⟨hc.1, by cases hs : d.sets with
        | nil => exact absurd hs hc.2
        | cons a l => simp [hs]⟩
    · rintro (h | h) ⟨h1, h2⟩
      · exact h1 h
      · rw [h] at h2; simp at h2
  · intro h
    unfold vennSolution
    rw [h]
    rfl

/-! ## C2: addMissingAreas -/

/-- C2 counterexample: with a duplicated single-set identifier the completed
list contains the zero-size Area for the pair twice, not exactly once. -/
theorem addMissingAreas_duplicate_singles :
    (addMissingAreas qExt
        [⟨["A"], 1, none, none⟩, ⟨["A"], 2, none, none⟩, ⟨["B"], 1, none, none⟩]).count
      ⟨["A", "B"], (0 : ℚ), none, none⟩ = 2 := by
  decide

/-! ## C3: lossFunction -/

/-- Loss the claim describes, differing from the source only in the weight
default (refinement comparison definition following the claim's words: the
weight defaults to 1.0 exactly when absent). -/
def lossFunctionClaimed (M : JsMath F) (E : ExtLib F) (sets : CircleRecord F)
    (overlaps : List (Area F)) : F :=
  overlaps.foldl
    (fun output area =>
      if area.sets.length = 1 then output
      else if area.sets.length = 2 then
        match jsGet sets (area.sets.headD ""), jsGet sets (area.sets.getD 1 "") with
        | some left, some right =>
          let ov := circleOverlap M left.radius right.radius (distC M left right)
          output + area.weight.getD 1 * (ov - area.size) * (ov - area.size)
        | _, _ => output
      else
        let ov := (E.intersectionArea (area.sets.map (jsGet sets))).overlap
        output + area.weight.getD 1 * (ov - area.size) * (ov - area.size))
    0

/-- Circle record for the C3 counterexample: two unit circles far apart. -/
def c3sets : CircleRecord ℚ := [("A", ⟨0, 0, none, none, 1, "A"⟩), ("B", ⟨5, 0, none, none, 1, "B"⟩)]

/-- C3 counterexample: for an Area with an explicit weight of 0 the source
treats the falsy weight as absent and uses 1.0, so the loss is 49 rather
than the 0 the claim's formula (weight times squared error, weight
defaulting only when absent) yields. -/
theorem lossFunction_explicit_zero_weight :
    lossFunction qMath qExt c3sets [⟨["A", "B"], 7, some 0, none⟩] = 49 ∧
    lossFunctionClaimed qMath qExt c3sets [⟨["A", "B"], 7, some 0, none⟩] = 0 := by
  have hAB : ("A" : String) ≠ "B" := by decide
  constructor <;>
    norm_num [lossFunction, lossFunctionClaimed, c3sets, jsGet, jsTruthyD, circleOverlap,
      distC, distanceXY, qMath, qExt, hAB]

/-- Decidable presence of all of an Area's referenced circles in a layout. -/
def areaCirclesPresent (sets : CircleRecord F) (a : Area F) : Bool :=
  a.sets.all fun id => (jsGet sets id).isSome

/-- Achieved overlap of an Area as the source computes it: `circleOverlap` of
the two circles for a 2-member Area, `intersectionArea` otherwise. -/
def achievedOverlap (M : JsMath F) (E : ExtLib F) (sets : CircleRecord F) (a : Area F) : F :=
  if a.sets.length = 2 then
    let left := (jsGet sets (a.sets.headD "")).getD defaultCircle
    let right := (jsGet sets (a.sets.getD 1 "")).getD defaultCircle
    circleOverlap M left.radius right.radius (distC M left right)
  else (E.intersectionArea (a.sets.map (jsGet sets))).overlap

theorem foldl_add_of_shift (f : F → α → F) (h : ∀ o a, f o a = o + f 0 a) :
    ∀ (l : List α) (c : F), l.foldl f c = c + (l.map fun a => f 0 a).sum := by
  intro l
  induction l with
  | nil => intro c; simp
  | cons a l ih =>
    intro c
    simp only [List.foldl_cons, List.map_cons, List.sum_cons]
    rw [ih, h c a, add_assoc]

theorem lossFunction_step_shift (M : JsMath F) (E : ExtLib F) (sets : CircleRecord F)
    (o : F) (area : Area F) :
    (if area.sets.length = 1 then o
      else if area.sets.length = 2 then
        match jsGet sets (area.sets.headD ""), jsGet sets (area.sets.getD 1 "") with
        | some left, some right =>
          let ov := circleOverlap M left.radius right.radius (distC M left right)
          o + jsTruthyD area.weight 1 * (ov - area.size) * (ov - area.size)
        | _, _ => o
      else
        let ov := (E.intersectionArea (area.sets.map (jsGet sets))).overlap
        o + jsTruthyD area.weight 1 * (ov - area.size) * (ov - area.size)) =
    o + (if area.sets.length = 1 then 0
      else if area.sets.length = 2 then
        match jsGet sets (area.sets.headD ""), jsGet sets (area.sets.getD 1 "") with
        | some left, some right =>
          let ov := circleOverlap M left.radius right.radius (distC M left right)
          0 + jsTruthyD area.weight 1 * (ov - area.size) * (ov - area.size)
        | _, _ => 0
      else
        let ov := (E.intersectionArea (area.sets.map (jsGet sets))).overlap
        0 + jsTruthyD area.weight 1 * (ov - area.size) * (ov - area.size)) := by
  by_cases h1 : area.sets.length = 1
  · simp [h1]
  · by_cases h2 : area.sets.length = 2
    · simp only [h1, h2, if_false, if_true]
      cases jsGet sets (area.sets.headD "") <;> cases jsGet sets (area.sets.getD 1 "") <;>
        simp
    · simp only [h1, h2, if_false]
      ring

theorem sum_map_ite (p : α → Prop) [DecidablePred p] (g : α → F) (l : List α) :
    (l.map fun a => if p a then g a else 0).sum = ((l.filter fun a => decide (p a)).map g).sum := by
  induction l with
  | nil => rfl
  | cons a l ih =>
    by_cases h : p a <;> simp [h, ih]

theorem lossFunction_term_eq (M : JsMath F) (E : ExtLib F) (sets : CircleRecord F)
    (a : Area F) (h0a : a.sets ≠ [])
    (h3a : 3 ≤ a.sets.length → areaCirclesPresent sets a = true) :
    (if a.sets.length = 1 then 0
      else if a.sets.length = 2 then
        match jsGet sets (a.sets.headD ""), jsGet sets (a.sets.getD 1 "") with
        | some left, some right =>
          let ov := circleOverlap M left.radius right.radius (distC M left right)
          0 + jsTruthyD a.weight 1 * (ov - a.size) * (ov - a.size)
        | _, _ => 0
      else
        let ov := (E.intersectionArea (a.sets.map (jsGet sets))).overlap
        0 + jsTruthyD a.weight 1 * (ov - a.size) * (ov - a.size)) =
    (if 2 ≤ a.sets.length ∧ areaCirclesPresent sets a then
      jsTruthyD a.weight 1 * (achievedOverlap M E sets a - a.size) *
        (achievedOverlap M E sets a - a.size)
    else 0) := by
  by_cases h1 : a.sets.length = 1
  · have hp : ¬(2 ≤ a.sets.length ∧ areaCirclesPresent sets a) := by
      rw [h1]; rintro ⟨h, _⟩; omega
    simp [h1, hp]
  · by_cases h2 : a.sets.length = 2
    · obtain ⟨x, y, hs⟩ := List.length_eq_two.mp h2
      have hgd : a.sets.getD 1 "" = y := by rw [hs]; rfl
      have hhd : a.sets.headD "" = x := by rw [hs]; rfl
      rw [if_neg h1, if_pos h2, hhd, hgd]
      rcases hx : jsGet sets x with _ | cx
      · have hp : ¬(2 ≤ a.sets.length ∧ areaCirclesPresent sets a = true) := by
          rintro ⟨_, hpr⟩; simp [areaCirclesPresent, hs, hx] at hpr
        rw [if_neg hp]
      · rcases hy : jsGet sets y with _ | cy
        · have hp : ¬(2 ≤ a.sets.length ∧ areaCirclesPresent sets a = true) := by
            rintro ⟨_, hpr⟩; simp [areaCirclesPresent, hs, hy] at hpr
          rw [if_neg hp]
        · have hp : (2 ≤ a.sets.length ∧ areaCirclesPresent sets a = true) :=
            ⟨by rw [hs]; simp, by simp [areaCirclesPresent, hs, hx, hy]⟩
          rw [if_pos hp]
          have hao : achievedOverlap M E sets a =
              circleOverlap M cx.radius cy.radius (distC M cx cy) := by
            simp [achievedOverlap, h2, hs, hx, hy]
          rw [hao]
          simp
    · have hlen3 : 3 ≤ a.sets.length := by
        have hne : a.sets.length ≠ 0 := fun h => h0a (List.length_eq_zero.mp h)
        omega
      have hp : (2 ≤ a.sets.length ∧ areaCirclesPresent sets a) := ⟨by omega, h3a hlen3⟩
      have hao : achievedOverlap M E sets a =
          (E.intersectionArea (a.sets.map (jsGet sets))).overlap := by
        simp [achievedOverlap, h2]
      rw [if_neg h1, if_neg h2, if_pos hp, hao]
      simp

/-- C3 (amended): `lossFunction` is the sum, over exactly the Areas with two
or more members whose referenced circles all exist in the layout, of
`weight * (achieved − target)²`, with the weight defaulting to 1.0 when it is
absent or an explicit (falsy) 0 — assuming the Areas are well formed
(nonempty member lists) and that Areas with 3 or more members have all their
circles present (the source passes missing circles of such Areas straight to
the external intersection primitive rather than skipping them). -/
theorem lossFunction_sum_spec (M : JsMath F) (E : ExtLib F) (sets : CircleRecord F)
    (areas : List (Area F))
    (h0 : ∀ a ∈ areas, a.sets ≠ [])
    (h3 : ∀ a ∈ areas, 3 ≤ a.sets.length → areaCirclesPresent sets a = true) :
    lossFunction M E sets areas =
      ((areas.filter fun a => 2 ≤ a.sets.length ∧ areaCirclesPresent sets a).map
        (fun a =>
          jsTruthyD a.weight 1 * (achievedOverlap M E sets a - a.size) *
            (achievedOverlap M E sets a - a.size))).sum := by
  unfold lossFunction
  rw [foldl_add_of_shift _ (lossFunction_step_shift M E sets), zero_add]
  rw [List.map_congr_left (fun a ha => lossFunction_term_eq M E sets a (h0 a ha) (h3 a ha))]
  exact sum_map_ite _ _ _

/-- C3 witness: the amended sum law at a concrete two-circle layout. -/
theorem lossFunction_sum_spec_witness :
    lossFunction qMath qExt c3sets [⟨["A", "B"], (3 : ℚ), none, none⟩] =
      ((([⟨["A", "B"], (3 : ℚ), none, none⟩] : List (Area ℚ)).filter fun a =>
          2 ≤ a.sets.length ∧ areaCirclesPresent c3sets a).map
        (fun a =>
          jsTruthyD a.weight 1 * (achievedOverlap qMath qExt c3sets a - a.size) *
            (achievedOverlap qMath qExt c3sets a - a.size))).sum :=
  lossFunction_sum_spec qMath qExt c3sets _ (by decide) (by decide)

/-! ## C7: scaleSolution -/

/-- Bounding box of a solution's circles (the source's local `bounds`). -/
def solutionBounds (solution : CircleRecord F) : Bounds F :=
  getBoundingBox (solution.map Prod.snd)

/-- Degeneracy test of `scaleSolution`: zero-width or zero-height bounding
box. -/
def scaleDegenerate (solution : CircleRecord F) : Prop :=
  (solutionBounds solution).xRange.max = (solutionBounds solution).xRange.min ∨
  (solutionBounds solution).yRange.max = (solutionBounds solution).yRange.min

/-- The uniform scale factor of `scaleSolution`: the smaller of the two
per-axis ratios of the padded viewport to the bounding-box extent. -/
def scaleFactor (solution : CircleRecord F) (width height padding : F) : F :=
  min
    ((height - 2 * padding) /
      ((solutionBounds solution).yRange.max - (solutionBounds solution).yRange.min))
    ((width - 2 * padding) /
      ((solutionBounds solution).xRange.max - (solutionBounds solution).xRange.min))

theorem jsSet_append_of_not_mem (r : List (String × α)) (k : String) (v : α)
    (h : k ∉ jsKeys r) : jsSet r k v = r ++ [(k, v)] := by
  induction r with
  | nil => rfl
  | cons kv rest ih =>
    simp only [jsKeys, List.map_cons, List.mem_cons] at h
    push_neg at h
    have hne : ¬(kv.1 = k) := fun hh => h.1 hh.symm
    simp only [jsSet, if_neg hne]
    rw [ih (by simpa [jsKeys] using h.2)]
    rfl

omit [LinearOrderedField F] in
theorem scale_foldl_build (f : String × Circle F → Circle F) :
    ∀ (l acc : List (String × Circle F)), (jsKeys l).Nodup →
      (∀ k, k ∈ jsKeys l → k ∉ jsKeys acc) →
      l.foldl (fun scaled kv => if kv.1 = "" then scaled else jsSet scaled kv.1 (f kv)) acc =
        acc ++ (l.filter fun kv => kv.1 ≠ "").map fun kv => (kv.1, f kv) := by
  intro l
  induction l with
  | nil => intro acc _ _; simp
  | cons kv l ih =>
    intro acc hnd hdisj
    obtain ⟨hhead, htail⟩ :=
      List.nodup_cons.mp (show (kv.1 :: jsKeys l).Nodup from hnd)
    simp only [List.foldl_cons]
    by_cases hk : kv.1 = ""
    · rw [if_pos hk]
      rw [ih acc htail
        (fun k hk2 => hdisj k (List.mem_cons.mpr (Or.inr hk2)))]
      congr 1
      simp [List.filter_cons, hk]
    · rw [if_neg hk]
      have hnotin : kv.1 ∉ jsKeys acc := hdisj kv.1 (List.mem_cons.mpr (Or.inl rfl))
      rw [jsSet_append_of_not_mem _ _ _ hnotin]
      rw [ih (acc ++ [(kv.1, f kv)]) htail ?_]
      · simp [List.filter_cons, hk]
      · intro k hkl
        have hk1 : k ≠ kv.1 := fun he => hhead (he ▸ hkl)
        have hka : k ∉ jsKeys acc := hdisj k (List.mem_cons.mpr (Or.inr hkl))
        simp only [jsKeys, List.map_append, List.map_cons, List.map_nil, List.mem_append,
          List.mem_singleton]
        rintro (h1 | h2)
        · exact hka h1
        · exact hk1 h2

/-- C7: `scaleSolution` is the identity on every solution whose bounding box
is degenerate (zero width or zero height), and on a non-degenerate solution
(with well-formed record keys) it applies the single uniform scale factor —
the smaller of the two per-axis ratios of the padded viewport to the
bounding-box extent — to both coordinates and to every radius, plus the
centering translation. -/
theorem scaleSolution_spec (solution : CircleRecord F) (width height padding : F)
    (hkeys : (jsKeys solution).Nodup) :
    (scaleDegenerate solution → scaleSolution solution width height padding = solution) ∧
    (¬scaleDegenerate solution →
      scaleSolution solution width height padding =
        (solution.filter fun kv => kv.1 ≠ "").map fun kv =>
          (kv.1,
            { kv.2 with
              radius := scaleFactor solution width height padding * kv.2.radius
              x := padding +
                ((width - 2 * padding) -
                  ((solutionBounds solution).xRange.max - (solutionBounds solution).xRange.min) *
                    scaleFactor solution width height padding) / 2 +
                (kv.2.x - (solutionBounds solution).xRange.min) *
                  scaleFactor solution width height padding
              y := padding +
                ((height - 2 * padding) -
                  ((solutionBounds solution).yRange.max - (solutionBounds solution).yRange.min) *
                    scaleFactor solution width height padding) / 2 +
                (kv.2.y - (solutionBounds solution).yRange.min) *
                  scaleFactor solution width height padding })) := by
  constructor
  · intro hdeg
    unfold scaleSolution
    rw [if_pos (by exact hdeg)]
  · intro hdeg
    unfold scaleSolution
    rw [if_neg (by exact hdeg)]
    exact scale_foldl_build _ solution [] hkeys (fun k _ => by simp [jsKeys])

/-- C7 witness: a concrete single-circle solution with a point bounding box
is returned unchanged, and a concrete two-circle solution is scaled by the
claimed factor. -/
theorem scaleSolution_spec_witness :
    scaleSolution [("A", (⟨0, 0, none, none, 0, "A"⟩ : Circle ℚ))] 500 500 0 =
      [("A", (⟨0, 0, none, none, 0, "A"⟩ : Circle ℚ))] :=
  (scaleSolution_spec [("A", (⟨0, 0, none, none, 0, "A"⟩ : Circle ℚ))] 500 500 0
    (by decide)).1
    (by norm_num [scaleDegenerate, solutionBounds, getBoundingBox, bboxHi, bboxLo])

/-! ## C9: seeded determinism -/

theorem constrainedMDSLayout_seed_det [FloorRing F] (M : JsMath F) (E : ExtLib F)
    (areas : List (Area F)) (ps : Params F) (s : F) (h : ps.seed = some s) (r1 r2 : F) :
    constrainedMDSLayout M E r1 areas ps = constrainedMDSLayout M E r2 areas ps := by
  simp only [constrainedMDSLayout, h, Option.getD_some]

theorem bestInitialLayout_seed_det [FloorRing F] (M : JsMath F) (E : ExtLib F)
    (areas : List (Area F)) (ps : Params F) (s : F) (h : ps.seed = some s) (r1 r2 : F) :
    bestInitialLayout M E r1 areas ps = bestInitialLayout M E r2 areas ps := by
  unfold bestInitialLayout
  rw [constrainedMDSLayout_seed_det M E areas ps s h r1 r2]

/-- C9: with an explicit seed, the layout solve is deterministic — the value
the ambient `Math.random()` source would produce (the `rnd` argument of the
model) has no influence on the output of `venn` or of
`constrainedMDSLayout`, for every instantiation of the math and library
bundles, so two runs with equal inputs and equal seed produce identical
records. -/
theorem venn_seed_deterministic [FloorRing F] (M : JsMath F) (E : ExtLib F)
    (areas : List (Area F)) (ps : Params F) (s : F) (h : ps.seed = some s) (rnd₁ rnd₂ : F) :
    venn M E rnd₁ areas (some ps) = venn M E rnd₂ areas (some ps) ∧
    constrainedMDSLayout M E rnd₁ areas ps = constrainedMDSLayout M E rnd₂ areas ps := by
  refine ⟨?_, constrainedMDSLayout_seed_det M E areas ps s h rnd₁ rnd₂⟩
  unfold venn
  simp only [Option.getD_some, h]
  rcases hl : ps.layout with _ | lk
  · rfl
  · cases lk
    · rfl
    · rfl
    · rfl

/-- C9 witness: the determinism law applied at a concrete seeded run. -/
theorem venn_seed_deterministic_witness :
    venn qMath qExt (1 / 4) [] (some {seed := some (1 / 2)}) =
      venn qMath qExt (3 / 4) [] (some {seed := some (1 / 2)}) ∧
    constrainedMDSLayout qMath qExt (1 / 4) [] {seed := some (1 / 2)} =
      constrainedMDSLayout qMath qExt (3 / 4) [] {seed := some (1 / 2)} :=
  venn_seed_deterministic qMath qExt [] {seed := some (1 / 2)} (1 / 2) rfl (1 / 4) (3 / 4)

/-! ## C2: addMissingAreas (amended law) -/

theorem pairArea_inj {u v u' v' : String} :
    (pairArea u v : Area F) = pairArea u' v' ↔ u = u' ∧ v = v' := by
  simp [pairArea, Area.mk.injEq]

theorem insertBy_perm (lt : α → α → Bool) (x : α) (l : List α) :
    (insertBy lt x l).Perm (x :: l) := by
  induction l with
  | nil => exact List.Perm.refl _
  | cons y ys ih =>
    by_cases h : lt x y
    · simp [insertBy, h]
    · simp only [insertBy, if_neg h]
      exact (ih.cons y).trans (List.Perm.swap x y ys)

theorem stableSortBy_perm_aux (lt : α → α → Bool) :
    ∀ (l acc : List α), (l.foldl (fun acc x => insertBy lt x acc) acc).Perm (acc ++ l) := by
  intro l
  induction l with
  | nil => intro acc; simp
  | cons x xs ih =>
    intro acc
    simp only [List.foldl_cons]
    refine (ih (insertBy lt x acc)).trans ?_
    refine (List.Perm.append_right xs (insertBy_perm lt x acc)).trans ?_
    exact List.perm_middle.symm

theorem stableSortBy_perm (lt : α → α → Bool) (l : List α) :
    (stableSortBy lt l).Perm l := by
  simpa using stableSortBy_perm_aux lt l []

theorem mem_missingPairs {pk : List String} {ar : Area F} :
    ∀ {xs : List String}, ar ∈ missingPairs pk xs →
      ∃ u v l1 l2, ar = pairArea u v ∧ xs = l1 ++ u :: l2 ∧ v ∈ l2 ∧ pairKey u v ∉ pk := by
  intro xs
  induction xs with
  | nil => intro h; simp [missingPairs] at h
  | cons a rest ih =>
    intro h
    simp only [missingPairs, List.mem_append] at h
    rcases h with h | h
    · obtain ⟨b, hb, heq⟩ := List.mem_filterMap.mp h
      by_cases hk : pairKey a b ∈ pk
      · simp [hk] at heq
      · rw [if_neg hk] at heq
        refine ⟨a, b, [], rest, ?_, rfl, hb, hk⟩
        simpa using heq.symm
    · obtain ⟨u, v, l1, l2, h1, h2, h3, h4⟩ := ih h
      exact ⟨u, v, a :: l1, l2, h1, by rw [h2]; rfl, h3, h4⟩

theorem count_filterMap_pair (pk : List String) (a b : String) :
    ∀ xs : List String,
      ((xs.filterMap fun b' =>
          if pairKey a b' ∈ pk then none else some (pairArea a b' : Area F)).count
        (pairArea a b)) = if pairKey a b ∈ pk then 0 else xs.count b := by
  intro xs
  induction xs with
  | nil => simp
  | cons c xs ih =>
    simp only [List.filterMap_cons]
    by_cases hk : pairKey a c ∈ pk
    · rw [if_pos hk, ih]
      by_cases hkb : pairKey a b ∈ pk
      · simp [hkb]
      · have hcb : ¬(b = c) := fun he => hkb (he ▸ hk)
        simp [hkb, List.count_cons, hcb]
    · rw [if_neg hk, List.count_cons, ih]
      by_cases hcb : b = c
      · subst hcb
        have hkb : pairKey a b ∉ pk := hk
        simp [hkb, List.count_cons, pairArea_inj]
      · have hne : ¬(pairArea a b = (pairArea a c : Area F)) := by
          rw [pairArea_inj]; rintro ⟨-, h2⟩; exact hcb h2
        have hne' : ¬(pairArea a c = (pairArea a b : Area F)) := fun he => hne he.symm
        by_cases hkb : pairKey a b ∈ pk
        · simp [hkb, List.count_cons, hcb, beq_iff_eq, hne, hne']
        · simp [hkb, List.count_cons, hcb, beq_iff_eq, hne, hne']

theorem count_filterMap_pair_ne (pk : List String) (x u v : String) (hx : x ≠ u)
    (xs : List String) :
    ((xs.filterMap fun b' =>
        if pairKey x b' ∈ pk then none else some (pairArea x b' : Area F)).count
      (pairArea u v)) = 0 := by
  rw [List.count_eq_zero]
  intro hmem
  obtain ⟨b, _, heq⟩ := List.mem_filterMap.mp hmem
  by_cases hk : pairKey x b ∈ pk
  · simp [hk] at heq
  · rw [if_neg hk] at heq
    have := (@pairArea_inj F _ _ _ _ _).mp (Option.some_injective _ heq)
    exact hx this.1

theorem count_missingPairs_absent (pk : List String) (u v : String) :
    ∀ xs : List String, (u ∉ xs ∨ v ∉ xs) →
      (missingPairs pk xs : List (Area F)).count (pairArea u v) = 0 := by
  intro xs h
  rw [List.count_eq_zero]
  intro hmem
  obtain ⟨u', v', l1, l2, h1, h2, h3, h4⟩ := mem_missingPairs hmem
  obtain ⟨hu, hv⟩ := (@pairArea_inj F _ _ _ _ _).mp h1
  subst hu; subst hv
  rcases h with h | h
  · exact h (h2 ▸ List.mem_append.mpr (Or.inr (List.mem_cons_self _ _)))
  · exact h (h2 ▸ List.mem_append.mpr (Or.inr (List.mem_cons.mpr (Or.inr h3))))

theorem count_missingPairs_pair (pk : List String) (a b : String) (hab : a ≠ b)
    (hka : pairKey a b ∉ pk) (hkb : pairKey b a ∉ pk) :
    ∀ xs : List String, xs.Nodup → a ∈ xs → b ∈ xs →
      (missingPairs pk xs : List (Area F)).count (pairArea a b) +
        (missingPairs pk xs : List (Area F)).count (pairArea b a) = 1 := by
  intro xs
  induction xs with
  | nil => intro _ ha; simp at ha
  | cons x rest ih =>
    intro hnd ha hb
    obtain ⟨hxr, hndr⟩ := List.nodup_cons.mp hnd
    simp only [missingPairs, List.count_append]
    by_cases hxa : x = a
    · subst hxa
      have hbr : b ∈ rest := by
        rcases List.mem_cons.mp hb with h | h
        · exact absurd h.symm hab
        · exact h
      rw [count_filterMap_pair, if_neg hka, List.count_eq_one_of_mem hndr hbr]
      rw [count_filterMap_pair_ne pk x b x hab]
      rw [count_missingPairs_absent pk x b rest (Or.inl hxr)]
      rw [count_missingPairs_absent pk b x rest (Or.inr hxr)]
    · by_cases hxb : x = b
      · subst hxb
        have har : a ∈ rest := by
          rcases List.mem_cons.mp ha with h | h
          · exact absurd h hab
          · exact h
        rw [count_filterMap_pair, if_neg hkb, List.count_eq_one_of_mem hndr har]
        rw [count_filterMap_pair_ne pk x a x (fun he => hab he.symm)]
        rw [count_missingPairs_absent pk a x rest (Or.inr hxr)]
        rw [count_missingPairs_absent pk x a rest (Or.inl hxr)]
      · have har : a ∈ rest := by
          rcases List.mem_cons.mp ha with h | h
          · exact absurd h.symm hxa
          · exact h
        have hbr : b ∈ rest := by
          rcases List.mem_cons.mp hb with h | h
          · exact absurd h.symm hxb
          · exact h
        rw [count_filterMap_pair_ne pk x a b hxa]
        rw [count_filterMap_pair_ne pk x b a hxb]
        have := ih hndr har hbr
        omega

omit [LinearOrderedField F] in
theorem mem_explicitPairKeys_of_pair (areas : List (Area F)) (a b : String) :
    ∀ ar ∈ areas, ar.sets = [a, b] →
      pairKey a b ∈ explicitPairKeys areas ∧ pairKey b a ∈ explicitPairKeys areas := by
  induction areas with
  | nil => intro ar h; simp at h
  | cons x rest ih =>
    intro ar hmem hsets
    rcases List.mem_cons.mp hmem with h | h
    · subst h
      have hlen : ar.sets.length = 2 := by rw [hsets]; rfl
      have hhd : ar.sets.headD "" = a := by rw [hsets]; rfl
      have hgd : ar.sets.getD 1 "" = b := by rw [hsets]; rfl
      simp only [explicitPairKeys, List.foldr_cons, hlen, if_pos, List.mem_append,
        List.mem_cons, hhd, hgd]
      constructor
      · tauto
      · tauto
    · have := ih ar h hsets
      simp only [explicitPairKeys, List.foldr_cons, List.mem_append]
      constructor
      · right; exact (by simpa [explicitPairKeys] using this.1)
      · right; exact (by simpa [explicitPairKeys] using this.2)

/-- C2 (amended): for an input whose single-set identifiers are pairwise
distinct, `addMissingAreas` keeps the original Areas unchanged as a prefix;
for every unordered pair of distinct single-set ids neither of whose
comma-joined pair keys is registered by an explicit 2-way Area, exactly one
zero-size Area for the pair is appended; a pair with an explicit 2-way Area
(in either order) gets no appended entry; and every appended entry is a
zero-size Area over two distinct ids in the order of the
locale-comparator-sorted id list. -/
theorem addMissingAreas_spec (E : ExtLib F) (areas : List (Area F))
    (hnd : (singleIds areas).Nodup) :
    ((addMissingAreas E areas).take areas.length = areas) ∧
    (∀ a b, a ∈ singleIds areas → b ∈ singleIds areas → a ≠ b →
      pairKey a b ∉ explicitPairKeys areas → pairKey b a ∉ explicitPairKeys areas →
      ((addMissingAreas E areas).drop areas.length).count (pairArea a b) +
        ((addMissingAreas E areas).drop areas.length).count (pairArea b a) = 1) ∧
    (∀ a b ar, ar ∈ areas → ar.sets = [a, b] →
      ∀ ar' ∈ (addMissingAreas E areas).drop areas.length,
        ar'.sets ≠ [a, b] ∧ ar'.sets ≠ [b, a]) ∧
    (∀ ar ∈ (addMissingAreas E areas).drop areas.length, ∃ u v l1 l2,
      ar = pairArea u v ∧ u ≠ v ∧
      stableSortBy (fun a b => decide (E.localeCompare a b < 0)) (singleIds areas) =
        l1 ++ u :: l2 ∧
      v ∈ l2) := by
  have hdrop : (addMissingAreas E areas).drop areas.length =
      missingPairs (explicitPairKeys areas)
        (stableSortBy (fun a b => decide (E.localeCompare a b < 0)) (singleIds areas)) := by
    unfold addMissingAreas
    exact List.drop_left areas _
  have hperm := stableSortBy_perm (fun a b => decide (E.localeCompare a b < 0)) (singleIds areas)
  have hndS : (stableSortBy (fun a b => decide (E.localeCompare a b < 0))
      (singleIds areas)).Nodup := hperm.nodup_iff.mpr hnd
  refine ⟨?_, ?_, ?_, ?_⟩
  · unfold addMissingAreas
    exact List.take_left areas _
  · intro a b ha hb hab hka hkb
    rw [hdrop]
    exact count_missingPairs_pair _ a b hab hka hkb _ hndS
      (hperm.mem_iff.mpr ha) (hperm.mem_iff.mpr hb)
  · intro a b ar hmem hsets ar' hmem'
    rw [hdrop] at hmem'
    obtain ⟨hk1, hk2⟩ := mem_explicitPairKeys_of_pair areas a b ar hmem hsets
    obtain ⟨u, v, l1, l2, h1, _, _, h4⟩ := mem_missingPairs hmem'
    constructor
    · intro hc
      have : u = a ∧ v = b := by
        rw [h1] at hc
        simpa [pairArea] using hc
      exact h4 (this.1 ▸ this.2 ▸ hk1)
    · intro hc
      have : u = b ∧ v = a := by
        rw [h1] at hc
        simpa [pairArea] using hc
      exact h4 (this.1 ▸ this.2 ▸ hk2)
  · intro ar hmem
    rw [hdrop] at hmem
    obtain ⟨u, v, l1, l2, h1, h2, h3, _⟩ := mem_missingPairs hmem
    refine ⟨u, v, l1, l2, h1, ?_, h2, h3⟩
    intro huv
    subst huv
    have : ¬(stableSortBy (fun a b => decide (E.localeCompare a b < 0))
        (singleIds areas)).Nodup := by
      rw [h2]
      intro hcon
      obtain ⟨h5, -⟩ := List.nodup_cons.mp (List.Nodup.of_append_right hcon)
      exact h5 h3
    exact this hndS

/-- C2 witness: the amended law applied to a concrete input with two declared
singles and no explicit pair. -/
theorem addMissingAreas_spec_witness :
    ((addMissingAreas qExt [⟨["A"], (1 : ℚ), none, none⟩, ⟨["B"], 2, none, none⟩]).take 2 =
      [⟨["A"], (1 : ℚ), none, none⟩, ⟨["B"], 2, none, none⟩]) ∧
    ((addMissingAreas qExt
        [⟨["A"], (1 : ℚ), none, none⟩, ⟨["B"], 2, none, none⟩]).drop 2).count
          (pairArea "A" "B") +
      ((addMissingAreas qExt
        [⟨["A"], (1 : ℚ), none, none⟩, ⟨["B"], 2, none, none⟩]).drop 2).count
          (pairArea "B" "A") = 1 := by
  have h := addMissingAreas_spec qExt
    [⟨["A"], (1 : ℚ), none, none⟩, ⟨["B"], 2, none, none⟩] (by decide)
  exact ⟨h.1, h.2.1 "A" "B" (by decide) (by decide) (by decide) (by decide) (by decide)⟩

/-! ## C1: bestInitialLayout switch condition -/

/-- Modelled from the spec: the version of `orientateCircles` the spec
describes, identical to the source except that an absent orientation order
sorts the cluster by radius in descending order (the source's
`orientationOrder === null` test never fires for the TS optional parameter,
which is `undefined` when absent). -/
def orientateCirclesClaimed (M : JsMath F) (circles0 : List (Circle F)) (orientation : Option F)
    (orientationOrder : Option (Circle F → Circle F → F)) : List (Circle F) :=
  let circles := match orientationOrder with
    | none => stableSortBy (fun (a b : Circle F) => decide (b.radius < a.radius)) circles0
    | some cmp => stableSortBy (fun a b => decide (cmp a b < 0)) circles0
  let circles := match circles.head? with
    | none => circles
    | some largest => circles.map fun c => {c with x := c.x - largest.x, y := c.y - largest.y}
  let circles := match circles with
    | [c1, c2] =>
      if distC M c1 c2 < |c2.radius - c1.radius| then
        [c1, {c2 with x := c1.x + c1.radius - c2.radius - SMALL}]
      else [c1, c2]
    | other => other
  let circles : List (Circle F) :=
    if 1 < circles.length then
      let second := circles.getD 1 defaultCircle
      let rotation := M.atan2 second.x second.y - orientation.getD 0
      let c := M.cos rotation
      let s := M.sin rotation
      circles.map fun circ => {circ with x := c * circ.x - s * circ.y, y := s * circ.x + c * circ.y}
    else circles
  if 2 < circles.length then
    let third := circles.getD 2 defaultCircle
    let angle := angleIntoRange (2 * M.pi) 1000
      (M.atan2 third.x third.y - orientation.getD 0)
    if angle > M.pi then
      let second := circles.getD 1 defaultCircle
      let slope := second.y / (SMALL + second.x)
      circles.map fun circ =>
        let d := (circ.x + slope * circ.y) / (1 + slope * slope)
        {circ with x := 2 * d - circ.x, y := 2 * d * slope - circ.y}
    else circles
  else circles

/-- C6 failing input: two circles in radius-ascending order (the small one
first). -/
def c6input : List (Circle ℚ) := [⟨3, 0, none, none, 1, "a"⟩, ⟨0, 0, none, none, 2, "b"⟩]

/-- C6 (code bug): with no caller-supplied orientation order the source does
NOT sort by radius descending — its `orientationOrder === null` test is dead
(the absent TS optional parameter is `undefined`), so `sort(undefined)`
compares equal string forms and leaves the input order unchanged, and the
circle translated to the origin is the FIRST circle, not the largest.  On a
radius-ascending two-circle cluster the code's output keeps the small circle
first while the spec-described variant puts the large circle first, so the
two disagree. -/
theorem orientateCircles_no_radius_sort :
    orientateCircles qMath c6input none none =
      [⟨0, 0, none, none, 1, "a"⟩, ⟨0, 0, none, none, 2, "b"⟩] ∧
    orientateCirclesClaimed qMath c6input none none =
      [⟨0, 0, none, none, 2, "b"⟩, ⟨0, 0, none, none, 1, "a"⟩] ∧
    orientateCircles qMath c6input none none ≠
      orientateCirclesClaimed qMath c6input none none := by
  refine ⟨?_, ?_, ?_⟩
  · norm_num [orientateCircles, stableSortBy, insertBy, distC, distanceXY, SMALL,
      qMath, c6input, defaultCircle]
  · norm_num [orientateCirclesClaimed, stableSortBy, insertBy, distC, distanceXY, SMALL,
      qMath, c6input, defaultCircle]
  · intro h
    have h1 : orientateCircles qMath c6input none none =
        [⟨0, 0, none, none, 1, "a"⟩, ⟨0, 0, none, none, 2, "b"⟩] := by
      norm_num [orientateCircles, stableSortBy, insertBy, distC, distanceXY, SMALL,
        qMath, c6input, defaultCircle]
    have h2 : orientateCirclesClaimed qMath c6input none none =
        [⟨0, 0, none, none, 2, "b"⟩, ⟨0, 0, none, none, 1, "a"⟩] := by
      norm_num [orientateCirclesClaimed, stableSortBy, insertBy, distC, distanceXY, SMALL,
        qMath, c6input, defaultCircle]
    rw [h1, h2] at h
    simp at h

/-! ## C5: the greedy missing-overlap error

Association-list (JS object) laws used to track the circle record and the
overlap adjacency of `greedyLayout`. -/

theorem jsGet_jsSet_self (r : List (String × α)) (k : String) (v : α) :
    jsGet (jsSet r k v) k = some v := by
  induction r with
  | nil => simp [jsSet, jsGet]
  | cons kv rest ih =>
    obtain ⟨k', v'⟩ := kv
    by_cases h : k' = k
    · simp [jsSet, jsGet, h]
    · simp [jsSet, jsGet, h, ih]

theorem jsGet_jsSet_ne (r : List (String × α)) (k k' : String) (v : α) (h : k' ≠ k) :
    jsGet (jsSet r k v) k' = jsGet r k' := by
  induction r with
  | nil => simp [jsSet, jsGet, Ne.symm h]
  | cons kv rest ih =>
    obtain ⟨k'', v''⟩ := kv
    by_cases hh : k'' = k
    · subst hh
      simp [jsSet, jsGet, Ne.symm h]
    · by_cases hk : k'' = k'
      · simp [jsSet, jsGet, hh, hk, h]
      · simp [jsSet, jsGet, hh, hk, ih]

theorem jsGet_isSome_iff_mem (r : List (String × α)) (k : String) :
    (∃ v, jsGet r k = some v) ↔ k ∈ jsKeys r := by
  induction r with
  | nil => simp [jsGet, jsKeys]
  | cons kv rest ih =>
    obtain ⟨k', v'⟩ := kv
    by_cases hh : k' = k
    · subst hh
      simp [jsGet, jsKeys]
    · simp [jsGet, jsKeys, hh, Ne.symm hh, ih]

theorem jsKeys_cons (kv : String × α) (rest : List (String × α)) :
    jsKeys (kv :: rest) = kv.1 :: jsKeys rest := rfl

theorem jsKeys_jsSet (r : List (String × α)) (k : String) (v : α) :
    jsKeys (jsSet r k v) = if k ∈ jsKeys r then jsKeys r else jsKeys r ++ [k] := by
  induction r with
  | nil => simp [jsSet, jsKeys]
  | cons kv rest ih =>
    obtain ⟨k', v'⟩ := kv
    by_cases hh : k' = k
    · subst hh
      simp [jsSet, jsKeys_cons]
    · have hstep : jsSet ((k', v') :: rest) k v = (k', v') :: jsSet rest k v := by
        simp [jsSet, hh]
      rw [hstep, jsKeys_cons, jsKeys_cons, ih]
      by_cases hm : k ∈ jsKeys rest
      · simp [hm, List.mem_cons]
      · simp [hm, List.mem_cons, Ne.symm hh]

theorem jsKeys_nodup_jsSet (r : List (String × α)) (k : String) (v : α)
    (h : (jsKeys r).Nodup) : (jsKeys (jsSet r k v)).Nodup := by
  rw [jsKeys_jsSet]
  by_cases hm : k ∈ jsKeys r
  · simpa [hm] using h
  · simp [hm, List.nodup_append, h]

/-- The only throw of fmin's `bisect` is its opposite-signs error. -/
theorem bisect_error (f : F → F) (a b : F) (e : String) (h : bisect f a b = .error e) :
    e = "Initial bisect points must have opposite signs" := by
  simp only [bisect] at h
  split at h
  · exact (Except.error.injEq _ _).mp h.symm
  · split at h
    · simp at h
    · split at h <;> simp at h

/-- `distanceFromIntersectArea` can only fail with the bisect error. -/
theorem distanceFromIntersectArea_error (M : JsMath F) (r1 r2 ov : F) (e : String)
    (h : distanceFromIntersectArea M r1 r2 ov = .error e) :
    e = "Initial bisect points must have opposite signs" := by
  simp only [distanceFromIntersectArea] at h
  split at h
  · simp at h
  · exact bisect_error _ _ _ _ h

/-- The overlap-adjacency pass of `greedyPrep` can only fail with a
TypeError. -/
theorem greedySoStep_error (circles : CircleRecord F) (so : List (String × List (OverLap F)))
    (ar : Area F) (e : String) (h : greedySoStep circles so ar = .error e) :
    e = "TypeError" := by
  simp only [greedySoStep] at h
  rcases hg1 : jsGet circles (ar.sets.headD "") with _ | c1 <;>
    rcases hg2 : jsGet circles (ar.sets.getD 1 "") with _ | c2 <;>
      simp only [hg1, hg2] at h
  · exact ((Except.error.injEq _ _).mp h).symm
  · exact ((Except.error.injEq _ _).mp h).symm
  · exact ((Except.error.injEq _ _).mp h).symm
  · split at h <;> simp at h

theorem soFold_error (circles : CircleRecord F) (l : List (Area F)) :
    ∀ (so : List (String × List (OverLap F))) (e : String),
      l.foldlM (greedySoStep circles) so = .error e → e = "TypeError" := by
  induction l with
  | nil =>
    intro so e h
    simp [List.foldlM_nil, pure, Except.pure] at h
  | cons ar rest ih =>
    intro so e h
    rw [List.foldlM_cons] at h
    cases hstep : greedySoStep circles so ar with
    | error e' =>
      rw [hstep] at h
      simp only [Bind.bind, Except.bind] at h
      obtain rfl := (Except.error.injEq _ _).mp h
      exact greedySoStep_error circles so ar _ hstep
    | ok so1 =>
      rw [hstep] at h
      simp only [Bind.bind, Except.bind] at h
      exact ih so1 e h

/-- `greedyPrep` can only fail with a TypeError. -/
theorem greedyPrep_error (M : JsMath F) (areas : List (Area F)) (e : String)
    (h : greedyPrep M areas = .error e) : e = "TypeError" := by
  simp only [greedyPrep] at h
  cases hf : (areas.filter fun a => a.sets.length = 2).foldlM
      (greedySoStep (greedyInit M areas).1) (greedyInit M areas).2 with
  | error e' =>
    rw [hf] at h
    simp only [Bind.bind, Except.bind] at h
    obtain rfl := (Except.error.injEq _ _).mp h
    exact soFold_error _ _ _ _ hf
  | ok so =>
    rw [hf] at h
    simp [Bind.bind, Except.bind] at h

/-- The per-pair candidate generator can only fail with the bisect error or
a TypeError. -/
theorem greedyPairStep_error (M : JsMath F) (circles : CircleRecord F) (setRadius : F)
    (p1 : Circle F) (d1 : F) (acc : List (Pt F)) (itemK : OverLap F) (e : String)
    (h : greedyPairStep M circles setRadius p1 d1 acc itemK = .error e) :
    e = "Initial bisect points must have opposite signs" ∨ e = "TypeError" := by
  unfold greedyPairStep at h
  rcases hg : jsGet circles itemK.set with _ | p2 <;> simp only [hg] at h
  · exact Or.inr ((Except.error.injEq _ _).mp h).symm
  · cases hd : distanceFromIntersectArea M setRadius p2.radius itemK.size with
    | error e' =>
      rw [hd] at h
      simp only [Bind.bind, Except.bind] at h
      obtain rfl := (Except.error.injEq _ _).mp h
      exact Or.inl (distanceFromIntersectArea_error M _ _ _ _ hd)
    | ok d2 =>
      rw [hd] at h
      simp [Bind.bind, Except.bind] at h

theorem pairFold_error (M : JsMath F) (circles : CircleRecord F) (setRadius : F)
    (p1 : Circle F) (d1 : F) (l : List (OverLap F)) :
    ∀ (acc : List (Pt F)) (e : String),
      l.foldlM (greedyPairStep M circles setRadius p1 d1) acc = .error e →
      e = "Initial bisect points must have opposite signs" ∨ e = "TypeError" := by
  induction l with
  | nil =>
    intro acc e h
    simp [List.foldlM_nil, pure, Except.pure] at h
  | cons itemK rest ih =>
    intro acc e h
    rw [List.foldlM_cons] at h
    cases hstep : greedyPairStep M circles setRadius p1 d1 acc itemK with
    | error e' =>
      rw [hstep] at h
      simp only [Bind.bind, Except.bind] at h
      obtain rfl := (Except.error.injEq _ _).mp h
      exact greedyPairStep_error M circles setRadius p1 d1 acc itemK _ hstep
    | ok acc1 =>
      rw [hstep] at h
      simp only [Bind.bind, Except.bind] at h
      exact ih acc1 e h

/-- The candidate generator of one greedy placement step can only fail with
the bisect error or a TypeError — never the missing-overlap error. -/
theorem greedyCandidates_error (M : JsMath F) (circles : CircleRecord F) (setRadius : F)
    (l : List (OverLap F)) :
    ∀ e, greedyCandidates M circles setRadius l = .error e →
      e = "Initial bisect points must have opposite signs" ∨ e = "TypeError" := by
  induction l with
  | nil =>
    intro e h
    simp [greedyCandidates] at h
  | cons item rest ih =>
    intro e h
    unfold greedyCandidates at h
    rcases hg : jsGet circles item.set with _ | p1 <;> simp only [hg] at h
    · exact ih e h
    · cases hd : distanceFromIntersectArea M setRadius p1.radius item.size with
      | error e' =>
        rw [hd] at h
        simp only [Bind.bind, Except.bind] at h
        obtain rfl := (Except.error.injEq _ _).mp h
        exact Or.inl (distanceFromIntersectArea_error M _ _ _ _ hd)
      | ok d1 =>
        rw [hd] at h
        simp only [Bind.bind, Except.bind] at h
        cases hx : rest.foldlM (greedyPairStep M circles setRadius p1 d1) [] with
        | error e' =>
          rw [hx] at h
          obtain rfl := (Except.error.injEq _ _).mp h
          exact pairFold_error M circles setRadius p1 d1 rest [] _ hx
        | ok extra =>
          rw [hx] at h
          cases ht : greedyCandidates M circles setRadius rest with
          | error e' =>
            rw [ht] at h
            obtain rfl := (Except.error.injEq _ _).mp h
            exact ih _ ht
          | ok tailPts =>
            rw [ht] at h
            simp at h

omit [LinearOrderedField F] in
theorem singleIds_cons (a : Area F) (l : List (Area F)) :
    singleIds (a :: l) =
      (if a.sets.length = 1 then [a.sets.headD ""] else []) ++ singleIds l := by
  by_cases ha : a.sets.length = 1 <;> simp [singleIds, List.filterMap_cons, ha]

theorem foldlM_append_except (f : β → α → Except String β) (l1 l2 : List α) (b : β) :
    (l1 ++ l2).foldlM f b = (l1.foldlM f b) >>= fun b' => l2.foldlM f b' := by
  induction l1 generalizing b with
  | nil => simp [List.foldlM_nil, Bind.bind, Except.bind, pure, Except.pure]
  | cons x xs ih =>
    simp only [List.cons_append, List.foldlM_cons, ih]
    cases f b x <;> simp [Bind.bind, Except.bind]

/-- Keys of the two records built by `greedyInit` stay in lockstep. -/
theorem greedyInit_fold_keys (M : JsMath F) (l : List (Area F)) :
    ∀ p : CircleRecord F × List (String × List (OverLap F)), jsKeys p.1 = jsKeys p.2 →
      jsKeys (l.foldl (greedyInitStep M) p).1 = jsKeys (l.foldl (greedyInitStep M) p).2 := by
  induction l with
  | nil => intro p h; exact h
  | cons a rest ih =>
    intro p h
    rw [List.foldl_cons]
    apply ih
    unfold greedyInitStep
    split
    · rw [jsKeys_jsSet, jsKeys_jsSet, h]
    · exact h

theorem greedyInit_fold_nodup (M : JsMath F) (l : List (Area F)) :
    ∀ p : CircleRecord F × List (String × List (OverLap F)), (jsKeys p.1).Nodup →
      (jsKeys (l.foldl (greedyInitStep M) p).1).Nodup := by
  induction l with
  | nil => intro p h; exact h
  | cons a rest ih =>
    intro p h
    rw [List.foldl_cons]
    apply ih
    unfold greedyInitStep
    split
    · exact jsKeys_nodup_jsSet _ _ _ h
    · exact h

/-- Every key of the circle record built by `greedyInit` is a single-set
identifier of the input. -/
theorem greedyInit_fold_sub (M : JsMath F) (l : List (Area F)) :
    ∀ (p : CircleRecord F × List (String × List (OverLap F))) (k : String),
      k ∈ jsKeys (l.foldl (greedyInitStep M) p).1 → k ∈ jsKeys p.1 ∨ k ∈ singleIds l := by
  induction l with
  | nil => intro p k h; exact Or.inl h
  | cons a rest ih =>
    intro p k h
    rw [List.foldl_cons] at h
    rcases ih _ k h with h1 | h1
    · unfold greedyInitStep at h1
      by_cases ha : a.sets.length = 1
      · rw [if_pos ha] at h1
        rw [jsKeys_jsSet] at h1
        split at h1
        · exact Or.inl h1
        · rcases List.mem_append.mp h1 with h2 | h2
          · exact Or.inl h2
          · right
            have hk : k = a.sets.headD "" := by simpa using h2
            simp [singleIds_cons, ha, hk]
      · rw [if_neg ha] at h1
        exact Or.inl h1
    · right
      simp [singleIds_cons]
      right
      exact h1

/-- Every circle stored by `greedyInit` carries the size of one of the
single-set Areas with its key. -/
theorem greedyInit_fold_get (M : JsMath F) (l : List (Area F)) :
    ∀ (p : CircleRecord F × List (String × List (OverLap F))) (k : String) (c : Circle F),
      jsGet (l.foldl (greedyInitStep M) p).1 k = some c →
      jsGet p.1 k = some c ∨
        ∃ ar ∈ l, ar.sets.length = 1 ∧ ar.sets.headD "" = k ∧ c.size = some ar.size := by
  induction l with
  | nil => intro p k c h; exact Or.inl h
  | cons a rest ih =>
    intro p k c h
    rw [List.foldl_cons] at h
    rcases ih _ k c h with h1 | ⟨ar, hmem, h2, h3, h4⟩
    · unfold greedyInitStep at h1
      by_cases ha : a.sets.length = 1
      · rw [if_pos ha] at h1
        by_cases hk : a.sets.headD "" = k
        · rw [hk, jsGet_jsSet_self] at h1
          obtain rfl := (Option.some.injEq _ _).mp h1
          exact Or.inr ⟨a, List.mem_cons_self a rest, ha, hk, rfl⟩
        · rw [jsGet_jsSet_ne _ _ _ _ (fun hh => hk hh.symm)] at h1
          exact Or.inl h1
      · rw [if_neg ha] at h1
        exact Or.inl h1
    · exact Or.inr ⟨ar, List.mem_cons_of_mem a hmem, h2, h3, h4⟩

/-- A successful overlap-adjacency step does not change the key set. -/
theorem greedySoStep_keys (circles : CircleRecord F)
    (so so' : List (String × List (OverLap F))) (ar : Area F)
    (hK : jsKeys circles = jsKeys so)
    (h : greedySoStep circles so ar = .ok so') : jsKeys so' = jsKeys so := by
  simp only [greedySoStep] at h
  rcases hg1 : jsGet circles (ar.sets.headD "") with _ | c1 <;>
    rcases hg2 : jsGet circles (ar.sets.getD 1 "") with _ | c2 <;>
      simp only [hg1, hg2] at h
  · simp at h
  · simp at h
  · simp at h
  · split at h
    · obtain rfl := (Except.ok.injEq _ _).mp h
      rfl
    · obtain rfl := (Except.ok.injEq _ _).mp h
      have hl : ar.sets.headD "" ∈ jsKeys so := by
        rw [← hK]
        exact (jsGet_isSome_iff_mem _ _).mp ⟨c1, hg1⟩
      have hr : ar.sets.getD 1 "" ∈ jsKeys so := by
        rw [← hK]
        exact (jsGet_isSome_iff_mem _ _).mp ⟨c2, hg2⟩
      rw [jsKeys_jsSet, jsKeys_jsSet, if_pos hl, if_pos hr]

theorem soFold_keys (circles : CircleRecord F) (l : List (Area F)) :
    ∀ so so', jsKeys circles = jsKeys so →
      l.foldlM (greedySoStep circles) so = .ok so' → jsKeys so' = jsKeys so := by
  induction l with
  | nil =>
    intro so so' _ h
    simp only [List.foldlM_nil, pure, Except.pure, Except.ok.injEq] at h
    rw [← h]
  | cons ar rest ih =>
    intro so so' hK h
    rw [List.foldlM_cons] at h
    cases hstep : greedySoStep circles so ar with
    | error e =>
      rw [hstep] at h
      simp [Bind.bind, Except.bind] at h
    | ok so1 =>
      rw [hstep] at h
      simp only [Bind.bind, Except.bind] at h
      have h1 := greedySoStep_keys circles so so1 ar hK hstep
      have h2 := ih so1 so' (hK.trans h1.symm) h
      rw [h2, h1]

/-- A successful overlap-adjacency step only appends to overlap lists. -/
theorem greedySoStep_mono (circles : CircleRecord F)
    (so so' : List (String × List (OverLap F))) (ar : Area F) (k : String) (o : OverLap F)
    (h : greedySoStep circles so ar = .ok so') (hm : o ∈ (jsGet so k).getD []) :
    o ∈ (jsGet so' k).getD [] := by
  simp only [greedySoStep] at h
  rcases hg1 : jsGet circles (ar.sets.headD "") with _ | c1 <;>
    rcases hg2 : jsGet circles (ar.sets.getD 1 "") with _ | c2 <;>
      simp only [hg1, hg2] at h
  · simp at h
  · simp at h
  · simp at h
  · split at h
    · obtain rfl := (Except.ok.injEq _ _).mp h
      exact hm
    · obtain rfl := (Except.ok.injEq _ _).mp h
      have hstep1 : o ∈ (jsGet (jsSet so (ar.sets.headD "")
          ((jsGet so (ar.sets.headD "")).getD [] ++
            [⟨ar.sets.getD 1 "", ar.size, if ar.size + SMALL ≥
              min (c1.size.getD 0) (c2.size.getD 0) then 0 else jsTruthyD ar.weight 1⟩])) k).getD
          [] := by
        by_cases hkl : k = ar.sets.headD ""
        · subst hkl
          rw [jsGet_jsSet_self]
          exact List.mem_append_left _ hm
        · rw [jsGet_jsSet_ne _ _ _ _ hkl]
          exact hm
      by_cases hkr : k = ar.sets.getD 1 ""
      · subst hkr
        rw [jsGet_jsSet_self]
        exact List.mem_append_left _ hstep1
      · rw [jsGet_jsSet_ne _ _ _ _ hkr]
        exact hstep1

theorem soFold_mono (circles : CircleRecord F) (l : List (Area F)) :
    ∀ so so' (k : String) (o : OverLap F),
      l.foldlM (greedySoStep circles) so = .ok so' →
      o ∈ (jsGet so k).getD [] → o ∈ (jsGet so' k).getD [] := by
  induction l with
  | nil =>
    intro so so' k o h hm
    simp only [List.foldlM_nil, pure, Except.pure, Except.ok.injEq] at h
    rw [← h]
    exact hm
  | cons ar rest ih =>
    intro so so' k o h hm
    rw [List.foldlM_cons] at h
    cases hstep : greedySoStep circles so ar with
    | error e =>
      rw [hstep] at h
      simp [Bind.bind, Except.bind] at h
    | ok so1 =>
      rw [hstep] at h
      simp only [Bind.bind, Except.bind] at h
      exact ih so1 so' k o h (greedySoStep_mono circles so so1 ar k o hstep hm)

/-- A successfully processed 2-way Area between two declared circles with
truthy sizes records each endpoint in the other's overlap list. -/
theorem greedySoStep_adds (circles : CircleRecord F)
    (so so' : List (String × List (OverLap F))) (ar : Area F) (a b : String)
    (hsets : ar.sets = [a, b]) (hab : a ≠ b) (ca cb : Circle F)
    (hga : jsGet circles a = some ca) (hgb : jsGet circles b = some cb)
    (hsa : ca.size.getD 0 ≠ 0) (hsb : cb.size.getD 0 ≠ 0)
    (h : greedySoStep circles so ar = .ok so') :
    (∃ o ∈ (jsGet so' a).getD [], OverLap.set o = b) ∧
    (∃ o ∈ (jsGet so' b).getD [], OverLap.set o = a) := by
  have hl : ar.sets.headD "" = a := by rw [hsets]; rfl
  have hr : ar.sets.getD 1 "" = b := by rw [hsets]; rfl
  simp only [greedySoStep, hl, hr, hga, hgb] at h
  rw [if_neg (by simp [hsa, hsb])] at h
  obtain rfl := (Except.ok.injEq _ _).mp h
  constructor
  · rw [jsGet_jsSet_ne _ _ _ _ hab, jsGet_jsSet_self]
    exact ⟨_, List.mem_append_right _ (List.mem_singleton_self _), rfl⟩
  · rw [jsGet_jsSet_self]
    exact ⟨_, List.mem_append_right _ (List.mem_singleton_self _), rfl⟩

/-- Running the overlap-adjacency pass over a list containing a 2-way Area
between two declared, truthy-size circles leaves each endpoint on the
other's final overlap list. -/
theorem soFold_entry (circles : CircleRecord F) (l : List (Area F)) (ar : Area F)
    (a b : String) (hmem : ar ∈ l) (hsets : ar.sets = [a, b]) (hab : a ≠ b)
    (ca cb : Circle F) (hga : jsGet circles a = some ca) (hgb : jsGet circles b = some cb)
    (hsa : ca.size.getD 0 ≠ 0) (hsb : cb.size.getD 0 ≠ 0) :
    ∀ so so', l.foldlM (greedySoStep circles) so = .ok so' →
      (∃ o ∈ (jsGet so' a).getD [], OverLap.set o = b) ∧
      (∃ o ∈ (jsGet so' b).getD [], OverLap.set o = a) := by
  obtain ⟨l1, l2, rfl⟩ := List.append_of_mem hmem
  intro so so' h
  rw [foldlM_append_except] at h
  cases h1 : l1.foldlM (greedySoStep circles) so with
  | error e =>
    rw [h1] at h
    simp [Bind.bind, Except.bind] at h
  | ok so1 =>
    rw [h1] at h
    simp only [Bind.bind, Except.bind] at h
    rw [List.foldlM_cons] at h
    cases h2 : greedySoStep circles so1 ar with
    | error e =>
      rw [h2] at h
      simp [Bind.bind, Except.bind] at h
    | ok so2 =>
      rw [h2] at h
      simp only [Bind.bind, Except.bind] at h
      obtain ⟨⟨oa, hoa, hoa2⟩, ob, hob, hob2⟩ :=
        greedySoStep_adds circles so1 so2 ar a b hsets hab ca cb hga hgb hsa hsb h2
      exact ⟨⟨oa, soFold_mono circles l2 so2 so' a oa h hoa, hoa2⟩,
        ⟨ob, soFold_mono circles l2 so2 so' b ob h hob, hob2⟩⟩

/-- A successful greedy placement step appends exactly its set to the
positioned list. -/
theorem greedyStep_ok_snd (M : JsMath F) (E : ExtLib F) (areas2 : List (Area F))
    (so : List (String × List (OverLap F))) (st : CircleRecord F × List String)
    (S : String) (st' : CircleRecord F × List String)
    (h : greedyStep M E areas2 so st S = .ok st') : st'.2 = st.2 ++ [S] := by
  obtain ⟨circles, positioned⟩ := st
  simp only [greedyStep] at h
  cases hS : (if S = "" then none else jsGet so S) with
  | none =>
    rw [hS] at h
    simp [Bind.bind, Except.bind] at h
  | some ovs =>
    rw [hS] at h
    simp only [Bind.bind, Except.bind] at h
    split at h
    · simp at h
    · cases hC : jsGet circles S with
      | none =>
        rw [hC] at h
        simp at h
      | some set =>
        rw [hC] at h
        simp only [Bind.bind, Except.bind] at h
        cases hP : greedyCandidates M circles set.radius
            (stableSortBy (fun a b => decide ((b.size : F) < a.size))
              (ovs.filter fun o => decide (o.set ∈ positioned))) with
        | error e =>
          simp only [hP] at h
          simp at h
        | ok points =>
          simp only [hP] at h
          split at h
          · simp at h
          · obtain rfl := (Except.ok.injEq _ _).mp h
            rfl

/-- A greedy placement step whose set has a positioned neighbor on its
overlap list cannot throw the missing-overlap error. -/
theorem greedyStep_ne_msg (M : JsMath F) (E : ExtLib F) (areas2 : List (Area F))
    (so : List (String × List (OverLap F))) (st : CircleRecord F × List String)
    (S : String) (hS : S ≠ "") (ovs : List (OverLap F)) (hovs : jsGet so S = some ovs)
    (o : OverLap F) (ho : o ∈ ovs) (hpos : o.set ∈ st.2) :
    ∀ e, greedyStep M E areas2 so st S = .error e →
      e ≠ "ERROR: missing pairwise overlap information" := by
  intro e h hmsg
  subst hmsg
  obtain ⟨circles, positioned⟩ := st
  simp only [greedyStep, if_neg hS, hovs] at h
  simp only [Bind.bind, Except.bind] at h
  have hlen : ¬ (stableSortBy (fun a b => decide ((b.size : F) < a.size))
      (ovs.filter fun o => decide (o.set ∈ positioned))).length = 0 := by
    have hmem : o ∈ ovs.filter fun o => decide (o.set ∈ positioned) :=
      List.mem_filter.mpr ⟨ho, by simpa using hpos⟩
    have hperm := stableSortBy_perm (fun a b => decide ((b.size : F) < a.size))
      (ovs.filter fun o => decide (o.set ∈ positioned))
    intro hzero
    rw [hperm.length_eq] at hzero
    rw [List.length_eq_zero.mp hzero] at hmem
    simp at hmem
  rw [if_neg hlen] at h
  cases hC : jsGet circles S with
  | none =>
    rw [hC] at h
    simp at h
  | some set =>
    rw [hC] at h
    simp only [Bind.bind, Except.bind] at h
    cases hP : greedyCandidates M circles set.radius
        (stableSortBy (fun a b => decide ((b.size : F) < a.size))
          (ovs.filter fun o => decide (o.set ∈ positioned))) with
    | error e' =>
      simp only [hP] at h
      obtain rfl := (Except.error.injEq _ _).mp h
      rcases greedyCandidates_error M circles set.radius _ _ hP with hc | hc <;> simp at hc
    | ok points =>
      simp only [hP] at h
      split at h
      · simp at h
      · simp at h

/-- Bind with an always-successful continuation fails exactly when the first
computation fails. -/
theorem except_bind_ok_error {γ δ : Type} {X : Except String γ} {k : γ → δ} {e : String}
    (h : (X >>= fun st => Except.ok (k st)) = .error e) : X = .error e := by
  cases X with
  | error e' =>
    simp only [Bind.bind, Except.bind] at h
    obtain rfl := (Except.error.injEq _ _).mp h
    rfl
  | ok st => simp [Bind.bind, Except.bind] at h

/-- Folding greedy placement steps from a state whose positioned list holds
`first` never throws the missing-overlap error, provided every remaining set
is nonempty and has `first` on its overlap list. -/
theorem greedyFold_ne_msg (M : JsMath F) (E : ExtLib F) (areas2 : List (Area F))
    (so : List (String × List (OverLap F))) (first : String) (rest : List (String × F))
    (hrest : ∀ x ∈ rest, x.1 ≠ "" ∧ ∃ ovs, jsGet so x.1 = some ovs ∧
      ∃ o ∈ ovs, OverLap.set o = first) :
    ∀ (st : CircleRecord F × List String), first ∈ st.2 → ∀ e,
      rest.foldlM (fun st entry => greedyStep M E areas2 so st entry.1) st = .error e →
      e ≠ "ERROR: missing pairwise overlap information" := by
  induction rest with
  | nil =>
    intro st hfst e h
    simp [List.foldlM_nil, pure, Except.pure] at h
  | cons x xs ih =>
    intro st hfst e h
    rw [List.foldlM_cons] at h
    cases hstep : greedyStep M E areas2 so st x.1 with
    | error e' =>
      rw [hstep] at h
      simp only [Bind.bind, Except.bind] at h
      obtain rfl := (Except.error.injEq _ _).mp h
      obtain ⟨hS, ovs, hovs, o, ho, hoset⟩ := hrest x (List.mem_cons_self x xs)
      exact greedyStep_ne_msg M E areas2 so st x.1 hS ovs hovs o ho (hoset ▸ hfst) _ hstep
    | ok st' =>
      rw [hstep] at h
      simp only [Bind.bind, Except.bind] at h
      have hsnd := greedyStep_ok_snd M E areas2 so st x.1 st' hstep
      exact ih (fun y hy => hrest y (List.mem_cons_of_mem x hy)) st'
        (by rw [hsnd]; exact List.mem_append_left _ hfst) e h

/-- C5 input: its own missing-pairwise completion (the pair `A,B` is
explicit), but the single set `A` has size 0. -/
def c5areas : List (Area ℚ) :=
  [⟨["A"], 0, none, none⟩, ⟨["B"], 1, none, none⟩, ⟨["A", "B"], 0, none, none⟩]

/-- C5 counterexample: an input that addMissingAreas leaves unchanged (it is
its own completion) on which `greedyLayout` nevertheless throws the
missing-overlap error: the zero-size single set `A` makes the adjacency pass
skip every pair touching `A`, so `B` reaches its placement step with no
positioned neighbor. -/
theorem greedyLayout_completed_throws :
    addMissingAreas qExt c5areas = c5areas ∧
    greedyLayout qMath qExt c5areas none =
      .error "ERROR: missing pairwise overlap information" := by
  constructor
  · decide
  · have hAB : ("A" : String) ≠ "B" := by decide
    have hBA : ("B" : String) ≠ "A" := by decide
    have hBe : ("B" : String) ≠ "" := by decide
    norm_num [greedyLayout, greedyPrep, greedyInit, greedyInitStep, greedySoStep, greedyStep,
      jsGet, jsSet, jsTruthyD, stableSortBy, insertBy, SMALL, qMath, qExt, c5areas,
      Bind.bind, Except.bind, pure, Except.pure, List.foldlM, hAB, hBA, hBe]

/-- C5 (amended): completion alone does not make the missing-overlap throw
unreachable; it is unreachable when additionally every single-set Area has a
truthy (nonzero) size and a nonempty identifier, and every two distinct
single-set ids are connected by some explicit 2-way Area (which completion
establishes for id sets without comma collisions).  Under those hypotheses
`greedyLayout` never returns the missing-overlap error (though it may still
fail with a bisect error or a TypeError). -/
theorem greedyLayout_missing_overlap_unreachable (M : JsMath F) (E : ExtLib F)
    (areas : List (Area F)) (params : Option (Params F))
    (h0 : ∀ a ∈ areas, a.sets.length = 1 → a.size ≠ 0)
    (hne : "" ∉ singleIds areas)
    (hpair : ∀ a b, a ∈ singleIds areas → b ∈ singleIds areas → a ≠ b →
      ∃ ar ∈ areas, ar.sets = [a, b] ∨ ar.sets = [b, a]) :
    greedyLayout M E areas params ≠ .error "ERROR: missing pairwise overlap information" := by
  intro hcon
  cases hprep : greedyPrep M areas with
  | error e =>
    have he := greedyPrep_error M areas e hprep
    simp only [greedyLayout, hprep, Bind.bind, Except.bind] at hcon
    obtain rfl := (Except.error.injEq _ _).mp hcon
    simp at he
  | ok prep =>
    have hprep' := hprep
    simp only [greedyPrep] at hprep'
    cases hf : (areas.filter fun a => a.sets.length = 2).foldlM
        (greedySoStep (greedyInit M areas).1) (greedyInit M areas).2 with
    | error e =>
      rw [hf] at hprep'
      simp [Bind.bind, Except.bind] at hprep'
    | ok so =>
      rw [hf] at hprep'
      simp only [Bind.bind, Except.bind, Except.ok.injEq] at hprep'
      obtain rfl := hprep'
      have hK : jsKeys (greedyInit M areas).1 = jsKeys (greedyInit M areas).2 :=
        greedyInit_fold_keys M areas ([], []) rfl
      have hN : (jsKeys (greedyInit M areas).1).Nodup :=
        greedyInit_fold_nodup M areas ([], []) (by simp [jsKeys])
      have hSub : ∀ k, k ∈ jsKeys (greedyInit M areas).1 → k ∈ singleIds areas :=
        fun k hk => (greedyInit_fold_sub M areas ([], []) k hk).resolve_left (by simp [jsKeys])
      have hGet : ∀ k c, jsGet (greedyInit M areas).1 k = some c →
          ∃ ar ∈ areas, ar.sets.length = 1 ∧ ar.sets.headD "" = k ∧ c.size = some ar.size :=
        fun k c hc => (greedyInit_fold_get M areas ([], []) k c hc).resolve_left (by simp [jsGet])
      have hKso : jsKeys so = jsKeys (greedyInit M areas).2 :=
        soFold_keys (greedyInit M areas).1 _ (greedyInit M areas).2 so hK hf
      have hkeys_eq : jsKeys so = jsKeys (greedyInit M areas).1 := hKso.trans hK.symm
      simp only [greedyLayout, hprep, Bind.bind, Except.bind] at hcon
      have hperm := stableSortBy_perm (fun a b => decide ((b.2 : F) < a.2))
        (so.map fun kv => (kv.1, (kv.2.map fun o => o.size * o.weight).sum))
      have hfst : (so.map fun kv => ((kv.1 : String),
          (kv.2.map fun o => o.size * o.weight).sum)).map Prod.fst = jsKeys so := by
        rw [List.map_map]
        rfl
      cases hmo : stableSortBy (fun a b => decide ((b.2 : F) < a.2))
          (so.map fun kv => (kv.1, (kv.2.map fun o => o.size * o.weight).sum)) with
      | nil =>
        rw [hmo] at hcon
        simp [List.foldlM_nil, Bind.bind, Except.bind, pure, Except.pure] at hcon
      | cons hd tl =>
        rw [hmo] at hcon
        rw [hmo] at hperm
        simp only [List.head?_cons, Option.map_some', Option.getD_some,
          List.drop_succ_cons, List.drop_zero] at hcon
        have hfold := except_bind_ok_error hcon
        have hmem_keys : ∀ x ∈ hd :: tl, x.1 ∈ jsKeys so := by
          intro x hx
          have h1 : x ∈ so.map fun kv => (kv.1, (kv.2.map fun o => o.size * o.weight).sum) :=
            hperm.mem_iff.mp hx
          have h2 := List.mem_map_of_mem Prod.fst h1
          rwa [hfst] at h2
        have hnd_so : (jsKeys so).Nodup := by rw [hkeys_eq]; exact hN
        have hnd_fst : ((hd :: tl).map Prod.fst).Nodup := by
          have h1 := hperm.map Prod.fst
          rw [hfst] at h1
          exact h1.nodup_iff.mpr hnd_so
        have hhd_ne : ∀ x ∈ tl, x.1 ≠ hd.1 := by
          intro x hx heq
          have h1 : hd.1 ∉ tl.map Prod.fst := (List.nodup_cons.mp (by simpa using hnd_fst)).1
          exact h1 (heq ▸ List.mem_map_of_mem Prod.fst hx)
        have hhdk : hd.1 ∈ jsKeys so := hmem_keys hd (List.mem_cons_self hd tl)
        have hhds : hd.1 ∈ singleIds areas := hSub hd.1 (hkeys_eq ▸ hhdk)
        have hrest : ∀ x ∈ tl, x.1 ≠ "" ∧ ∃ ovs, jsGet so x.1 = some ovs ∧
            ∃ o ∈ ovs, OverLap.set o = hd.1 := by
          intro x hx
          have hxk : x.1 ∈ jsKeys so := hmem_keys x (List.mem_cons_of_mem hd hx)
          have hxs : x.1 ∈ singleIds areas := hSub x.1 (hkeys_eq ▸ hxk)
          refine ⟨fun hxe => hne (hxe ▸ hxs), ?_⟩
          obtain ⟨ar, harm, hsets⟩ := hpair x.1 hd.1 hxs hhds (hhd_ne x hx)
          obtain ⟨ca, hca⟩ := (jsGet_isSome_iff_mem (greedyInit M areas).1 x.1).mpr
            (hkeys_eq ▸ hxk)
          obtain ⟨cb, hcb⟩ := (jsGet_isSome_iff_mem (greedyInit M areas).1 hd.1).mpr
            (hkeys_eq ▸ hhdk)
          obtain ⟨ar1, hm1, hl1, hh1, hs1⟩ := hGet x.1 ca hca
          obtain ⟨ar2, hm2, hl2, hh2, hs2⟩ := hGet hd.1 cb hcb
          have hsa : ca.size.getD 0 ≠ 0 := by
            rw [hs1]
            simpa using h0 ar1 hm1 hl1
          have hsb : cb.size.getD 0 ≠ 0 := by
            rw [hs2]
            simpa using h0 ar2 hm2 hl2
          obtain ⟨ovs, hovs⟩ := (jsGet_isSome_iff_mem so x.1).mpr hxk
          rcases hsets with hs | hs
          · obtain ⟨⟨o, ho, hoset⟩, -⟩ := soFold_entry (greedyInit M areas).1 _ ar x.1 hd.1
              (List.mem_filter.mpr ⟨harm, by rw [hs]; rfl⟩) hs (hhd_ne x hx) ca cb hca hcb
              hsa hsb (greedyInit M areas).2 so hf
            refine ⟨ovs, hovs, o, ?_, hoset⟩
            rw [hovs] at ho
            simpa using ho
          · obtain ⟨-, o, ho, hoset⟩ := soFold_entry (greedyInit M areas).1 _ ar hd.1 x.1
              (List.mem_filter.mpr ⟨harm, by rw [hs]; rfl⟩) hs
              (fun hh => hhd_ne x hx hh.symm) cb ca hcb hca hsb hsa
              (greedyInit M areas).2 so hf
            refine ⟨ovs, hovs, o, ?_, hoset⟩
            rw [hovs] at ho
            simpa using ho
        exact greedyFold_ne_msg M E _ so hd.1 tl hrest _ (by simp) _ hfold rfl

/-- C5 witness: the amended no-missing-overlap law applied to a concrete
completed input with positive single sizes. -/
theorem greedyLayout_missing_overlap_unreachable_witness :
    greedyLayout qMath qExt
        [⟨["A"], (1 : ℚ), none, none⟩, ⟨["B"], 1, none, none⟩, ⟨["A", "B"], 0, none, none⟩]
        none ≠ .error "ERROR: missing pairwise overlap information" :=
  greedyLayout_missing_overlap_unreachable qMath qExt
    [⟨["A"], (1 : ℚ), none, none⟩, ⟨["B"], 1, none, none⟩, ⟨["A", "B"], 0, none, none⟩]
    none (by decide) (by decide)
    (by
      intro a b ha hb hab
      have hids : singleIds
          ([⟨["A"], (1 : ℚ), none, none⟩, ⟨["B"], 1, none, none⟩,
            ⟨["A", "B"], 0, none, none⟩] : List (Area ℚ)) = ["A", "B"] := rfl
      rw [hids] at ha hb
      simp only [List.mem_cons, List.not_mem_nil, or_false] at ha hb
      rcases ha with rfl | rfl <;> rcases hb with rfl | rfl
      · exact absurd rfl hab
      · exact ⟨⟨["A", "B"], 0, none, none⟩, by decide, Or.inl rfl⟩
      · exact ⟨⟨["A", "B"], 0, none, none⟩, by decide, Or.inr rfl⟩
      · exact absurd rfl hab)

/-! ## C8: the frame property of normalizeSolution and scaleSolution

The pure embedding above cannot express mutation, so the two functions are
re-embedded over an explicit heap: circles are numbered cells holding the
mutable fields (including the transient union-find `parent` pointer, as a
cell number), a CircleRecord maps set ids to cell numbers, JS property
assignment is `hWrite`, and `{...previous, setid}` allocates a fresh cell at
the end of the heap.  The frame claim then states that no cell existing
before the call is ever written. -/

/-- Heap cell: a circle with its transient union-find parent pointer. -/
structure HCircle (F : Type) where
  x : F
  y : F
  rowid : Option Nat := none
  size : Option F := none
  radius : F
  setid : String
  parent : Option Nat := none
deriving DecidableEq

/-- Heap read (JS property reads on a circle object). -/
def hGet (h : List (HCircle F)) (r : Nat) : HCircle F :=
  h.getD r ⟨0, 0, none, none, 0, "", none⟩

/-- Heap write (JS property assignment on a circle object). -/
def hWrite (h : List (HCircle F)) (r : Nat) (c : HCircle F) : List (HCircle F) :=
  h.set r c

/-- The copy loop of `normalizeSolution`: `circles.push({...previous,
setid})` reads each record entry and allocates a fresh cell (all fields
copied, the set id overwritten with the record key); returns the new heap
and the list of fresh cell numbers. -/
def hCopyStep (st : List (HCircle F) × List Nat) (kv : String × Nat) :
    List (HCircle F) × List Nat :=
  let c := hGet st.1 kv.2
  (st.1 ++ [{c with setid := kv.1}], st.2 ++ [st.1.length])

def hCopyCircles (solution : List (String × Nat)) (h : List (HCircle F)) :
    List (HCircle F) × List Nat :=
  solution.foldl hCopyStep (h, [])

/-- `circle.parent = circle` initialization pass of `disjointCluster`. -/
def hParentInit (h : List (HCircle F)) (refs : List Nat) : List (HCircle F) :=
  refs.foldl (fun h r => hWrite h r {hGet h r with parent := some r}) h

/-- The path-compressing `find` of `disjointCluster`: follows parent
pointers, rewrites every visited cell's parent to the root, and returns the
root (fuel-bounded; the source's pointer structure is acyclic so a fuel of
one more than the heap size never runs out). -/
def hFind : Nat → List (HCircle F) → Option Nat → List (HCircle F) × Option Nat
  | _, h, none => (h, none)
  | 0, h, some _ => (h, none)
  | fuel + 1, h, some r =>
    let c := hGet h r
    if c.parent = some r then (h, some r)
    else
      let f := hFind fuel h c.parent
      (hWrite f.1 r {hGet f.1 r with parent := f.2}, f.2)

/-- `union(x, y)` of `disjointCluster`: find both roots (in order), then
point x's root at y's root. -/
def hUnion (fuel : Nat) (h : List (HCircle F)) (x y : Nat) : List (HCircle F) :=
  let fx := hFind fuel h (some x)
  let fy := hFind fuel fx.1 (some y)
  match fx.2 with
  | none => fy.1
  | some xr => hWrite fy.1 xr {hGet fy.1 xr with parent := fy.2}

/-- The pairwise union pass of `disjointCluster` (`union(c2, c1)` for every
pair closer than the sum of radii minus the tolerance). -/
def hUnionPass (M : JsMath F) (fuel : Nat) (refs : List Nat) (h : List (HCircle F)) :
    List (HCircle F) :=
  (List.range refs.length).foldl
    (fun h i =>
      ((List.range refs.length).drop (i + 1)).foldl
        (fun h j =>
          let c1 := hGet h (refs.getD i 0)
          let c2 := hGet h (refs.getD j 0)
          if distanceXY M c1.x c1.y c2.x c2.y + SMALL < c1.radius + c2.radius then
            hUnion fuel h (refs.getD j 0) (refs.getD i 0)
          else h)
        h)
    h

/-- Grouping pass of `disjointCluster`: find each circle's root (with
compression writes), read `parentCircle?.parent?.setid`, skip falsy ids, and
push the circle onto its root's cluster. -/
def hGroupClusters (fuel : Nat) (refs : List Nat) (h : List (HCircle F)) :
    List (HCircle F) × List (String × List Nat) :=
  refs.foldl
    (fun (st : List (HCircle F) × List (String × List Nat)) r =>
      let f := hFind fuel st.1 (some r)
      let setid := match f.2 with
        | none => ""
        | some q => match (hGet f.1 q).parent with
          | none => ""
          | some qq => (hGet f.1 qq).setid
      if setid = "" then (f.1, st.2)
      else (f.1, jsSet st.2 setid (((jsGet st.2 setid).getD []) ++ [r])))
    (h, [])

/-- `delete circle.parent` cleanup pass of `disjointCluster`. -/
def hClearParents (h : List (HCircle F)) (refs : List Nat) : List (HCircle F) :=
  refs.foldl (fun h r => hWrite h r {hGet h r with parent := none}) h

/-- Heap version of `disjointCluster`. -/
def hDisjointCluster (M : JsMath F) (refs : List Nat) (h : List (HCircle F)) :
    List (HCircle F) × List (List Nat) :=
  let h1 := hParentInit h refs
  let fuel := h1.length + 1
  let h2 := hUnionPass M fuel refs h1
  let g := hGroupClusters fuel refs h2
  let h4 := hClearParents g.1 refs
  (h4, g.2.map Prod.snd)

/-- Heap version of `getBoundingBox` over a list of cell numbers. -/
def hBoundingBox (h : List (HCircle F)) (refs : List Nat) : Bounds F :=
  ⟨⟨bboxHi (refs.map fun r => (hGet h r).x + (hGet h r).radius),
    bboxLo (refs.map fun r => (hGet h r).x - (hGet h r).radius)⟩,
   ⟨bboxHi (refs.map fun r => (hGet h r).y + (hGet h r).radius),
    bboxLo (refs.map fun r => (hGet h r).y - (hGet h r).radius)⟩⟩

/-- Heap version of `orientateCircles`: the same dead `=== null` branch (no
sort with an absent order), in-place translation, 2-circle subset offset,
rotation and mirroring, all as writes to the cluster's cells. -/
def hTranslate (refs : List Nat) (h0 : List (HCircle F)) : List (HCircle F) :=
  match refs.head? with
  | none => h0
  | some r0 =>
    let largestX := (hGet h0 r0).x
    let largestY := (hGet h0 r0).y
    refs.foldl
      (fun h r =>
        let c := hGet h r
        hWrite h r {c with x := c.x - largestX, y := c.y - largestY}) h0

def hSubsetOffset (M : JsMath F) (refs : List Nat) (h1 : List (HCircle F)) :
    List (HCircle F) :=
  match refs with
  | [r1, r2] =>
    let c1 := hGet h1 r1
    let c2 := hGet h1 r2
    if distanceXY M c1.x c1.y c2.x c2.y < |c2.radius - c1.radius| then
      hWrite h1 r2 {c2 with x := c1.x + c1.radius - c2.radius - SMALL}
    else h1
  | _ => h1

def hRotate (M : JsMath F) (orientation : Option F) (refs : List Nat)
    (h2 : List (HCircle F)) : List (HCircle F) :=
  if 1 < refs.length then
    let second := hGet h2 (refs.getD 1 0)
    let rotation := M.atan2 second.x second.y - orientation.getD 0
    let c := M.cos rotation
    let s := M.sin rotation
    refs.foldl
      (fun h r =>
        let circ := hGet h r
        hWrite h r {circ with x := c * circ.x - s * circ.y, y := s * circ.x + c * circ.y}) h2
  else h2

def hMirror (M : JsMath F) (orientation : Option F) (refs : List Nat)
    (h3 : List (HCircle F)) : List (HCircle F) :=
  if 2 < refs.length then
    let third := hGet h3 (refs.getD 2 0)
    let angle := angleIntoRange (2 * M.pi) 1000
      (M.atan2 third.x third.y - orientation.getD 0)
    if angle > M.pi then
      let second := hGet h3 (refs.getD 1 0)
      let slope := second.y / (SMALL + second.x)
      refs.foldl
        (fun h r =>
          let circ := hGet h r
          let d := (circ.x + slope * circ.y) / (1 + slope * slope)
          hWrite h r {circ with x := 2 * d - circ.x, y := 2 * d * slope - circ.y}) h3
    else h3
  else h3

def hOrientateCircles (M : JsMath F) (h0 : List (HCircle F)) (refs0 : List Nat)
    (orientation : Option F) (orientationOrder : Option (HCircle F → HCircle F → F)) :
    List (HCircle F) × List Nat :=
  let refs := match orientationOrder with
    | none => refs0
    | some cmp => stableSortBy (fun a b => decide (cmp (hGet h0 a) (hGet h0 b) < 0)) refs0
  (hMirror M orientation refs
    (hRotate M orientation refs (hSubsetOffset M refs (hTranslate refs h0))), refs)

/-- Cluster bookkeeping attached to the cluster array by the source. -/
structure HClusterInfo (F : Type) where
  refs : List Nat
  size : F
  bounds : Bounds F
deriving DecidableEq

/-- Heap version of `addCluster` (minus the early return for a falsy size,
which the caller checks): offset every circle of the cluster in place and
report its cells for the growing output array. -/
def hAddClusterOffset (spacing : F) (returnBounds : Bounds F) (info : HClusterInfo F)
    (right bottom : Bool) (h : List (HCircle F)) : List (HCircle F) :=
  let bounds := info.bounds
  let xOffset :=
    if right then returnBounds.xRange.max - bounds.xRange.min + spacing
    else
      let base := returnBounds.xRange.max - bounds.xRange.max
      let centreing := (bounds.xRange.max - bounds.xRange.min) / 2 -
        (returnBounds.xRange.max - returnBounds.xRange.min) / 2
      if centreing < 0 then base + centreing else base
  let yOffset :=
    if bottom then returnBounds.yRange.max - bounds.yRange.min + spacing
    else
      let base := returnBounds.yRange.max - bounds.yRange.max
      let centreing := (bounds.yRange.max - bounds.yRange.min) / 2 -
        (returnBounds.yRange.max - returnBounds.yRange.min) / 2
      if centreing < 0 then base + centreing else base
  info.refs.foldl
    (fun h r =>
      let c := hGet h r
      hWrite h r {c with x := c.x + xOffset, y := c.y + yOffset}) h

/-- Heap version of the grid-packing `while` loop of `normalizeSolution`:
three clusters per round (falsy-size clusters skipped without moving or
pushing), then the working bounds are recomputed over the whole circles
array. -/
def hNormChunks (spacing : F) : Nat → List (HClusterInfo F) → Bounds F → List Nat →
    List (HCircle F) → List (HCircle F) × List Nat
  | 0, _, _, arr, h => (h, arr)
  | fuel + 1, rest, returnBounds, arr, h =>
    match rest with
    | [] => (h, arr)
    | _ =>
      let flags : List (Bool × Bool) := [(true, false), (false, true), (true, true)]
      let step := ((rest.take 3).zip flags).foldl
        (fun (st : List (HCircle F) × List Nat) p =>
          if p.1.size = 0 then st
          else
            (hAddClusterOffset spacing returnBounds p.1 p.2.1 p.2.2 st.1, st.2 ++ p.1.refs))
        (h, arr)
      let rb := hBoundingBox step.1 step.2
      hNormChunks spacing fuel (rest.drop 3) rb step.2 step.1

/-- One cluster of the orientate-and-measure loop of `normalizeSolution`:
orientate the cluster in place, then attach its bounding box and size. -/
def hOrientStep (M : JsMath F) (orientation : Option F)
    (orientationOrder : Option (HCircle F → HCircle F → F))
    (st : List (HCircle F) × List (HClusterInfo F)) (cl : List Nat) :
    List (HCircle F) × List (HClusterInfo F) :=
  let oc := hOrientateCircles M st.1 cl orientation orientationOrder
  let bounds := hBoundingBox oc.1 oc.2
  (oc.1, st.2 ++ [⟨oc.2,
    (bounds.xRange.max - bounds.xRange.min) * (bounds.yRange.max - bounds.yRange.min),
    bounds⟩])

/-- Heap version of `normalizeSolution`: copy every record circle to a fresh
cell, cluster and orientate the copies in place, pack the clusters, and
build the output record over the (mutated) copies; the caller's cells are
only ever read. -/
def hNormalizeSolution (M : JsMath F) (solution : List (String × Nat))
    (h : List (HCircle F)) (orientation : Option F)
    (orientationOrder : Option (HCircle F → HCircle F → F)) :
    List (HCircle F) × List (String × Nat) :=
  let cp := hCopyCircles solution h
  let dc := hDisjointCluster M cp.2 cp.1
  let oi := dc.2.foldl (hOrientStep M orientation orientationOrder) (dc.1, [])
  let sorted := stableSortBy
    (fun a b => decide (¬(a.size = 0 ∨ b.size = 0) ∧ (b.size : F) - a.size < 0)) oi.2
  match sorted with
  | [] => (oi.1, [])
  | largest :: restClusters =>
    let returnBounds := largest.bounds
    let spacing := (returnBounds.xRange.max - returnBounds.xRange.min) / 50
    let packed := hNormChunks spacing restClusters.length restClusters returnBounds
      cp.2 oi.1
    (packed.1, packed.2.foldl (fun r cref => jsSet r (hGet packed.1 cref).setid cref) [])

/-- Heap version of `scaleSolution`: reads the record's cells, returns the
record unchanged on a degenerate bounding box, and otherwise builds the
scaled record out of freshly allocated cells (`{...circle, radius, x, y}`);
no existing cell is written. -/
def hScaleSolution (solution : List (String × Nat)) (h : List (HCircle F))
    (width height padding : F) : List (HCircle F) × List (String × Nat) :=
  let width := width - 2 * padding
  let height := height - 2 * padding
  let bounds := hBoundingBox h (solution.map Prod.snd)
  let xRange := bounds.xRange
  let yRange := bounds.yRange
  if xRange.max = xRange.min ∨ yRange.max = yRange.min then (h, solution)
  else
    let xScaling := width / (xRange.max - xRange.min)
    let yScaling := height / (yRange.max - yRange.min)
    let scaling := min yScaling xScaling
    let xOffset := (width - (xRange.max - xRange.min) * scaling) / 2
    let yOffset := (height - (yRange.max - yRange.min) * scaling) / 2
    solution.foldl
      (fun (st : List (HCircle F) × List (String × Nat)) kv =>
        if kv.1 = "" then st
        else
          let c := hGet st.1 kv.2
          (st.1 ++ [{c with
              radius := scaling * c.radius
              x := padding + xOffset + (c.x - xRange.min) * scaling
              y := padding + yOffset + (c.y - yRange.min) * scaling}],
           jsSet st.2 kv.1 st.1.length))
      (h, [])

/-- Heap extension: all cells below `n` agree. -/
def hExt (n : Nat) (h h' : List (HCircle F)) : Prop := ∀ i, i < n → hGet h' i = hGet h i

/-- All parent pointers of cells at or above `n` stay at or above `n`. -/
def parentsOK (n : Nat) (h : List (HCircle F)) : Prop :=
  ∀ j p, n ≤ j → (hGet h j).parent = some p → n ≤ p

/-- The invariant carried through the mutating pipeline: the old cells are
untouched and the union-find pointers stay in the fresh region. -/
def heapOK (n : Nat) (h₀ h : List (HCircle F)) : Prop := hExt n h₀ h ∧ parentsOK n h

theorem hExt_refl (n : Nat) (h : List (HCircle F)) : hExt n h h := fun _ _ => rfl

theorem hExt_trans {n : Nat} {h1 h2 h3 : List (HCircle F)}
    (a : hExt n h1 h2) (b : hExt n h2 h3) : hExt n h1 h3 :=
  fun i hi => (b i hi).trans (a i hi)

theorem hGet_hWrite_ne (h : List (HCircle F)) (r : Nat) (c : HCircle F) (i : Nat)
    (hi : i ≠ r) : hGet (hWrite h r c) i = hGet h i := by
  simp [hGet, hWrite, List.getD_eq_getElem?_getD, List.getElem?_set_ne (Ne.symm hi)]

theorem hGet_hWrite_self (h : List (HCircle F)) (r : Nat) (c : HCircle F)
    (hr : r < h.length) : hGet (hWrite h r c) r = c := by
  simp [hGet, hWrite, List.getD_eq_getElem?_getD, List.getElem?_set_self, hr]

theorem hWrite_length (h : List (HCircle F)) (r : Nat) (c : HCircle F) :
    (hWrite h r c).length = h.length := List.length_set h r c

theorem hGet_default (h : List (HCircle F)) (r : Nat) (hr : h.length ≤ r) :
    hGet h r = ⟨0, 0, none, none, 0, "", none⟩ := List.getD_eq_default _ _ hr

theorem hExt_write {n : Nat} {h₀ h : List (HCircle F)} (r : Nat) (c : HCircle F)
    (he : hExt n h₀ h) (hr : n ≤ r) : hExt n h₀ (hWrite h r c) :=
  fun i hi => (hGet_hWrite_ne h r c i (by omega)).trans (he i hi)

theorem parentsOK_write {n : Nat} {h : List (HCircle F)} (r : Nat) (c : HCircle F)
    (hp : parentsOK n h) (hc : ∀ p, c.parent = some p → n ≤ p) :
    parentsOK n (hWrite h r c) := by
  intro j p hj hget
  by_cases hjr : j = r
  · subst hjr
    by_cases hlen : j < h.length
    · rw [hGet_hWrite_self h j c hlen] at hget
      exact hc p hget
    · rw [hWrite, List.set_eq_of_length_le (by omega)] at hget
      exact hp j p hj hget
  · rw [hGet_hWrite_ne h r c j hjr] at hget
    exact hp j p hj hget

theorem heapOK_write {n : Nat} {h₀ h : List (HCircle F)} (r : Nat) (c : HCircle F)
    (hOK : heapOK n h₀ h) (hr : n ≤ r) (hc : ∀ p, c.parent = some p → n ≤ p) :
    heapOK n h₀ (hWrite h r c) :=
  ⟨hExt_write r c hOK.1 hr, parentsOK_write r c hOK.2 hc⟩

/-- Invariant preservation through a left fold. -/
theorem foldl_preserve {β α : Type} (P : β → Prop) (f : β → α → β) (l : List α)
    (hstep : ∀ b a, a ∈ l → P b → P (f b a)) : ∀ b, P b → P (l.foldl f b) := by
  induction l with
  | nil => intro b hb; exact hb
  | cons x xs ih =>
    intro b hb
    rw [List.foldl_cons]
    exact ih (fun b a ha hb => hstep b a (List.mem_cons_of_mem x ha) hb) _
      (hstep b x (List.mem_cons_self x xs) hb)

/-- The path-compressing find preserves the invariant and returns a root in
the fresh region. -/
theorem hFind_heapOK {n : Nat} {h₀ : List (HCircle F)} :
    ∀ (fuel : Nat) (h : List (HCircle F)) (r? : Option Nat), heapOK n h₀ h →
      (∀ r, r? = some r → n ≤ r) →
      heapOK n h₀ (hFind fuel h r?).1 ∧ ∀ q, (hFind fuel h r?).2 = some q → n ≤ q := by
  intro fuel
  induction fuel with
  | zero =>
    intro h r? hOK hr
    cases r? with
    | none => exact ⟨hOK, fun q hq => by simp [hFind] at hq⟩
    | some r => exact ⟨hOK, fun q hq => by simp [hFind] at hq⟩
  | succ fuel ih =>
    intro h r? hOK hr
    cases r? with
    | none => exact ⟨hOK, fun q hq => by simp [hFind] at hq⟩
    | some r =>
      have hr' : n ≤ r := hr r rfl
      by_cases hp : (hGet h r).parent = some r
      · refine ⟨by simpa [hFind, hp] using hOK, fun q hq => ?_⟩
        simp [hFind, hp] at hq
        omega
      · have hrec := ih h (hGet h r).parent hOK (fun p hp' => hOK.2 r p hr' hp')
        constructor
        · simp only [hFind, if_neg hp]
          exact heapOK_write r _ hrec.1 hr' (fun p hp' => hrec.2 p hp')
        · intro q hq
          simp only [hFind, if_neg hp] at hq
          exact hrec.2 q hq

/-- Union preserves the invariant when both arguments are fresh cells. -/
theorem hUnion_heapOK {n : Nat} {h₀ : List (HCircle F)} (fuel : Nat)
    (h : List (HCircle F)) (x y : Nat) (hOK : heapOK n h₀ h) (hx : n ≤ x) (hy : n ≤ y) :
    heapOK n h₀ (hUnion fuel h x y) := by
  have hfx := hFind_heapOK fuel h (some x) hOK (fun r hr => by cases hr; exact hx)
  have hfy := hFind_heapOK fuel (hFind fuel h (some x)).1 (some y) hfx.1
    (fun r hr => by cases hr; exact hy)
  simp only [hUnion]
  cases hxr : (hFind fuel h (some x)).2 with
  | none => exact hfy.1
  | some xr => exact heapOK_write xr _ hfy.1 (hfx.2 xr hxr) (fun p hp => hfy.2 p hp)

theorem getD_mem_of_lt (l : List Nat) (i : Nat) (h : i < l.length) : l.getD i 0 ∈ l := by
  rw [List.getD_eq_getElem?_getD, List.getElem?_eq_getElem h]
  exact List.getElem_mem h

theorem mem_jsSet (r : List (String × α)) (k : String) (v : α) :
    ∀ kv ∈ jsSet r k v, kv ∈ r ∨ kv = (k, v) := by
  induction r with
  | nil => intro kv hkv; simp [jsSet] at hkv; exact Or.inr hkv
  | cons kv' rest ih =>
    obtain ⟨k', v'⟩ := kv'
    intro kv hkv
    by_cases hh : k' = k
    · subst hh
      simp only [jsSet, if_pos rfl] at hkv
      rcases List.mem_cons.mp hkv with h1 | h1
      · exact Or.inr h1
      · exact Or.inl (List.mem_cons_of_mem _ h1)
    · simp only [jsSet, if_neg hh] at hkv
      rcases List.mem_cons.mp hkv with h1 | h1
      · exact Or.inl (h1 ▸ List.mem_cons_self _ _)
      · rcases ih kv h1 with h2 | h2
        · exact Or.inl (List.mem_cons_of_mem _ h2)
        · exact Or.inr h2

theorem jsGet_mem (r : List (String × α)) (k : String) (v : α) (h : jsGet r k = some v) :
    (k, v) ∈ r := by
  induction r with
  | nil => simp [jsGet] at h
  | cons kv rest ih =>
    obtain ⟨k', v'⟩ := kv
    by_cases hh : k' = k
    · subst hh
      have hv : v' = v := by simpa [jsGet] using h
      obtain rfl := hv
      exact List.mem_cons_self _ _
    · simp only [jsGet, if_neg hh] at h
      exact List.mem_cons_of_mem _ (ih h)

/-- Characterization of the copy phase: it only appends, and the returned
references enumerate the appended region. -/
theorem hCopy_fold (sol : List (String × Nat)) :
    ∀ st : List (HCircle F) × List Nat,
      (sol.foldl hCopyStep st).1.length = st.1.length + sol.length ∧
      (∀ i, i < st.1.length → hGet (sol.foldl hCopyStep st).1 i = hGet st.1 i) ∧
      (sol.foldl hCopyStep st).2 = st.2 ++ List.range' st.1.length sol.length := by
  induction sol with
  | nil => intro st; simp
  | cons kv rest ih =>
    intro st
    rw [List.foldl_cons]
    obtain ⟨ih1, ih2, ih3⟩ := ih (hCopyStep st kv)
    have hlen : (hCopyStep st kv).1.length = st.1.length + 1 := by
      simp [hCopyStep]
    refine ⟨by rw [ih1, hlen]; simp only [List.length_cons]; omega, ?_, ?_⟩
    · intro i hi
      rw [ih2 i (by omega)]
      show hGet (st.1 ++ _) i = hGet st.1 i
      simp [hGet, List.getD_eq_getElem?_getD, List.getElem?_append_left hi]
    · rw [ih3, hlen]
      show (st.2 ++ [st.1.length]) ++ List.range' (st.1.length + 1) rest.length =
        st.2 ++ List.range' st.1.length (kv :: rest).length
      simp only [List.length_cons]
      rw [List.range'_succ st.1.length rest.length 1]
      simp

theorem hParentInit_hExt {n : Nat} {h₀ : List (HCircle F)} (refs : List Nat)
    (hhigh : ∀ r ∈ refs, n ≤ r) :
    ∀ h, hExt n h₀ h → hExt n h₀ (hParentInit h refs) := by
  intro h he
  exact foldl_preserve (hExt n h₀) _ refs
    (fun b r hr hb => hExt_write r _ hb (hhigh r hr)) h he

theorem hParentInit_length (refs : List Nat) :
    ∀ h : List (HCircle F), (hParentInit h refs).length = h.length := by
  induction refs with
  | nil => intro h; rfl
  | cons r rest ih =>
    intro h
    show (hParentInit (hWrite h r _) rest).length = h.length
    rw [ih, hWrite_length]

theorem hParentInit_untouched (refs : List Nat) :
    ∀ (h : List (HCircle F)) (j : Nat), j ∉ refs →
      hGet (hParentInit h refs) j = hGet h j := by
  induction refs with
  | nil => intro h j _; rfl
  | cons r rest ih =>
    intro h j hj
    show hGet (hParentInit (hWrite h r _) rest) j = hGet h j
    rw [ih _ j (fun hh => hj (List.mem_cons_of_mem r hh)),
      hGet_hWrite_ne _ _ _ _ (fun hh => hj (by rw [hh]; exact List.mem_cons_self r rest))]

theorem hParentInit_parent (refs : List Nat) :
    ∀ (h : List (HCircle F)) (j : Nat), j ∈ refs → j < h.length →
      (hGet (hParentInit h refs) j).parent = some j := by
  induction refs with
  | nil => intro h j hj _; simp at hj
  | cons r rest ih =>
    intro h j hj hlen
    show (hGet (hParentInit (hWrite h r {hGet h r with parent := some r}) rest) j).parent = some j
    by_cases hjr : j ∈ rest
    · exact ih _ j hjr (by rw [hWrite_length]; exact hlen)
    · have hj' : j = r := by
        rcases List.mem_cons.mp hj with h1 | h1
        · exact h1
        · exact absurd h1 hjr
      subst hj'
      rw [hParentInit_untouched rest _ j hjr, hGet_hWrite_self h j _ hlen]

theorem hParentInit_parentsOK (n : Nat) (h : List (HCircle F)) (refs : List Nat)
    (hcov : ∀ j, n ≤ j → j < h.length → j ∈ refs) :
    parentsOK n (hParentInit h refs) := by
  intro j p hj hget
  by_cases hlen : j < h.length
  · rw [hParentInit_parent refs h j (hcov j hj hlen) hlen] at hget
    obtain rfl := (Option.some.injEq _ _).mp hget
    exact hj
  · rw [hGet_default _ j (by rw [hParentInit_length]; omega)] at hget
    simp at hget

/-- The cleanup pass preserves the invariant. -/
theorem hClearParents_heapOK {n : Nat} {h₀ : List (HCircle F)} (refs : List Nat)
    (hhigh : ∀ r ∈ refs, n ≤ r) :
    ∀ h, heapOK n h₀ h → heapOK n h₀ (hClearParents h refs) := by
  intro h hOK
  exact foldl_preserve (heapOK n h₀) _ refs
    (fun b r hr hb => heapOK_write r _ hb (hhigh r hr) (fun p hp => by simp at hp)) h hOK

theorem hUnionPass_heapOK {n : Nat} {h₀ : List (HCircle F)} (M : JsMath F) (fuel : Nat)
    (refs : List Nat) (hhigh : ∀ r ∈ refs, n ≤ r) (h : List (HCircle F))
    (hOK : heapOK n h₀ h) : heapOK n h₀ (hUnionPass M fuel refs h) := by
  unfold hUnionPass
  refine foldl_preserve (heapOK n h₀) _ _ (fun b i hi hb => ?_) h hOK
  refine foldl_preserve (heapOK n h₀) _ _ (fun b' j hj hb' => ?_) b hb
  have hi' : i < refs.length := List.mem_range.mp hi
  have hj' : j < refs.length := List.mem_range.mp (List.mem_of_mem_drop hj)
  simp only []
  split
  · exact hUnion_heapOK fuel b' _ _ hb'
      (hhigh _ (getD_mem_of_lt refs j hj')) (hhigh _ (getD_mem_of_lt refs i hi'))
  · exact hb'

theorem hGroupClusters_heapOK {n : Nat} {h₀ : List (HCircle F)} (fuel : Nat)
    (refs : List Nat) (hhigh : ∀ r ∈ refs, n ≤ r) (h : List (HCircle F))
    (hOK : heapOK n h₀ h) :
    heapOK n h₀ (hGroupClusters fuel refs h).1 ∧
      ∀ g ∈ (hGroupClusters fuel refs h).2, ∀ r ∈ g.2, n ≤ r := by
  unfold hGroupClusters
  refine foldl_preserve
    (fun st : List (HCircle F) × List (String × List Nat) =>
      heapOK n h₀ st.1 ∧ ∀ g ∈ st.2, ∀ r ∈ g.2, n ≤ r)
    _ refs ?_ (h, []) ⟨hOK, by simp⟩
  · intro st r hr hst
    have hfind := hFind_heapOK fuel st.1 (some r) hst.1
      (fun q hq => by cases hq; exact hhigh r hr)
    simp only []
    split
    · exact ⟨hfind.1, hst.2⟩
    · refine ⟨hfind.1, ?_⟩
      intro g hg x hx
      rcases mem_jsSet _ _ _ g hg with h1 | h1
      · exact hst.2 g h1 x hx
      · subst h1
        simp only at hx
        rcases List.mem_append.mp hx with h2 | h2
        · cases hget : jsGet st.2 _ with
          | none => rw [hget] at h2; simp at h2
          | some old =>
            rw [hget] at h2
            exact hst.2 _ (jsGet_mem _ _ _ hget) x (by simpa using h2)
        · obtain rfl := List.mem_singleton.mp h2
          exact hhigh x hr

theorem hTranslate_heapOK {n : Nat} {h₀ : List (HCircle F)} (refs : List Nat)
    (hhigh : ∀ r ∈ refs, n ≤ r) (h : List (HCircle F)) (hOK : heapOK n h₀ h) :
    heapOK n h₀ (hTranslate refs h) := by
  unfold hTranslate
  cases refs.head? with
  | none => exact hOK
  | some r0 =>
    simp only []
    refine foldl_preserve (heapOK n h₀) _ refs ?_ h hOK
    intro b r hr hb
    exact heapOK_write r _ hb (hhigh r hr) (fun p hp => hb.2 r p (hhigh r hr) hp)

theorem hSubsetOffset_heapOK {n : Nat} {h₀ : List (HCircle F)} (M : JsMath F)
    (refs : List Nat) (hhigh : ∀ r ∈ refs, n ≤ r) (h : List (HCircle F))
    (hOK : heapOK n h₀ h) : heapOK n h₀ (hSubsetOffset M refs h) := by
  cases refs with
  | nil => exact hOK
  | cons r1 rest =>
    cases rest with
    | nil => exact hOK
    | cons r2 rest2 =>
      cases rest2 with
      | cons r3 rest3 => exact hOK
      | nil =>
        unfold hSubsetOffset
        simp only []
        split
        · exact heapOK_write r2 _ hOK (hhigh r2 (by simp))
            (fun p hp => hOK.2 r2 p (hhigh r2 (by simp)) hp)
        · exact hOK

theorem hRotate_heapOK {n : Nat} {h₀ : List (HCircle F)} (M : JsMath F)
    (orientation : Option F) (refs : List Nat) (hhigh : ∀ r ∈ refs, n ≤ r)
    (h : List (HCircle F)) (hOK : heapOK n h₀ h) :
    heapOK n h₀ (hRotate M orientation refs h) := by
  unfold hRotate
  split
  · simp only []
    refine foldl_preserve (heapOK n h₀) _ refs ?_ h hOK
    intro b r hr hb
    exact heapOK_write r _ hb (hhigh r hr) (fun p hp => hb.2 r p (hhigh r hr) hp)
  · exact hOK

theorem hMirror_heapOK {n : Nat} {h₀ : List (HCircle F)} (M : JsMath F)
    (orientation : Option F) (refs : List Nat) (hhigh : ∀ r ∈ refs, n ≤ r)
    (h : List (HCircle F)) (hOK : heapOK n h₀ h) :
    heapOK n h₀ (hMirror M orientation refs h) := by
  unfold hMirror
  split
  · simp only []
    split
    · refine foldl_preserve (heapOK n h₀) _ refs ?_ h hOK
      intro b r hr hb
      exact heapOK_write r _ hb (hhigh r hr) (fun p hp => hb.2 r p (hhigh r hr) hp)
    · exact hOK
  · exact hOK

theorem hOrientateCircles_heapOK {n : Nat} {h₀ : List (HCircle F)} (M : JsMath F)
    (h : List (HCircle F)) (refs0 : List Nat) (orientation : Option F)
    (orientationOrder : Option (HCircle F → HCircle F → F))
    (hhigh : ∀ r ∈ refs0, n ≤ r) (hOK : heapOK n h₀ h) :
    heapOK n h₀ (hOrientateCircles M h refs0 orientation orientationOrder).1 ∧
      ∀ r ∈ (hOrientateCircles M h refs0 orientation orientationOrder).2, n ≤ r := by
  have hrefs : ∀ r ∈ (match orientationOrder with
      | none => refs0
      | some cmp => stableSortBy (fun a b => decide (cmp (hGet h a) (hGet h b) < 0)) refs0),
      n ≤ r := by
    cases orientationOrder with
    | none => exact hhigh
    | some cmp =>
      intro r hr
      exact hhigh r ((stableSortBy_perm _ refs0).mem_iff.mp hr)
  refine ⟨?_, hrefs⟩
  exact hMirror_heapOK M orientation _ hrefs _
    (hRotate_heapOK M orientation _ hrefs _
      (hSubsetOffset_heapOK M _ hrefs _ (hTranslate_heapOK _ hrefs h hOK)))

theorem hAddClusterOffset_heapOK {n : Nat} {h₀ : List (HCircle F)} (spacing : F)
    (returnBounds : Bounds F) (info : HClusterInfo F) (right bottom : Bool)
    (hhigh : ∀ r ∈ info.refs, n ≤ r) (h : List (HCircle F)) (hOK : heapOK n h₀ h) :
    heapOK n h₀ (hAddClusterOffset spacing returnBounds info right bottom h) := by
  unfold hAddClusterOffset
  simp only []
  refine foldl_preserve (heapOK n h₀) _ info.refs ?_ h hOK
  intro b r hr hb
  exact heapOK_write r _ hb (hhigh r hr) (fun p hp => hb.2 r p (hhigh r hr) hp)

theorem hNormChunks_heapOK {n : Nat} {h₀ : List (HCircle F)} (spacing : F) :
    ∀ (fuel : Nat) (rest : List (HClusterInfo F)) (returnBounds : Bounds F)
      (arr : List Nat) (h : List (HCircle F)),
      (∀ info ∈ rest, ∀ r ∈ info.refs, n ≤ r) → heapOK n h₀ h →
      heapOK n h₀ (hNormChunks spacing fuel rest returnBounds arr h).1 := by
  intro fuel
  induction fuel with
  | zero => intro rest returnBounds arr h _ hOK; exact hOK
  | succ fuel ih =>
    intro rest returnBounds arr h hrest hOK
    cases rest with
    | nil => exact hOK
    | cons c cs =>
      show heapOK n h₀ (hNormChunks spacing fuel ((c :: cs).drop 3) _ _ _).1
      have hstep := foldl_preserve
        (fun st : List (HCircle F) × List Nat => heapOK n h₀ st.1)
        (fun st p =>
          if p.1.size = 0 then st
          else (hAddClusterOffset spacing returnBounds p.1 p.2.1 p.2.2 st.1, st.2 ++ p.1.refs))
        (((c :: cs).take 3).zip [(true, false), (false, true), (true, true)]) ?_ (h, arr) hOK
      · exact ih _ _ _ _ (fun info hi => hrest info (List.mem_of_mem_drop hi)) hstep
      · intro st p hp hst
        simp only []
        split
        · exact hst
        · exact hAddClusterOffset_heapOK spacing returnBounds p.1 p.2.1 p.2.2
            (hrest p.1 (List.mem_of_mem_take (List.of_mem_zip hp).1)) st.1 hst

/-- The clustering phase of the heap pipeline preserves the invariant
(establishing it from coverage for the freshly copied cells) and returns
clusters made of fresh cells only. -/
theorem hDisjointCluster_heapOK {n : Nat} {h₀ : List (HCircle F)} (M : JsMath F)
    (refs : List Nat) (h : List (HCircle F)) (hhigh : ∀ r ∈ refs, n ≤ r)
    (hcov : ∀ j, n ≤ j → j < h.length → j ∈ refs) (hext : hExt n h₀ h) :
    heapOK n h₀ (hDisjointCluster M refs h).1 ∧
      ∀ cl ∈ (hDisjointCluster M refs h).2, ∀ r ∈ cl, n ≤ r := by
  have h1OK : heapOK n h₀ (hParentInit h refs) :=
    ⟨hParentInit_hExt refs hhigh h hext, hParentInit_parentsOK n h refs hcov⟩
  have h2OK := hUnionPass_heapOK M ((hParentInit h refs).length + 1) refs hhigh _ h1OK
  have h3OK := hGroupClusters_heapOK ((hParentInit h refs).length + 1) refs hhigh _ h2OK
  have h4OK := hClearParents_heapOK refs hhigh _ h3OK.1
  refine ⟨h4OK, ?_⟩
  intro cl hcl r hr
  obtain ⟨g, hg, rfl⟩ := List.mem_map.mp hcl
  exact h3OK.2 g hg r hr

/-- C8: neither `normalizeSolution` nor `scaleSolution` writes any circle
cell that existed before the call: over the heap embedding, every cell of
the caller's heap is unchanged after either function runs (normalization
mutates only the freshly copied cells, scaling only allocates).  The record
argument is arbitrary — its references may even dangle — and the result
holds for every Math oracle, orientation and orientation order. -/
theorem normalize_scale_frame (M : JsMath F) (solution : List (String × Nat))
    (h : List (HCircle F)) (orientation : Option F)
    (orientationOrder : Option (HCircle F → HCircle F → F)) (width height padding : F) :
    (∀ i, i < h.length →
      hGet (hNormalizeSolution M solution h orientation orientationOrder).1 i = hGet h i) ∧
    (∀ i, i < h.length →
      hGet (hScaleSolution solution h width height padding).1 i = hGet h i) := by
  constructor
  · intro i hi
    obtain ⟨hlen, hextf, hrefs⟩ := hCopy_fold solution (h, [])
    rw [List.nil_append] at hrefs
    have hcpeq : hCopyCircles solution h = solution.foldl hCopyStep (h, []) := rfl
    have hhigh : ∀ r ∈ (hCopyCircles solution h).2, h.length ≤ r := by
      rw [hcpeq, hrefs]
      intro r hr
      exact (List.mem_range'_1.mp hr).1
    have hcov : ∀ j, h.length ≤ j → j < (hCopyCircles solution h).1.length →
        j ∈ (hCopyCircles solution h).2 := by
      rw [hcpeq]
      intro j hj hjl
      rw [hlen] at hjl
      rw [hrefs]
      exact List.mem_range'_1.mpr ⟨hj, by omega⟩
    have hextcp : hExt h.length h (hCopyCircles solution h).1 := by
      rw [hcpeq]
      exact fun i hi => hextf i hi
    have hdc := @hDisjointCluster_heapOK F _ h.length h M (hCopyCircles solution h).2
      (hCopyCircles solution h).1 hhigh hcov hextcp
    have hstepO : ∀ (st : List (HCircle F) × List (HClusterInfo F))
        (cl : List Nat),
        cl ∈ (hDisjointCluster M (hCopyCircles solution h).2 (hCopyCircles solution h).1).2 →
        (heapOK h.length h st.1 ∧ ∀ info ∈ st.2, ∀ r ∈ info.refs, h.length ≤ r) →
        (heapOK h.length h (hOrientStep M orientation orientationOrder st cl).1 ∧
          ∀ info ∈ (hOrientStep M orientation orientationOrder st cl).2,
            ∀ r ∈ info.refs, h.length ≤ r) := by
      intro st cl hcl hst
      have horior := @hOrientateCircles_heapOK F _ h.length h M st.1 cl orientation orientationOrder
        (hdc.2 cl hcl) hst.1
      unfold hOrientStep
      simp only []
      refine ⟨horior.1, ?_⟩
      intro info hinfo r hr
      rcases List.mem_append.mp hinfo with h1 | h1
      · exact hst.2 info h1 r hr
      · obtain rfl := List.mem_singleton.mp h1
        exact horior.2 r hr
    have hoi := foldl_preserve
      (fun st : List (HCircle F) × List (HClusterInfo F) =>
        heapOK h.length h st.1 ∧ ∀ info ∈ st.2, ∀ r ∈ info.refs, h.length ≤ r)
      (hOrientStep M orientation orientationOrder)
      (hDisjointCluster M (hCopyCircles solution h).2 (hCopyCircles solution h).1).2
      hstepO
      ((hDisjointCluster M (hCopyCircles solution h).2 (hCopyCircles solution h).1).1, [])
      ⟨hdc.1, by simp⟩
    suffices hOK : heapOK h.length h
        (hNormalizeSolution M solution h orientation orientationOrder).1 from hOK.1 i hi
    unfold hNormalizeSolution
    simp only []
    split
    · exact hoi.1
    · next largest restClusters heq =>
      refine (@hNormChunks_heapOK F _ h.length h _ restClusters.length restClusters
        largest.bounds (hCopyCircles solution h).2 _ ?_ hoi.1)
      intro info hinfo
      refine hoi.2 info ((stableSortBy_perm
        (fun a b : HClusterInfo F =>
          decide (¬(a.size = 0 ∨ b.size = 0) ∧ (b.size : F) - a.size < 0)) _).mem_iff.mp ?_)
      rw [heq]
      exact List.mem_cons_of_mem largest hinfo
  · intro i hi
    unfold hScaleSolution
    simp only []
    split
    · rfl
    · refine (foldl_preserve
        (fun st : List (HCircle F) × List (String × Nat) =>
          h.length ≤ st.1.length ∧ ∀ i, i < h.length → hGet st.1 i = hGet h i)
        _ solution ?_ (h, []) ⟨le_refl _, fun i _ => rfl⟩).2 i hi
      intro st kv hkv hst
      split
      · exact hst
      · refine ⟨?_, ?_⟩
        · show h.length ≤ (st.1 ++ _).length
          rw [List.length_append]
          omega
        · intro i hi
          show hGet (st.1 ++ _) i = hGet h i
          rw [← hst.2 i hi]
          simp [hGet, List.getD_eq_getElem?_getD,
            List.getElem?_append_left (show i < st.1.length by omega)]

/-- C8 witness: the frame law applied to a concrete one-circle heap. -/
theorem normalize_scale_frame_witness :
    hGet (hNormalizeSolution qMath [("A", 0)]
        [⟨1, 2, none, none, 3, "A", none⟩] none none).1 0 =
      hGet [(⟨1, 2, none, none, 3, "A", none⟩ : HCircle ℚ)] 0 ∧
    hGet (hScaleSolution [("A", 0)]
        [(⟨1, 2, none, none, 3, "A", none⟩ : HCircle ℚ)] 10 10 1).1 0 =
      hGet [(⟨1, 2, none, none, 3, "A", none⟩ : HCircle ℚ)] 0 :=
  ⟨(normalize_scale_frame qMath [("A", 0)] [⟨1, 2, none, none, 3, "A", none⟩]
      none none 10 10 1).1 0 (by decide),
   (normalize_scale_frame qMath [("A", 0)] [⟨1, 2, none, none, 3, "A", none⟩]
      none none 10 10 1).2 0 (by decide)⟩

/-! ## C4: the distanceFromIntersectArea round trip

The bisection loop is analyzed generically: if the sign probes classify every
point of `[0, B]` against the target root `d`, the returned point is within
the tolerance of `d` (or within the final interval width when the iteration
budget runs out). -/

theorem bisectLoop_err (f : F → F) (fA tol d B : F) (htol : 0 < tol)
    (H1 : ∀ t, 0 ≤ t → t ≤ B → 0 ≤ f t * fA → t ≤ d)
    (H2 : ∀ t, 0 ≤ t → t ≤ B → ¬0 ≤ f t * fA → d ≤ t)
    (H3 : ∀ t, 0 ≤ t → t ≤ B → f t = 0 → t = d) :
    ∀ (fuel : Nat) (a delta : F), 0 < delta → 0 ≤ a → a + delta ≤ B →
      a ≤ d → d ≤ a + delta →
      |bisectLoop f fA tol fuel a delta - d| ≤ max tol (delta / 2 ^ fuel) := by
  intro fuel
  induction fuel with
  | zero =>
    intro a delta hdelta ha hB had hd
    simp only [bisectLoop, pow_zero]
    rw [abs_of_nonneg (by linarith)]
    exact le_max_of_le_right (by rw [div_one]; linarith)
  | succ fuel ih =>
    intro a delta hdelta ha hB had hd
    simp only [bisectLoop]
    by_cases hexit : |delta / 2| < tol ∨ f (a + delta / 2) = 0
    · rw [if_pos hexit]
      rcases hexit with hx | hx
      · have hb1 : |a + delta / 2 - d| ≤ delta / 2 := by
          rw [abs_le]
          constructor <;> linarith
        have hb2 : delta / 2 < tol := by
          rwa [abs_of_pos (by linarith)] at hx
        exact le_max_of_le_left (by linarith)
      · have hmid := H3 (a + delta / 2) (by linarith) (by linarith) hx
        rw [hmid, sub_self, abs_zero]
        exact le_max_of_le_left htol.le
    · rw [if_neg hexit]
      rw [show delta / 2 ^ (fuel + 1) = delta / 2 / 2 ^ fuel from by rw [pow_succ]; ring]
      by_cases hsign : f (a + delta / 2) * fA ≥ 0
      · rw [if_pos hsign]
        exact ih (a + delta / 2) (delta / 2) (by linarith) (by linarith) (by linarith)
          (H1 (a + delta / 2) (by linarith) (by linarith) hsign) (by linarith)
      · rw [if_neg hsign]
        exact ih a (delta / 2) (by linarith) ha (by linarith) had
          (H2 (a + delta / 2) (by linarith) (by linarith) hsign)

/-- The radicand of the lens-area formula is positive strictly between
`|r1 - r2|` and `r1 + r2`. -/
theorem c4_P_pos (r1 r2 t : ℝ) (h1 : 0 < r1) (h2 : 0 < r2)
    (ht1 : |r1 - r2| < t) (ht2 : t < r1 + r2) :
    0 < (-t + r1 + r2) * ((t + r1 - r2) * ((t - r1 + r2) * (t + r1 + r2))) := by
  obtain ⟨hl, hr⟩ := abs_lt.mp ht1
  have ht : 0 < t := lt_of_le_of_lt (abs_nonneg _) ht1
  exact mul_pos (by linarith) (mul_pos (by linarith) (mul_pos (by linarith) (by linarith)))

theorem c4_one_sub_u1_sq (r1 r2 t : ℝ) (h1 : 0 < r1) (ht : 0 < t) :
    1 - ((t ^ 2 + r1 ^ 2 - r2 ^ 2) / (2 * t * r1)) ^ 2 =
      (-t + r1 + r2) * ((t + r1 - r2) * ((t - r1 + r2) * (t + r1 + r2))) /
        (4 * t ^ 2 * r1 ^ 2) := by
  field_simp
  ring

theorem c4_sqrt_4sq (t r : ℝ) (ht : 0 < t) (hr : 0 < r) :
    Real.sqrt (4 * t ^ 2 * r ^ 2) = 2 * t * r := by
  rw [show 4 * t ^ 2 * r ^ 2 = (2 * t * r) ^ 2 by ring]
  exact Real.sqrt_sq (by positivity)

theorem c4_sqrt_one_sub_u1_sq (r1 r2 t : ℝ) (h1 : 0 < r1) (h2 : 0 < r2)
    (ht1 : |r1 - r2| < t) (ht2 : t < r1 + r2) :
    Real.sqrt (1 - ((t ^ 2 + r1 ^ 2 - r2 ^ 2) / (2 * t * r1)) ^ 2) =
      Real.sqrt ((-t + r1 + r2) * ((t + r1 - r2) * ((t - r1 + r2) * (t + r1 + r2)))) /
        (2 * t * r1) := by
  have ht : 0 < t := lt_of_le_of_lt (abs_nonneg _) ht1
  rw [c4_one_sub_u1_sq r1 r2 t h1 ht,
    Real.sqrt_div (c4_P_pos r1 r2 t h1 h2 ht1 ht2).le, c4_sqrt_4sq t r1 ht h1]

theorem c4_u1_sq_lt_one (r1 r2 t : ℝ) (h1 : 0 < r1) (h2 : 0 < r2)
    (ht1 : |r1 - r2| < t) (ht2 : t < r1 + r2) :
    ((t ^ 2 + r1 ^ 2 - r2 ^ 2) / (2 * t * r1)) ^ 2 < 1 := by
  have ht : 0 < t := lt_of_le_of_lt (abs_nonneg _) ht1
  have hq := c4_one_sub_u1_sq r1 r2 t h1 ht
  have hp := c4_P_pos r1 r2 t h1 h2 ht1 ht2
  nlinarith [div_pos hp (show (0 : ℝ) < 4 * t ^ 2 * r1 ^ 2 by positivity)]

theorem c4_u1_ne_one (r1 r2 t : ℝ) (h1 : 0 < r1) (h2 : 0 < r2)
    (ht1 : |r1 - r2| < t) (ht2 : t < r1 + r2) :
    (t ^ 2 + r1 ^ 2 - r2 ^ 2) / (2 * t * r1) ≠ 1 := by
  intro hc
  have := c4_u1_sq_lt_one r1 r2 t h1 h2 ht1 ht2
  rw [hc] at this
  norm_num at this

theorem c4_u1_ne_neg_one (r1 r2 t : ℝ) (h1 : 0 < r1) (h2 : 0 < r2)
    (ht1 : |r1 - r2| < t) (ht2 : t < r1 + r2) :
    (t ^ 2 + r1 ^ 2 - r2 ^ 2) / (2 * t * r1) ≠ -1 := by
  intro hc
  have := c4_u1_sq_lt_one r1 r2 t h1 h2 ht1 ht2
  rw [hc] at this
  norm_num at this

/-- Derivative of the two-circle lens area with respect to the center
distance: `A'(t) = -sqrt(P(t))/t` strictly between `|r1 - r2|` and
`r1 + r2`. -/
theorem c4_hasDerivAt (r1 r2 t : ℝ) (h1 : 0 < r1) (h2 : 0 < r2)
    (ht1 : |r1 - r2| < t) (ht2 : t < r1 + r2) :
    HasDerivAt (fun x => r1 ^ 2 * Real.arccos ((x ^ 2 + r1 ^ 2 - r2 ^ 2) / (2 * x * r1)) +
        r2 ^ 2 * Real.arccos ((x ^ 2 + r2 ^ 2 - r1 ^ 2) / (2 * x * r2)) -
        Real.sqrt ((-x + r1 + r2) * ((x + r1 - r2) * ((x - r1 + r2) * (x + r1 + r2)))) / 2)
      (-(Real.sqrt ((-t + r1 + r2) * ((t + r1 - r2) * ((t - r1 + r2) * (t + r1 + r2)))) / t))
      t := by
  have ht : 0 < t := lt_of_le_of_lt (abs_nonneg _) ht1
  have ht1' : |r2 - r1| < t := by rwa [abs_sub_comm]
  have ht2' : t < r2 + r1 := by linarith
  have hden1 : 2 * t * r1 ≠ 0 := by positivity
  have hden2 : 2 * t * r2 ≠ 0 := by positivity
  have hPpos := c4_P_pos r1 r2 t h1 h2 ht1 ht2
  have hnum1 : HasDerivAt (fun x : ℝ => x ^ 2 + r1 ^ 2 - r2 ^ 2) (2 * t) t := by
    simpa using ((hasDerivAt_pow 2 t).add_const (r1 ^ 2)).sub_const (r2 ^ 2)
  have hnum2 : HasDerivAt (fun x : ℝ => x ^ 2 + r2 ^ 2 - r1 ^ 2) (2 * t) t := by
    simpa using ((hasDerivAt_pow 2 t).add_const (r2 ^ 2)).sub_const (r1 ^ 2)
  have hdf1 : HasDerivAt (fun x : ℝ => 2 * x * r1) (2 * r1) t := by
    simpa using ((hasDerivAt_id t).const_mul (2 : ℝ)).mul_const r1
  have hdf2 : HasDerivAt (fun x : ℝ => 2 * x * r2) (2 * r2) t := by
    simpa using ((hasDerivAt_id t).const_mul (2 : ℝ)).mul_const r2
  have hu1 := hnum1.div hdf1 hden1
  have hu2 := hnum2.div hdf2 hden2
  have ha1 := HasDerivAt.comp t
    (Real.hasDerivAt_arccos (c4_u1_ne_neg_one r1 r2 t h1 h2 ht1 ht2)
      (c4_u1_ne_one r1 r2 t h1 h2 ht1 ht2)) hu1
  have ha2 := HasDerivAt.comp t
    (Real.hasDerivAt_arccos (c4_u1_ne_neg_one r2 r1 t h2 h1 ht1' ht2')
      (c4_u1_ne_one r2 r1 t h2 h1 ht1' ht2')) hu2
  have hp1 : HasDerivAt (fun x : ℝ => -x + r1 + r2) (-1) t := by
    simpa using (((hasDerivAt_id t).neg).add_const r1).add_const r2
  have hp2 : HasDerivAt (fun x : ℝ => x + r1 - r2) 1 t := by
    simpa using ((hasDerivAt_id t).add_const r1).sub_const r2
  have hp3 : HasDerivAt (fun x : ℝ => x - r1 + r2) 1 t := by
    simpa using ((hasDerivAt_id t).sub_const r1).add_const r2
  have hp4 : HasDerivAt (fun x : ℝ => x + r1 + r2) 1 t := by
    simpa using ((hasDerivAt_id t).add_const r1).add_const r2
  have hP := hp1.mul (hp2.mul (hp3.mul hp4))
  have hsq := HasDerivAt.comp t (Real.hasDerivAt_sqrt hPpos.ne') hP
  have htotal := ((ha1.const_mul (r1 ^ 2)).add (ha2.const_mul (r2 ^ 2))).sub (hsq.div_const 2)
  convert htotal using 1
  rw [c4_sqrt_one_sub_u1_sq r1 r2 t h1 h2 ht1 ht2]
  have h2sqrt := c4_sqrt_one_sub_u1_sq r2 r1 t h2 h1 ht1' ht2'
  rw [show (-t + r2 + r1) * ((t + r2 - r1) * ((t - r2 + r1) * (t + r2 + r1))) =
    (-t + r1 + r2) * ((t + r1 - r2) * ((t - r1 + r2) * (t + r1 + r2))) from by ring] at h2sqrt
  rw [h2sqrt]
  have hs2 : Real.sqrt ((-t + r1 + r2) * ((t + r1 - r2) * ((t - r1 + r2) * (t + r1 + r2)))) ^ 2 =
      (-t + r1 + r2) * ((t + r1 - r2) * ((t - r1 + r2) * (t + r1 + r2))) :=
    Real.sq_sqrt hPpos.le
  have hspos : 0 < Real.sqrt ((-t + r1 + r2) * ((t + r1 - r2) * ((t - r1 + r2) * (t + r1 + r2)))) :=
    Real.sqrt_pos.mpr hPpos
  have hsne := hspos.ne'
  have htne := ht.ne'
  have h1ne := h1.ne'
  have h2ne := h2.ne'
  set s := Real.sqrt ((-t + r1 + r2) * ((t + r1 - r2) * ((t - r1 + r2) * (t + r1 + r2)))) with hsdef
  field_simp
  linear_combination (-(64 * s ^ 2 * t ^ 4 * r1 ^ 2 * r2 ^ 2)) * hs2

/-- The lens-area formula is strictly decreasing on the bisection regime
`(|r1 - r2|, r1 + r2]`. -/
theorem c4_strictAntiOn (r1 r2 : ℝ) (h1 : 0 < r1) (h2 : 0 < r2) :
    StrictAntiOn (fun t : ℝ =>
        r1 ^ 2 * Real.arccos ((t ^ 2 + r1 ^ 2 - r2 ^ 2) / (2 * t * r1)) +
        r2 ^ 2 * Real.arccos ((t ^ 2 + r2 ^ 2 - r1 ^ 2) / (2 * t * r2)) -
        Real.sqrt ((-t + r1 + r2) * ((t + r1 - r2) * ((t - r1 + r2) * (t + r1 + r2)))) / 2)
      (Set.Ioc |r1 - r2| (r1 + r2)) := by
  have hpos : ∀ t ∈ Set.Ioc |r1 - r2| (r1 + r2), (0 : ℝ) < t := fun t ht =>
    lt_of_le_of_lt (abs_nonneg _) ht.1
  apply strictAntiOn_of_deriv_neg (convex_Ioc _ _)
  · apply ContinuousOn.sub
    · apply ContinuousOn.add
      · apply ContinuousOn.mul continuousOn_const
        apply Real.continuous_arccos.comp_continuousOn
        apply ContinuousOn.div
        · exact Continuous.continuousOn (by continuity)
        · exact Continuous.continuousOn (by continuity)
        · intro t ht
          have := hpos t ht
          positivity
      · apply ContinuousOn.mul continuousOn_const
        apply Real.continuous_arccos.comp_continuousOn
        apply ContinuousOn.div
        · exact Continuous.continuousOn (by continuity)
        · exact Continuous.continuousOn (by continuity)
        · intro t ht
          have := hpos t ht
          positivity
    · apply ContinuousOn.div_const
      exact (Real.continuous_sqrt.comp (by continuity)).continuousOn
  · intro x hx
    rw [interior_Ioc] at hx
    rw [(c4_hasDerivAt r1 r2 x h1 h2 hx.1 hx.2).deriv]
    have hxpos : (0 : ℝ) < x := lt_of_le_of_lt (abs_nonneg _) hx.1
    have hP := c4_P_pos r1 r2 x h1 h2 hx.1 hx.2
    exact neg_lt_zero.mpr (div_pos (Real.sqrt_pos.mpr hP) hxpos)

/-- The lens-area formula vanishes at `t = r1 + r2`. -/
theorem c4_A_top (r1 r2 : ℝ) (h1 : 0 < r1) (h2 : 0 < r2) :
    r1 ^ 2 * Real.arccos (((r1 + r2) ^ 2 + r1 ^ 2 - r2 ^ 2) / (2 * (r1 + r2) * r1)) +
        r2 ^ 2 * Real.arccos (((r1 + r2) ^ 2 + r2 ^ 2 - r1 ^ 2) / (2 * (r1 + r2) * r2)) -
        Real.sqrt ((-(r1 + r2) + r1 + r2) *
          ((r1 + r2 + r1 - r2) * ((r1 + r2 - r1 + r2) * (r1 + r2 + r1 + r2)))) / 2 = 0 := by
  have hr1 := h1.ne'
  have hr2 := h2.ne'
  have h12 : r1 + r2 ≠ 0 := by positivity
  rw [show ((r1 + r2) ^ 2 + r1 ^ 2 - r2 ^ 2) / (2 * (r1 + r2) * r1) = 1 from by
    field_simp; ring]
  rw [show ((r1 + r2) ^ 2 + r2 ^ 2 - r1 ^ 2) / (2 * (r1 + r2) * r2) = 1 from by
    field_simp; ring]
  rw [show (-(r1 + r2) + r1 + r2) *
      ((r1 + r2 + r1 - r2) * ((r1 + r2 - r1 + r2) * (r1 + r2 + r1 + r2))) = 0 from by ring]
  rw [Real.arccos_one, Real.sqrt_zero]
  ring

/-- On the open regime, `circleOverlap` (through a faithful real Math
oracle) equals the real lens-area formula. -/
theorem c4_overlap_mid (M : JsMath ℝ)
    (hsqrt : ∀ x, 0 ≤ x → M.sqrt x = Real.sqrt x)
    (hacos : ∀ x, M.acos x = Real.arccos x)
    (r1 r2 t : ℝ) (h1 : 0 < r1) (h2 : 0 < r2)
    (ht1 : |r1 - r2| < t) (ht2 : t < r1 + r2) :
    circleOverlap M r1 r2 t =
      r1 ^ 2 * Real.arccos ((t ^ 2 + r1 ^ 2 - r2 ^ 2) / (2 * t * r1)) +
        r2 ^ 2 * Real.arccos ((t ^ 2 + r2 ^ 2 - r1 ^ 2) / (2 * t * r2)) -
        Real.sqrt ((-t + r1 + r2) * ((t + r1 - r2) * ((t - r1 + r2) * (t + r1 + r2)))) / 2 := by
  have hP := c4_P_pos r1 r2 t h1 h2 ht1 ht2
  have hP0 : 0 ≤ (-t + r1 + r2) * (t + r1 - r2) * (t - r1 + r2) * (t + r1 + r2) := by
    rw [show (-t + r1 + r2) * (t + r1 - r2) * (t - r1 + r2) * (t + r1 + r2) =
      (-t + r1 + r2) * ((t + r1 - r2) * ((t - r1 + r2) * (t + r1 + r2))) from by ring]
    exact hP.le
  unfold circleOverlap
  rw [if_neg (not_le.mpr ht2), if_neg (not_le.mpr ht1), hacos, hacos, hsqrt _ hP0]
  rw [show (-t + r1 + r2) * (t + r1 - r2) * (t - r1 + r2) * (t + r1 + r2) =
    (-t + r1 + r2) * ((t + r1 - r2) * ((t - r1 + r2) * (t + r1 + r2))) from by ring]

/-- Containment branch of `circleOverlap`. -/
theorem c4_overlap_plateau (M : JsMath ℝ) (r1 r2 t : ℝ) (h1 : 0 < r1) (h2 : 0 < r2)
    (ht : t ≤ |r1 - r2|) :
    circleOverlap M r1 r2 t = M.pi * min r1 r2 ^ 2 := by
  have habs : |r1 - r2| < r1 + r2 := abs_lt.mpr ⟨by linarith, by linarith⟩
  unfold circleOverlap
  rw [if_neg (not_le.mpr (lt_of_le_of_lt ht habs)), if_pos ht]

/-- Disjoint branch of `circleOverlap`. -/
theorem c4_overlap_top (M : JsMath ℝ) (r1 r2 t : ℝ) (ht : r1 + r2 ≤ t) :
    circleOverlap M r1 r2 t = 0 := by
  unfold circleOverlap
  rw [if_pos ht]

set_option maxHeartbeats 1000000 in
/-- C4: round-trip law of `distanceFromIntersectArea`.  Through any Math
oracle whose `sqrt`, `acos` and `pi` are the real ones, for radii
`r1, r2 > 0` and any center distance `d` in `[|r1 - r2|, r1 + r2]` whose
overlap lies below the full-containment area by more than the shortcut
margin `SMALL` (the code's bisection regime), the function returns `.ok x`
with `|x - d|` at most `max SMALL ((r1 + r2) / 2 ^ 100)` — the bisection
tolerance or the final interval width; and whenever the requested overlap
meets or exceeds `pi * min r1 r2 ^ 2` within `SMALL`, it returns exactly
`|r1 - r2|`. -/
theorem distanceFromIntersectArea_round_trip (M : JsMath ℝ)
    (hsqrt : ∀ x, 0 ≤ x → M.sqrt x = Real.sqrt x)
    (hacos : ∀ x, M.acos x = Real.arccos x)
    (hpi : M.pi = Real.pi)
    (r1 r2 d : ℝ) (h1 : 0 < r1) (h2 : 0 < r2)
    (hd0 : |r1 - r2| ≤ d) (hd1 : d ≤ r1 + r2)
    (hbr : circleOverlap M r1 r2 d + SMALL < min r1 r2 * min r1 r2 * M.pi) :
    (∃ x, distanceFromIntersectArea M r1 r2 (circleOverlap M r1 r2 d) = .ok x ∧
        |x - d| ≤ max SMALL ((r1 + r2) / 2 ^ 100)) ∧
    ∀ ov, min r1 r2 * min r1 r2 * M.pi ≤ ov + SMALL →
      distanceFromIntersectArea M r1 r2 ov = .ok |r1 - r2| := by
  refine ⟨?_, fun ov hov => by unfold distanceFromIntersectArea; rw [if_pos hov]⟩
  have hsmall : (0 : ℝ) < SMALL := by norm_num [SMALL]
  have hd0' : (0 : ℝ) ≤ d := le_trans (abs_nonneg _) hd0
  have hB : (0 : ℝ) < r1 + r2 := by positivity
  have habs_lt : |r1 - r2| < r1 + r2 := abs_lt.mpr ⟨by linarith, by linarith⟩
  have hgd_lt : circleOverlap M r1 r2 d < Real.pi * min r1 r2 ^ 2 := by
    rw [show min r1 r2 * min r1 r2 * M.pi = M.pi * min r1 r2 ^ 2 from by ring, hpi] at hbr
    linarith
  have hd0'' : |r1 - r2| < d := by
    rcases lt_or_eq_of_le hd0 with h | h
    · exact h
    · exfalso
      have hpl := c4_overlap_plateau M r1 r2 d h1 h2 (le_of_eq h.symm)
      rw [hpl, hpi] at hbr
      rw [show min r1 r2 * min r1 r2 * Real.pi = Real.pi * min r1 r2 ^ 2 from by ring] at hbr
      linarith
  have hf0 : circleOverlap M r1 r2 0 = M.pi * min r1 r2 ^ 2 :=
    c4_overlap_plateau M r1 r2 0 h1 h2 (abs_nonneg _)
  have hfB : circleOverlap M r1 r2 (r1 + r2) = 0 := c4_overlap_top M r1 r2 (r1 + r2) le_rfl
  have hfApos : 0 < circleOverlap M r1 r2 0 - circleOverlap M r1 r2 d := by
    rw [hf0, hpi]
    linarith
  unfold distanceFromIntersectArea
  rw [if_neg (not_le.mpr hbr)]
  unfold bisect
  simp only []
  rcases eq_or_lt_of_le hd1 with hdB | hdB
  · subst hdB
    rw [sub_self, mul_zero, if_neg (lt_irrefl (0 : ℝ)), if_neg hfApos.ne', if_pos rfl]
    refine ⟨r1 + r2, rfl, ?_⟩
    rw [sub_self, abs_zero]
    exact le_max_of_le_left hsmall.le
  · have hanti := c4_strictAntiOn r1 r2 h1 h2
    have hdmem : d ∈ Set.Ioc |r1 - r2| (r1 + r2) := ⟨hd0'', hd1⟩
    have hBmem : (r1 + r2) ∈ Set.Ioc |r1 - r2| (r1 + r2) := ⟨habs_lt, le_rfl⟩
    have hA_B : (fun t : ℝ =>
        r1 ^ 2 * Real.arccos ((t ^ 2 + r1 ^ 2 - r2 ^ 2) / (2 * t * r1)) +
        r2 ^ 2 * Real.arccos ((t ^ 2 + r2 ^ 2 - r1 ^ 2) / (2 * t * r2)) -
        Real.sqrt ((-t + r1 + r2) * ((t + r1 - r2) * ((t - r1 + r2) * (t + r1 + r2)))) / 2)
        (r1 + r2) = 0 := c4_A_top r1 r2 h1 h2
    have hgIoc : ∀ t ∈ Set.Ioc |r1 - r2| (r1 + r2), circleOverlap M r1 r2 t =
        (fun t : ℝ =>
          r1 ^ 2 * Real.arccos ((t ^ 2 + r1 ^ 2 - r2 ^ 2) / (2 * t * r1)) +
          r2 ^ 2 * Real.arccos ((t ^ 2 + r2 ^ 2 - r1 ^ 2) / (2 * t * r2)) -
          Real.sqrt ((-t + r1 + r2) * ((t + r1 - r2) * ((t - r1 + r2) * (t + r1 + r2)))) / 2) t := by
      intro t ht
      rcases eq_or_lt_of_le ht.2 with h | h
      · subst h
        rw [c4_overlap_top M r1 r2 (r1 + r2) le_rfl]
        exact hA_B.symm
      · exact c4_overlap_mid M hsqrt hacos r1 r2 t h1 h2 ht.1 h
    have hgd := hgIoc d hdmem
    have hgd_pos : 0 < circleOverlap M r1 r2 d := by
      have h0 := hanti hdmem hBmem hdB
      rw [hA_B] at h0
      rw [hgd]
      exact h0
    have hfBneg : circleOverlap M r1 r2 (r1 + r2) - circleOverlap M r1 r2 d < 0 := by
      rw [hfB]
      linarith
    have H1 : ∀ t, 0 ≤ t → t ≤ r1 + r2 →
        0 ≤ (circleOverlap M r1 r2 t - circleOverlap M r1 r2 d) *
          (circleOverlap M r1 r2 0 - circleOverlap M r1 r2 d) → t ≤ d := by
      intro t ht0 htB hsign
      by_contra hlt
      push_neg at hlt
      have htmem : t ∈ Set.Ioc |r1 - r2| (r1 + r2) := ⟨lt_trans hd0'' hlt, htB⟩
      have hmono := hanti hdmem htmem hlt
      have hneg : circleOverlap M r1 r2 t - circleOverlap M r1 r2 d < 0 := by
        rw [hgIoc t htmem, hgd]
        simp only [sub_neg]
        exact hmono
      have := mul_neg_of_neg_of_pos hneg hfApos
      linarith
    have H2 : ∀ t, 0 ≤ t → t ≤ r1 + r2 →
        ¬0 ≤ (circleOverlap M r1 r2 t - circleOverlap M r1 r2 d) *
          (circleOverlap M r1 r2 0 - circleOverlap M r1 r2 d) → d ≤ t := by
      intro t ht0 htB hsign
      by_contra hlt
      push_neg at hlt
      apply hsign
      rcases le_or_lt t |r1 - r2| with hpl | hmid
      · rw [c4_overlap_plateau M r1 r2 t h1 h2 hpl, ← hf0]
        exact mul_self_nonneg _
      · have htmem : t ∈ Set.Ioc |r1 - r2| (r1 + r2) := ⟨hmid, le_trans hlt.le hd1⟩
        have hmono := hanti htmem hdmem hlt
        have hpos' : 0 < circleOverlap M r1 r2 t - circleOverlap M r1 r2 d := by
          rw [hgIoc t htmem, hgd]
          simp only [sub_pos]
          exact hmono
        exact mul_nonneg hpos'.le hfApos.le
    have H3 : ∀ t, 0 ≤ t → t ≤ r1 + r2 →
        circleOverlap M r1 r2 t - circleOverlap M r1 r2 d = 0 → t = d := by
      intro t ht0 htB hzero
      have heq : circleOverlap M r1 r2 t = circleOverlap M r1 r2 d := by linarith
      rcases le_or_lt t |r1 - r2| with hpl | hmid
      · exfalso
        rw [c4_overlap_plateau M r1 r2 t h1 h2 hpl, hpi] at heq
        linarith
      · have htmem : t ∈ Set.Ioc |r1 - r2| (r1 + r2) := ⟨hmid, htB⟩
        by_contra hne
        rcases lt_or_gt_of_ne hne with h | h
        · have hmono := hanti htmem hdmem h
          rw [hgIoc t htmem, hgd] at heq
          linarith
        · have hmono := hanti hdmem htmem h
          rw [hgIoc t htmem, hgd] at heq
          linarith
    have hloop := bisectLoop_err
      (fun t => circleOverlap M r1 r2 t - circleOverlap M r1 r2 d)
      (circleOverlap M r1 r2 0 - circleOverlap M r1 r2 d)
      (1 / 10 ^ 10) d (r1 + r2) (by norm_num) H1 H2 H3 100 0 (r1 + r2 - 0)
      (by linarith) le_rfl (by linarith) hd0' (by linarith)
    rw [if_neg (not_lt.mpr (mul_neg_of_pos_of_neg hfApos hfBneg).le),
      if_neg hfApos.ne', if_neg hfBneg.ne]
    refine ⟨_, rfl, ?_⟩
    rw [show max SMALL ((r1 + r2) / 2 ^ 100) = max ((1 : ℝ) / 10 ^ 10) ((r1 + r2 - 0) / 2 ^ 100)
      from by rw [sub_zero]; rfl]
    exact hloop

/-- C4 witness: the round-trip law evaluated with the genuine real Math
functions at `r1 = r2 = 1`, `d = 1`. -/
theorem distanceFromIntersectArea_round_trip_witness :
    (∃ x, distanceFromIntersectArea
        (⟨Real.sqrt, Real.arccos, Real.cos, Real.sin, fun _ _ => 0, Real.pi⟩ : JsMath ℝ) 1 1
        (circleOverlap
          (⟨Real.sqrt, Real.arccos, Real.cos, Real.sin, fun _ _ => 0, Real.pi⟩ : JsMath ℝ) 1 1 1) =
          .ok x ∧
        |x - 1| ≤ max SMALL ((1 + 1) / 2 ^ 100)) ∧
    ∀ ov, min 1 1 * min 1 1 *
        (⟨Real.sqrt, Real.arccos, Real.cos, Real.sin, fun _ _ => 0, Real.pi⟩ : JsMath ℝ).pi ≤
          ov + SMALL →
      distanceFromIntersectArea
        (⟨Real.sqrt, Real.arccos, Real.cos, Real.sin, fun _ _ => 0, Real.pi⟩ : JsMath ℝ) 1 1 ov =
        .ok |1 - 1| :=
  distanceFromIntersectArea_round_trip
    ⟨Real.sqrt, Real.arccos, Real.cos, Real.sin, fun _ _ => 0, Real.pi⟩
    (fun _ _ => rfl) (fun _ => rfl) rfl 1 1 1 one_pos one_pos
    (by norm_num) (by norm_num)
    (by
      have h3 : (1 : ℝ) ≤ Real.sqrt 3 := by
        rw [show (1 : ℝ) = Real.sqrt 1 from Real.sqrt_one.symm]
        exact Real.sqrt_le_sqrt (by norm_num)
      have harc : Real.arccos (1 / 2) ≤ Real.pi / 2 :=
        Real.arccos_le_pi_div_two.mpr (by norm_num)
      unfold circleOverlap
      rw [if_neg (by norm_num), if_neg (by norm_num)]
      norm_num [SMALL]
      linarith)

end VennHelper
